import Mathlib

/-!
# Verification development for the mg7d agent (carrion)

A shallow embedding of the parser (`internal/parser/time.go`), the ring buffer
(`internal/util/ring.go`) and the FPS guardrail policy
(`internal/policy/fps_guard.go`, `internal/policy/engine.go`), followed by the
theorems that settle the specification's claims about them.

Conventions of the embedding.

* A Go `string` is a list of Unicode code points (`GoString`); the strings are taken
  to be valid UTF-8.  Every byte the parser compares against (`' '`, `'\t'`, `':'`,
  digits, letters) is ASCII, so scanning bytes and scanning code points stop at the
  same places.
* A `float64` is `Float64`: NaN, the two infinities, or a finite dyadic value
  `m * 2^e` kept in lowest terms (`m` odd, or `0 * 2^0`); the two zeros are not told apart.
* `int` is 64 bits wide.
* Functions of the Go standard library are modelled from their documented
  behaviour, in the section that precedes their first use.
-/

namespace Carrion

/-! ## Strings -/

/-- A Go string, as its sequence of code points. -/
abbrev GoString := List Char

/-- Go `unicode.IsSpace`. -/
def isSpace (c : Char) : Bool :=
  let n := c.toNat
  n == 0x09 || n == 0x0A || n == 0x0B || n == 0x0C || n == 0x0D || n == 0x20 ||
  n == 0x85 || n == 0xA0 || n == 0x1680 || (0x2000 ≤ n && n ≤ 0x200A) ||
  n == 0x2028 || n == 0x2029 || n == 0x202F || n == 0x205F || n == 0x3000

/-- Go `strings.TrimSpace`: drop leading and trailing white space. -/
def TrimSpace (s : GoString) : GoString :=
  ((s.dropWhile isSpace).reverse.dropWhile isSpace).reverse

/-- Go `strings.HasPrefix`. -/
def HasPrefix (s p : GoString) : Bool := p.isPrefixOf s

/-- Go `strings.TrimPrefix`. -/
def TrimPrefix (s p : GoString) : GoString :=
  if HasPrefix s p then s.drop p.length else s

/-- Go `strings.HasSuffix`. -/
def HasSuffix (s p : GoString) : Bool := p.reverse.isPrefixOf s.reverse

/-- Go `strings.TrimSuffix`. -/
def TrimSuffix (s p : GoString) : GoString :=
  if HasSuffix s p then s.take (s.length - p.length) else s

/-- Go `unicode.ToLower` as far as the parser can observe it: the result is only ever
compared with ASCII text, and the only code points whose lower case is ASCII are
`A`..`Z`, U+0130 (lower case `i`) and U+212A (lower case `k`).  Every other code
point is left as it is. -/
def toLowerRune (c : Char) : Char :=
  let n := c.toNat
  if 0x41 ≤ n ∧ n ≤ 0x5A then Char.ofNat (n + 32)
  else if n = 0x130 then 'i'
  else if n = 0x212A then 'k'
  else c

/-- Go `strings.ToLower`. -/
def ToLower (s : GoString) : GoString := s.map toLowerRune

/-! ## float64 -/

/-- A `float64` value. `fin m e` is the finite value `m * 2^e`. -/
inductive Float64 where
  | nan : Float64
  | inf (neg : Bool) : Float64
  | fin (m : Int) (e : Int) : Float64
  deriving DecidableEq, Repr

namespace Float64

/-- The value zero. -/
def zero : Float64 := fin 0 0

instance : Inhabited Float64 := ⟨zero⟩

/-- Strip factors of two from a mantissa: `fuel` bounds the number of halvings. -/
def normAux : Nat → Nat → Int → Nat × Int
  | 0, m, e => (m, e)
  | fuel + 1, m, e =>
    if m % 2 = 0 then normAux fuel (m / 2) (e + 1) else (m, e)

/-- Lowest terms of `m * 2^e`. -/
def norm (m : Nat) (e : Int) : Nat × Int :=
  if m = 0 then (0, 0) else normAux m m e

/-- Halve `n` until it is below 2, counting the steps (at most `fuel` of them) in `acc`. -/
def log2Aux : Nat → Nat → Nat → Nat
  | 0, _, acc => acc
  | fuel + 1, n, acc => if n < 2 then acc else log2Aux fuel (n / 2) (acc + 1)

/-- The integer part of the binary logarithm of `n` (0 for `n = 0`). -/
def log2 (n : Nat) : Nat := log2Aux n n 0

/-- Whether `num / den ≥ 2^e`. -/
def geTwoPow (num den : Nat) (e : Int) : Bool :=
  if 0 ≤ e then decide (den * 2 ^ e.toNat ≤ num) else decide (den ≤ num * 2 ^ (-e).toNat)

/-- Round the positive rational `num / den` to the nearest float64, ties to even
(IEEE 754 binary64: 53 significant bits, least exponent -1022, gradual underflow).
`none` when the rounded value is beyond the largest finite float64. -/
def roundPos (num den : Nat) : Option (Nat × Int) :=
  let e0 : Int := (log2 num : Int) - (log2 den : Int)
  let e : Int := if geTwoPow num den e0 then e0 else e0 - 1
  let sh : Int := max e (-1022) - 52
  let a : Nat := if 0 ≤ sh then num else num * 2 ^ (-sh).toNat
  let b : Nat := if 0 ≤ sh then den * 2 ^ sh.toNat else den
  let q := a / b
  let r := a % b
  let m := if 2 * r < b then q else if b < 2 * r then q + 1 else if q % 2 = 0 then q else q + 1
  if 0 ≤ sh ∧ 2 ^ 1024 ≤ m * 2 ^ sh.toNat then none else some (norm m sh)

/-- The float64 nearest to `± num / den`; `none` on overflow. -/
def ofRatio (neg : Bool) (num den : Nat) : Option Float64 :=
  if num = 0 ∨ den = 0 then some zero
  else match roundPos num den with
    | none => none
    | some (m, e) => some (fin (if neg then -(m : Int) else (m : Int)) e)

/-- The float64 of an integer constant that needs no rounding. -/
def ofInt (n : Int) : Float64 :=
  let p := norm n.natAbs 0
  fin (if n < 0 then -(p.1 : Int) else (p.1 : Int)) p.2

/-- Go `x < y` on float64: false as soon as either side is NaN. -/
def lt : Float64 → Float64 → Bool
  | nan, _ => false
  | _, nan => false
  | inf true, inf true => false
  | inf true, _ => true
  | _, inf true => false
  | inf false, _ => false
  | _, inf false => true
  | fin m1 e1, fin m2 e2 =>
    decide (m1 * 2 ^ (e1 - min e1 e2).toNat < m2 * 2 ^ (e2 - min e1 e2).toNat)

/-- Go `x <= y` on float64: false as soon as either side is NaN. -/
def le : Float64 → Float64 → Bool
  | nan, _ => false
  | _, nan => false
  | inf true, _ => true
  | _, inf true => false
  | _, inf false => true
  | inf false, _ => false
  | fin m1 e1, fin m2 e2 =>
    decide (m1 * 2 ^ (e1 - min e1 e2).toNat ≤ m2 * 2 ^ (e2 - min e1 e2).toNat)

/-- Go `x >= y` on float64. -/
def ge (x y : Float64) : Bool := le y x

/-- Go `x * y` on float64 (round to nearest even; NaN for `0 * Inf`). -/
def mul : Float64 → Float64 → Float64
  | nan, _ => nan
  | _, nan => nan
  | inf n1, inf n2 => inf (n1 != n2)
  | inf n1, fin m _ => if m = 0 then nan else inf (n1 != decide (m < 0))
  | fin m _, inf n2 => if m = 0 then nan else inf (decide (m < 0) != n2)
  | fin m1 e1, fin m2 e2 =>
    let neg := decide (m1 * m2 < 0)
    let n := (m1 * m2).natAbs
    let e := e1 + e2
    match (if 0 ≤ e then ofRatio neg (n * 2 ^ e.toNat) 1 else ofRatio neg n (2 ^ (-e).toNat)) with
    | some f => f
    | none => inf neg

/-- Go `int64(x)` for a float64 `x`: truncation toward zero.  Where the value does not fit
(NaN, infinities, magnitude beyond the int64 range) Go leaves the result to the
implementation; the model gives the amd64 result, `-2^63`. -/
def toInt64 : Float64 → Int
  | fin m e =>
    let t : Int := if 0 ≤ e then m * 2 ^ e.toNat else Int.tdiv m (2 ^ (-e).toNat)
    if -(2 ^ 63 : Int) ≤ t ∧ t < 2 ^ 63 then t else -(2 ^ 63 : Int)
  | _ => -(2 ^ 63 : Int)

/-- Go `x + y` on float64 (round to nearest even; NaN for `Inf + -Inf`). -/
def add : Float64 → Float64 → Float64
  | nan, _ => nan
  | _, nan => nan
  | inf n1, inf n2 => if n1 = n2 then inf n1 else nan
  | inf n1, fin _ _ => inf n1
  | fin _ _, inf n2 => inf n2
  | fin m1 e1, fin m2 e2 =>
    let e := min e1 e2
    let s : Int := m1 * 2 ^ (e1 - e).toNat + m2 * 2 ^ (e2 - e).toNat
    let neg := decide (s < 0)
    match (if 0 ≤ e then ofRatio neg (s.natAbs * 2 ^ e.toNat) 1
           else ofRatio neg s.natAbs (2 ^ (-e).toNat)) with
    | some f => f
    | none => inf neg

/-- Go `-x` on float64. -/
def negate : Float64 → Float64
  | nan => nan
  | inf n => inf (!n)
  | fin m e => fin (-m) e

/-- Go `x - y` on float64. -/
def sub (x y : Float64) : Float64 := add x (negate y)

/-- Go `x / y` on float64 (round to nearest even; NaN for `0 / 0` and `Inf / Inf`). -/
def div : Float64 → Float64 → Float64
  | nan, _ => nan
  | _, nan => nan
  | inf _, inf _ => nan
  | inf n1, fin m _ => inf (n1 != decide (m < 0))
  | fin _ _, inf _ => zero
  | fin m1 e1, fin m2 e2 =>
    if m2 = 0 then (if m1 = 0 then nan else inf (decide (m1 < 0)))
    else
      let neg := decide (m1 < 0) != decide (m2 < 0)
      match ofRatio neg (m1.natAbs * 2 ^ (e1 - e2).toNat) (m2.natAbs * 2 ^ (e2 - e1).toNat) with
      | some f => f
      | none => inf neg

/-- Go `x > y` on float64. -/
def gt (x y : Float64) : Bool := lt y x

/-- Go `float64(n)` for an `int64` value `n`: the nearest float64. -/
def ofInt64 (n : Int) : Float64 :=
  match ofRatio (decide (n < 0)) n.natAbs 1 with
  | some f => f
  | none => inf (decide (n < 0))

end Float64

/-! ## strconv -/

/-- ASCII digit test (`'0' <= c && c <= '9'`). -/
def isDigit (c : Char) : Bool := decide (0x30 ≤ c.toNat ∧ c.toNat ≤ 0x39)

/-- Value of an ASCII digit. -/
def digitVal (c : Char) : Nat := c.toNat - 0x30

/-- Go strconv `lower`: `c | ('x' - 'X')`, on an ASCII byte (bytes of other code points
never compare equal to an ASCII letter). -/
def lowerByte (c : Char) : Char :=
  if c.toNat < 0x80 then Char.ofNat (c.toNat ||| 0x20) else c

/-- Hexadecimal letter test, `'a' <= lower(c) && lower(c) <= 'f'`. -/
def isHexLetter (c : Char) : Bool :=
  decide (0x61 ≤ (lowerByte c).toNat ∧ (lowerByte c).toNat ≤ 0x66)

/-- ASCII lower-casing as in strconv `commonPrefixLenIgnoreCase`. -/
def asciiLower (c : Char) : Char :=
  if 0x41 ≤ c.toNat ∧ c.toNat ≤ 0x5A then Char.ofNat (c.toNat + 32) else c

/-- Go strconv `special`, restricted to inputs it must consume whole: `nan`, and
`inf` or `infinity` with an optional sign, in any case. -/
def special (s : GoString) : Option Float64 :=
  let isInf (t : GoString) : Bool :=
    t.map asciiLower = "inf".toList || t.map asciiLower = "infinity".toList
  match s with
  | '+' :: t => if isInf t then some (Float64.inf false) else none
  | '-' :: t => if isInf t then some (Float64.inf true) else none
  | _ =>
    if isInf s then some (Float64.inf false)
    else if s.map asciiLower = "nan".toList then some Float64.nan
    else none

/-- What strconv `readFloat` has gathered from the mantissa. -/
structure Mantissa where
  digits : Nat
  fracDigits : Nat
  sawdot : Bool
  sawdigits : Bool
  underscores : Bool

/-- The mantissa loop of strconv `readFloat`: digits in base 10 or 16, at most one
point, underscores skipped.  Returns what was gathered and the unread rest. -/
def readMantissa (hex : Bool) : GoString → Mantissa → Mantissa × GoString
  | [], m => (m, [])
  | c :: cs, m =>
    if c = '_' then readMantissa hex cs { m with underscores := true }
    else if c = '.' then
      if m.sawdot then (m, c :: cs) else readMantissa hex cs { m with sawdot := true }
    else if isDigit c then
      readMantissa hex cs { m with
        sawdigits := true
        digits := m.digits * (if hex then 16 else 10) + digitVal c
        fracDigits := if m.sawdot then m.fracDigits + 1 else m.fracDigits }
    else if hex && isHexLetter c then
      readMantissa hex cs { m with
        sawdigits := true
        digits := m.digits * 16 + ((lowerByte c).toNat - 0x61 + 10)
        fracDigits := if m.sawdot then m.fracDigits + 1 else m.fracDigits }
    else (m, c :: cs)

/-- The exponent digit loop of strconv `readFloat`: the value stops growing once it
reaches 10000.  Returns the exponent, whether an underscore was seen, and the rest. -/
def readExpDigits : GoString → Nat → Bool → Nat × Bool × GoString
  | [], e, u => (e, u, [])
  | c :: cs, e, u =>
    if c = '_' then readExpDigits cs e true
    else if isDigit c then readExpDigits cs (if e < 10000 then e * 10 + digitVal c else e) u
    else (e, u, c :: cs)

/-- Go strconv `underscoreOK`, after the sign has been removed: an underscore must
stand between digits, or between a base prefix and a digit. -/
def underscoreOKAux (hex : Bool) : GoString → Char → Bool
  | [], saw => saw != '_'
  | c :: cs, saw =>
    if isDigit c || (hex && isHexLetter c) then underscoreOKAux hex cs '0'
    else if c = '_' then
      if saw != '0' then false else underscoreOKAux hex cs '_'
    else if saw = '_' then false
    else underscoreOKAux hex cs '!'

/-- Go strconv `underscoreOK`. -/
def underscoreOK (s : GoString) : Bool :=
  let s1 := match s with
    | '+' :: t => t
    | '-' :: t => t
    | _ => s
  match s1 with
  | '0' :: b :: t =>
    if lowerByte b = 'b' || lowerByte b = 'o' || lowerByte b = 'x' then
      underscoreOKAux (lowerByte b = 'x') t '0'
    else underscoreOKAux false s1 '^'
  | _ => underscoreOKAux false s1 '^'

/-- Go `strconv.ParseFloat(s, 64)`: `none` stands for a non-nil error (bad syntax, or
a value out of range).  The whole of `s` has to be a floating-point literal in
decimal or hexadecimal form, or one of the special names; the value is rounded to
the nearest float64. -/
def ParseFloat (s : GoString) : Option Float64 :=
  match special s with
  | some f => some f
  | none =>
    let neg := s.head? = some '-'
    let s1 := match s with
      | '+' :: t => t
      | '-' :: t => t
      | _ => s
    let hex := match s1 with
      | '0' :: x :: _ :: _ => lowerByte x = 'x'
      | _ => false
    let s2 := if hex then s1.drop 2 else s1
    let (m, r) := readMantissa hex s2 ⟨0, 0, false, false, false⟩
    if !m.sawdigits then none
    else
      let tail : Option (Int × Bool × GoString) :=
        match r with
        | [] => if hex then none else some (0, false, [])
        | c :: cs =>
          if lowerByte c = (if hex then 'p' else 'e') then
            let (esign, ds) : Int × GoString := match cs with
              | '+' :: t => (1, t)
              | '-' :: t => (-1, t)
              | _ => (1, cs)
            match ds with
            | [] => none
            | d :: _ =>
              if isDigit d then
                let (e, u, rest) := readExpDigits ds 0 false
                some (esign * (e : Int), u, rest)
              else none
          else if hex then none else some (0, false, c :: cs)
      match tail with
      | none => none
      | some (e, u, rest) =>
        if rest ≠ [] then none
        else if (m.underscores || u) && !underscoreOK s then none
        else
          let exp : Int := if hex then e - 4 * (m.fracDigits : Int) else e - (m.fracDigits : Int)
          let base : Nat := if hex then 2 else 10
          if 0 ≤ exp then Float64.ofRatio neg (m.digits * base ^ exp.toNat) 1
          else Float64.ofRatio neg m.digits (base ^ (-exp).toNat)

/-- The digits of a decimal integer, read left to right; `none` at the first
character that is not a digit. -/
def readDecimal : GoString → Nat → Option Nat
  | [], n => some n
  | c :: cs, n => if isDigit c then readDecimal cs (n * 10 + digitVal c) else none

/-- Go `strconv.Atoi` with a 64-bit `int`: an optional sign and at least one decimal
digit, nothing else; `none` stands for a non-nil error (bad syntax, or a value
outside `[-2^63, 2^63 - 1]`). -/
def Atoi (s : GoString) : Option Int :=
  let neg := s.head? = some '-'
  let ds := match s with
    | '+' :: t => t
    | '-' :: t => t
    | _ => s
  if ds = [] then none
  else match readDecimal ds 0 with
    | none => none
    | some n =>
      let v : Int := if neg then -(n : Int) else (n : Int)
      if -(2 ^ 63 : Int) ≤ v ∧ v < 2 ^ 63 then some v else none

/-! ## time -/

/-- A `time.Time` as the parser sees it: a civil date and time of day with the zone
offset in seconds east of UTC. -/
structure Time where
  year : Int
  month : Nat
  day : Nat
  hour : Nat
  minute : Nat
  second : Nat
  nanosecond : Nat
  zoneOffset : Int
  deriving DecidableEq, Repr

/-- The zero `time.Time{}`: January 1, year 1, 00:00:00 UTC. -/
def Time.zero : Time := ⟨1, 1, 1, 0, 0, 0, 0, 0⟩

/-- The elements of the three layouts `parseTimeVal` tries, as Go `time.Parse` splits
them (`nextStdChunk`): a literal character, `2006`, `01`, `02`, `15`, `04`, `05`,
`Z07:00`. -/
inductive Chunk where
  | lit (c : Char)
  | longYear
  | zeroMonth
  | zeroDay
  | hour
  | zeroMinute
  | zeroSecond
  | isoColonTZ
  deriving DecidableEq, Repr

/-- Layout `time.RFC3339`, `2006-01-02T15:04:05Z07:00`. -/
def layoutRFC3339 : List Chunk :=
  [.longYear, .lit '-', .zeroMonth, .lit '-', .zeroDay, .lit 'T',
   .hour, .lit ':', .zeroMinute, .lit ':', .zeroSecond, .isoColonTZ]

/-- Layout `2006-01-02 15:04:05`. -/
def layoutDateTime : List Chunk :=
  [.longYear, .lit '-', .zeroMonth, .lit '-', .zeroDay, .lit ' ',
   .hour, .lit ':', .zeroMinute, .lit ':', .zeroSecond]

/-- Layout `01/02/2006 15:04:05`. -/
def layoutUSDateTime : List Chunk :=
  [.zeroMonth, .lit '/', .zeroDay, .lit '/', .longYear, .lit ' ',
   .hour, .lit ':', .zeroMinute, .lit ':', .zeroSecond]

/-- Go time `getnum`: a number of one or two digits, of exactly two when `fixed`. -/
def getnum (s : GoString) (fixed : Bool) : Option (Nat × GoString) :=
  match s with
  | [] => none
  | [a] => if !isDigit a || fixed then none else some (digitVal a, [])
  | a :: b :: r =>
    if !isDigit a then none
    else if !isDigit b then (if fixed then none else some (digitVal a, b :: r))
    else some (digitVal a * 10 + digitVal b, r)

/-- Go time `skip` for a one-character literal of the layout: a space matches any run
of spaces (and the end of the input), any other character matches itself. -/
def skipLit (c : Char) (value : GoString) : Option GoString :=
  if c = ' ' then
    match value with
    | [] => some []
    | v :: _ => if v ≠ ' ' then none else some (value.dropWhile (fun x => x = ' '))
  else
    match value with
    | [] => none
    | v :: r => if v = c then some r else none

/-- Go time `daysIn`. -/
def daysIn (month : Nat) (year : Int) : Nat :=
  if month = 2 then
    (if year % 4 = 0 ∧ (year % 100 ≠ 0 ∨ year % 400 = 0) then 29 else 28)
  else if month = 4 ∨ month = 6 ∨ month = 9 ∨ month = 11 then 30
  else 31

/-- The fields `time.Parse` fills in; `zone` stays `none` when the layout has no zone. -/
structure TimeFields where
  year : Int
  month : Nat
  day : Nat
  hour : Nat
  min : Nat
  sec : Nat
  nsec : Nat
  zone : Option Int

/-- One element of the layout matched against the front of `value`, as in the loop of
Go `time.Parse`; `none` is a parse error. -/
def parseChunk (ch : Chunk) (f : TimeFields) (value : GoString) : Option (TimeFields × GoString) :=
  match ch with
  | .lit c => (skipLit c value).map (fun v => (f, v))
  | .longYear =>
    if value.length < 4 then none
    else match readDecimal (value.take 4) 0 with
      | none => none
      | some y => some ({ f with year := (y : Int) }, value.drop 4)
  | .zeroMonth =>
    match getnum value true with
    | none => none
    | some (m, v) => if m = 0 ∨ 12 < m then none else some ({ f with month := m }, v)
  | .zeroDay =>
    match getnum value true with
    | none => none
    | some (d, v) => some ({ f with day := d }, v)
  | .hour =>
    match getnum value false with
    | none => none
    | some (h, v) => if 24 ≤ h then none else some ({ f with hour := h }, v)
  | .zeroMinute =>
    match getnum value true with
    | none => none
    | some (m, v) => if 60 ≤ m then none else some ({ f with min := m }, v)
  | .zeroSecond =>
    match getnum value true with
    | none => none
    | some (sc, v) =>
      if 60 ≤ sc then none
      else match v with
        | p :: d :: r =>
          if (p = '.' || p = ',') && isDigit d then
            -- a fractional second in the input that the layout does not mention
            let ds := (d :: r).takeWhile isDigit
            let used := ds.take 9
            match readDecimal used 0 with
            | none => none
            | some ns =>
              some ({ f with sec := sc, nsec := ns * 10 ^ (9 - used.length) },
                    (d :: r).dropWhile isDigit)
          else some ({ f with sec := sc }, v)
        | _ => some ({ f with sec := sc }, v)
  | .isoColonTZ =>
    match value with
    | 'Z' :: v => some ({ f with zone := some 0 }, v)
    | sg :: h1 :: h2 :: c :: m1 :: m2 :: v =>
      if c ≠ ':' then none
      else match getnum [h1, h2] true, getnum [m1, m2] true with
        | some (hr, _), some (mm, _) =>
          if 24 < hr ∨ 60 < mm then none
          else if sg = '+' then some ({ f with zone := some (((hr * 60 + mm) * 60 : Nat) : Int) }, v)
          else if sg = '-' then some ({ f with zone := some (-(((hr * 60 + mm) * 60 : Nat) : Int)) }, v)
          else none
        | _, _ => none
    | _ => none

/-- The loop of Go `time.Parse` over the elements of a layout. -/
def parseChunks : List Chunk → TimeFields → GoString → Option (TimeFields × GoString)
  | [], f, value => some (f, value)
  | ch :: rest, f, value =>
    match parseChunk ch f value with
    | none => none
    | some (f1, v1) => parseChunks rest f1 v1

/-- Go `time.Parse(layout, value)` for the three layouts above; `none` is a non-nil
error.  No text may remain after the layout is matched, and the day must exist in
its month. -/
def timeParse (layout : List Chunk) (value : GoString) : Option Time :=
  match parseChunks layout ⟨0, 0, 0, 0, 0, 0, 0, none⟩ value with
  | none => none
  | some (f, rest) =>
    if rest ≠ [] then none
    else if f.day < 1 ∨ daysIn f.month f.year < f.day then none
    else some ⟨f.year, f.month, f.day, f.hour, f.min, f.sec, f.nsec, f.zone.getD 0⟩

/-! ## Snapshot (`internal/state/snapshot.go`) -/

/-- One parsed "Time:" line from the game log. -/
structure Snapshot where
  ParsedAt : Time
  Timestamp : Time
  FPS : Float64
  HeapMB : Float64
  RSSMB : Float64
  Chunks : Int
  CGo : Int
  CGoMissing : Bool
  Players : Int
  Zombies : Int
  EntitiesTotal : Int
  EntitiesActive : Int
  CO : Int
  deriving DecidableEq, Repr

/-- The zero value `state.Snapshot{}`. -/
def Snapshot.zero : Snapshot :=
  { ParsedAt := Time.zero, Timestamp := Time.zero, FPS := Float64.zero,
    HeapMB := Float64.zero, RSSMB := Float64.zero, Chunks := 0, CGo := 0,
    CGoMissing := false, Players := 0, Zombies := 0, EntitiesTotal := 0,
    EntitiesActive := 0, CO := 0 }

/-! ## Parser (`internal/parser/time.go`) -/

/-- A Go `map[string]string`: its entries, each key once.  The order of the list is
the order in which the keys were first stored; `range` does not follow it. -/
abbrev GoMap := List (GoString × GoString)

/-- The assignment `m[k] = v`. -/
def GoMap.set (m : GoMap) (k v : GoString) : GoMap :=
  if m.any (fun p => p.1 = k) then m.map (fun p => if p.1 = k then (k, v) else p)
  else m ++ [(k, v)]

/-- The read `m[k]`: the empty string for a key that is not there. -/
def GoMap.get (m : GoMap) (k : GoString) : GoString :=
  match m.find? (fun p => p.1 = k) with
  | some p => p.2
  | none => []

/-- The scanning condition `c != ' ' && c != '\t' && c != ':'` of the key loops. -/
def isKeyChar (c : Char) : Bool := c != ' ' && c != '\t' && c != ':'

/-- The test made on `rest` in `firstKeyStart` and in the value loop: after the run of
key characters, `k < len(rest) && rest[k] == ':'`. -/
def startsWithKey (rest : GoString) : Bool :=
  match rest.dropWhile isKeyChar with
  | [] => false
  | c :: _ => c = ':'

/-- The loop of `firstKeyStart` from index `j` on, `s` being the text from `j`. -/
def firstKeyStartFrom : GoString → Nat → Int
  | [], _ => -1
  | c :: cs, j =>
    if (c = ' ' || c = '\t') &&
        (decide (0 < (TrimSpace (c :: cs)).length) && startsWithKey (TrimSpace (c :: cs))) then
      (j : Int)
    else firstKeyStartFrom cs (j + 1)

/-- The index of the first " Word:" (space + word + colon), or -1. -/
def firstKeyStart (s : GoString) : Int := firstKeyStartFrom s 0

/-- The value loop of `parseKeyValuePairs` from index `j` on: the index of the first
blank that a key follows, or `len(s)`. -/
def valEndFrom : GoString → Nat → Nat
  | [], j => j
  | c :: cs, j =>
    if (c = ' ' || c = '\t') &&
        (decide (0 < (TrimSpace (c :: cs)).length) && startsWithKey (TrimSpace (c :: cs))) then
      j
    else valEndFrom cs (j + 1)

/-- The `for s != ""` loop of `parseKeyValuePairs`, run for at most `fuel` rounds.
Every round removes at least one character from `s`, so `len(s)` rounds are enough
(`kvLoop_fuel`). -/
def kvLoop : Nat → GoString → GoMap → GoMap
  | 0, _, out => out
  | fuel + 1, s, out =>
    if s = [] then out
    else
      let i := (s.takeWhile isKeyChar).length
      if decide (s.length ≤ i) || (s.drop i).head? != some ':' then out
      else
        let key := s.take (i + 1)
        let s1 := TrimSpace (s.drop (i + 1))
        let valEnd := valEndFrom s1 0
        let val := TrimSpace (s1.take valEnd)
        kvLoop fuel (TrimSpace (s1.drop valEnd)) (out.set (TrimSuffix key ":".toList) val)

/-- Splits "val0 Key1: val1 Key2: val2" where values can contain spaces.  The leading
value (before the first " Word:") is stored as "Time". -/
def parseKeyValuePairs (s : GoString) : GoMap :=
  let out : GoMap := []
  let s := TrimSpace s
  let idx := firstKeyStart s
  if 0 < idx then
    let s1 := TrimSpace (s.drop idx.toNat)
    kvLoop s1.length s1 (out.set "Time".toList (TrimSpace (s.take idx.toNat)))
  else kvLoop s.length s out

/-- The function `parseMB`. -/
def parseMB (s : GoString) : Option Float64 :=
  ParseFloat (TrimSpace (TrimSuffix (ToLower s) "mb".toList))

/-- The function `parseTimeVal`: the first of the three layouts that parses. -/
def parseTimeVal (s : GoString) : Option Time :=
  match timeParse layoutRFC3339 (TrimSpace s) with
  | some t => some t
  | none =>
    match timeParse layoutDateTime (TrimSpace s) with
    | some t => some t
    | none => timeParse layoutUSDateTime (TrimSpace s)

/-- The body of the `for key, val := range pairs` loop of `ParseTimeLine`: the switch
on the lower-cased key. -/
def applyPair (snap : Snapshot) (kv : GoString × GoString) : Snapshot :=
  let key := ToLower kv.1
  let val := kv.2
  if key = "time".toList then
    match parseTimeVal val with
    | some t => { snap with Timestamp := t }
    | none => snap
  else if key = "fps".toList then
    match ParseFloat (TrimSpace val) with
    | some f => { snap with FPS := f }
    | none => snap
  else if key = "heap".toList then
    match parseMB val with
    | some f => { snap with HeapMB := f }
    | none => snap
  else if key = "rss".toList then
    match parseMB val with
    | some f => { snap with RSSMB := f }
    | none => snap
  else if key = "chunks".toList then
    match Atoi (TrimSpace val) with
    | some n => { snap with Chunks := n }
    | none => snap
  else if key = "cgo".toList then
    match Atoi (TrimSpace val) with
    | some n => { snap with CGoMissing := false, CGo := n }
    | none => { snap with CGoMissing := false }
  else if key = "ply".toList ∨ key = "players".toList then
    match Atoi (TrimSpace val) with
    | some n => { snap with Players := n }
    | none => snap
  else if key = "zom".toList ∨ key = "zombies".toList then
    match Atoi (TrimSpace val) with
    | some n => { snap with Zombies := n }
    | none => snap
  else if key = "ent".toList ∨ key = "entities".toList then
    match Atoi (TrimSpace val) with
    | some n => { snap with EntitiesTotal := n }
    | none => snap
  else if key = "ent_active".toList ∨ key = "entities_active".toList then
    match Atoi (TrimSpace val) with
    | some n => { snap with EntitiesActive := n }
    | none => snap
  else if key = "co".toList ∨ key = "connections".toList then
    match Atoi (TrimSpace val) with
    | some n => { snap with CO := n }
    | none => snap
  else snap

/-- The text `ParseTimeLine` hands to `parseKeyValuePairs`. -/
def restOfLine (line : GoString) : GoString :=
  TrimSpace (TrimPrefix (TrimSpace line) "Time:".toList)

/-- The snapshot before any token is applied. -/
def initialSnapshot (now : Time) : Snapshot :=
  { Snapshot.zero with
    ParsedAt := now, Timestamp := now, EntitiesActive := -1, CGo := 0, CGoMissing := true }

/-- The function `ParseTimeLine`.  `now` is the reading of `time.Now()`.  Go leaves open
the sequence in which `range` hands out the entries of a map: `rangeOrder` is that
choice, a rearrangement of the entries of the map it is given (`IsRangeOrder`).  The
result is the snapshot, the `ok` flag and the error (`none` is the nil error). -/
def ParseTimeLine (now : Time) (rangeOrder : GoMap → GoMap) (line : GoString) :
    Snapshot × Bool × Option String :=
  if !HasPrefix (TrimSpace line) "Time:".toList then (Snapshot.zero, false, none)
  else
    let pairs := parseKeyValuePairs (restOfLine line)
    ((rangeOrder pairs).foldl applyPair (initialSnapshot now), true, none)

/-- What `range` may do: hand out the entries of the map, each once, in some order. -/
def IsRangeOrder (rangeOrder : GoMap → GoMap) : Prop := ∀ m, (rangeOrder m).Perm m

/-! ## Ring buffer (`internal/util/ring.go`) -/

/-- A fixed-size ring buffer.  `head` is the next slot to write; it starts at 0 and
only ever takes values `(head + 1) % maxLen`, so it is never negative. -/
structure Ring (α : Type) where
  slice : List α
  head : Nat
  full : Bool
  maxLen : Nat
  deriving DecidableEq

/-- The function `NewRing`: a ring of `maxLen` zero values (64 when `maxLen <= 0`). -/
def NewRing {α : Type} (zero : α) (maxLen : Int) : Ring α :=
  let n : Nat := if maxLen ≤ 0 then 64 else maxLen.toNat
  { slice := List.replicate n zero, head := 0, full := false, maxLen := n }

namespace Ring

variable {α : Type}

/-- The method `Append`: adds an item; the oldest is dropped when full. -/
def Append (r : Ring α) (v : α) : Ring α :=
  let head1 := (r.head + 1) % r.maxLen
  { r with slice := r.slice.set r.head v, head := head1,
           full := if head1 = 0 then true else r.full }

/-- The method `Len`: the current number of elements. -/
def Len (r : Ring α) : Nat := if r.full then r.maxLen else r.head

/-- The copy loop of `CopyOut`, `for i := 0; i < n; i++`, from `i` on with `k` rounds left. -/
def copyLoop (r : Ring α) (start : Nat) : Nat → Nat → List α → List α
  | 0, _, dst => dst
  | k + 1, i, dst =>
    match r.slice[(start + i) % r.maxLen]? with
    | some x => copyLoop r start k (i + 1) (dst.set i x)
    | none => copyLoop r start k (i + 1) dst

/-- The method `CopyOut`: copies up to `len(dst)` items, oldest first, and returns the
destination with the number copied. -/
def CopyOut (r : Ring α) (dst : List α) : List α × Nat :=
  let n := if dst.length < r.Len then dst.length else r.Len
  if n = 0 then (dst, 0)
  else
    let start := if r.full then r.head else 0
    (copyLoop r start n 0 dst, n)

end Ring

/-! ## Actions (`internal/actions/action.go`) -/

/-- A policy-emitted action.  Of the common fields the instance name and the reason
are kept; the action id (drawn from a process-wide counter) and the creation time
are identity metadata that no decision of the guard reads, and are left out. -/
inductive Action where
  | SetGamePref (instanceName reason pref value : String)
  | Say (instanceName reason message : String)
  | RestoreBaseline (instanceName reason : String)
  | Noop (instanceName reason : String)
  deriving DecidableEq, Repr

/-! ## Configuration (`internal/config/config.go`) -/

/-- One step in a throttle profile. -/
structure ThrottleStep where
  Pref : String
  Value : String
  deriving DecidableEq, Repr

/-- A named list of steps. -/
structure ThrottleProfile where
  Steps : List ThrottleStep
  deriving DecidableEq, Repr

/-- The configuration of the FPS guardrail. -/
structure FPSGuardPolicy where
  Enabled : Bool
  ThresholdLow : Float64
  ThresholdRestore : Float64
  RequireLowSamples : Int
  SampleWindowSamples : Int
  RestoreStableSeconds : Float64
  CooldownSeconds : Float64
  DeltaSpikeThreshold : Float64
  SpikeWindowSeconds : Float64
  ThrottleProfile : String
  deriving DecidableEq, Repr

/-- A Go `map[string]ThrottleProfile`, as its entries; a lookup takes the entry of the key. -/
abbrev ProfileMap := List (String × ThrottleProfile)

/-- Telnet connection and safety settings. -/
structure Telnet where
  Host : String
  Port : Int
  Password : String
  RateLimitPerSec : Float64

/-- Policy-specific configuration: `FPSGuard` is a pointer, `none` when nil. -/
structure Policy where
  FPSGuard : Option FPSGuardPolicy

/-- Action-related configuration. -/
structure ActionsCfg where
  ThrottleProfiles : ProfileMap
  Baseline : List (String × String)

/-- A single server instance. -/
structure Instance where
  Name : String
  LogPath : String
  Telnet : Telnet
  Policy : Policy
  Actions : ActionsCfg

/-! ## FPS guardrail (`internal/policy/fps_guard.go`, `internal/policy/engine.go`)

The guard reads the clock once per `Evaluate`; the reading is the argument `now`, in
nanoseconds of the monotonic clock.  The instants the guard keeps (`lastAction`,
`restoreAt`, `lowSince`) are either the zero `time.Time{}` (`none`) or an earlier
reading (`some t`): a reading of `time.Now()` is never the zero time. -/

/-- One second, in nanoseconds. -/
def second : Int := 1000000000

/-- One millisecond, in nanoseconds. -/
def millisecond : Int := 1000000

/-- The largest `time.Duration`. -/
def maxDuration : Int := 2 ^ 63 - 1

/-- The least `time.Duration`. -/
def minDuration : Int := -(2 ^ 63)

/-- Go `now.Sub(u)`, in nanoseconds.  Against the zero time the difference is counted on
the wall clock from year 1 and saturates at `maxDuration`; between two readings it is
the difference of the monotonic readings, saturated to the `int64` range. -/
def Sub (now : Int) (u : Option Int) : Int :=
  match u with
  | none => maxDuration
  | some t =>
    if maxDuration < now - t then maxDuration
    else if now - t < minDuration then minDuration
    else now - t

/-- The conversion `time.Duration(x * float64(time.Second))`. -/
def secondsToDuration (x : Float64) : Int :=
  (Float64.mul x (Float64.ofInt 1000000000)).toInt64

/-- The FPS guardrail policy with hysteresis and cooldown. -/
structure FPSGuard where
  instanceName : String
  cfg : FPSGuardPolicy
  profiles : ProfileMap
  fpsRing : Ring Float64
  lastAction : Option Int
  lastStep : Int
  throttled : Bool
  restoreAt : Option Int
  lowSince : Option Int
  deriving DecidableEq

/-- The function `NewFPSGuard`: fills in the defaults of the configuration and
allocates the ring. -/
def NewFPSGuard (instanceName : String) (cfg : FPSGuardPolicy) (profiles : ProfileMap) :
    FPSGuard :=
  let cfg1 := if cfg.SampleWindowSamples ≤ 0 then { cfg with SampleWindowSamples := 60 } else cfg
  let cfg2 := if cfg1.RequireLowSamples ≤ 0 then { cfg1 with RequireLowSamples := 3 } else cfg1
  { instanceName := instanceName, cfg := cfg2, profiles := profiles,
    fpsRing := NewRing Float64.zero cfg2.SampleWindowSamples,
    lastAction := none, lastStep := 0, throttled := false, restoreAt := none, lowSince := none }

/-- The number of low samples among the first `n` of `buf`:
`buf[i] < ThresholdLow && buf[i] >= 0`. -/
def lowCountOf (cfg : FPSGuardPolicy) (buf : List Float64) (n : Nat) : Nat :=
  (buf.take n).countP (fun x => Float64.lt x cfg.ThresholdLow && Float64.ge x Float64.zero)

/-- The low-sample count `Evaluate` computes from the ring. -/
def FPSGuard.lowCount (g : FPSGuard) : Nat :=
  let r := g.fpsRing.CopyOut (List.replicate g.fpsRing.Len Float64.zero)
  lowCountOf g.cfg r.1 r.2

/-- The profile `Evaluate` looks up, with the zero profile (no steps) when the name is
not in the map. -/
def FPSGuard.steps (g : FPSGuard) : List ThrottleStep :=
  match g.profiles.lookup g.cfg.ThrottleProfile with
  | some p => p.Steps
  | none => []

/-- The indexing `steps[i]`; `none` is the run-time panic for an index out of range. -/
def stepAt (steps : List ThrottleStep) (i : Int) : Option ThrottleStep :=
  if i < 0 then none else steps[i.toNat]?

/-- The method `FPSGuard.Evaluate`: the new state of the guard with the action, if any.
The outer `none` is a run-time panic. -/
def FPSGuard.Evaluate (g0 : FPSGuard) (snap : Snapshot) (now : Int) :
    Option (FPSGuard × Option Action) :=
  let g := { g0 with fpsRing := g0.fpsRing.Append snap.FPS }
  let samples := g.fpsRing.Len
  if (samples : Int) < g.cfg.RequireLowSamples then some (g, none)
  else
    let lowCount := g.lowCount
    match g.profiles.lookup g.cfg.ThrottleProfile with
    | none => some (g, none)
    | some profile =>
      if profile.Steps.length = 0 then some (g, none)
      else
        let cooldown := secondsToDuration g.cfg.CooldownSeconds
        if decide (Sub now g.lastAction < cooldown) && g.throttled then some (g, none)
        else if g.cfg.RequireLowSamples ≤ (lowCount : Int) then
          if !g.throttled then
            match stepAt profile.Steps 0 with
            | none => none
            | some step =>
              some ({ g with throttled := true, lowSince := some now, lastAction := some now,
                             lastStep := 0 },
                    some (Action.SetGamePref g.instanceName "fps_guardrail: FPS below threshold"
                      step.Pref step.Value))
          else if decide (g.lastStep + 1 < (profile.Steps.length : Int)) &&
              decide (cooldown ≤ Sub now g.lastAction) then
            match stepAt profile.Steps (g.lastStep + 1) with
            | none => none
            | some step =>
              some ({ g with lastStep := g.lastStep + 1, lastAction := some now },
                    some (Action.SetGamePref g.instanceName "fps_guardrail: stepping throttle"
                      step.Pref step.Value))
          else some (g, none)
        else if g.throttled then
          if Float64.ge snap.FPS g.cfg.ThresholdRestore then
            let g1 := if g.restoreAt.isNone then { g with restoreAt := some now } else g
            let stableDur := secondsToDuration g1.cfg.RestoreStableSeconds
            if stableDur ≤ Sub now g1.restoreAt then
              some ({ g1 with throttled := false, restoreAt := none, lastAction := some now },
                    some (Action.RestoreBaseline g1.instanceName
                      "fps_guardrail: FPS stable, restore baseline"))
            else some (g1, none)
          else some ({ g with restoreAt := none }, none)
        else some (g, none)

/-- The guard once `Evaluate` has appended the snapshot's FPS to the ring (line 50):
the state every later test of `Evaluate` reads. -/
def FPSGuard.appended (g : FPSGuard) (snap : Snapshot) : FPSGuard :=
  { g with fpsRing := g.fpsRing.Append snap.FPS }

/-- A run of `Evaluate` calls, one per snapshot with its clock reading: the final state
and the actions returned, call by call. -/
def FPSGuard.run : FPSGuard → List (Snapshot × Int) → Option (FPSGuard × List (Option Action))
  | g, [] => some (g, [])
  | g, (snap, now) :: rest =>
    match g.Evaluate snap now with
    | none => none
    | some (g1, a) =>
      match FPSGuard.run g1 rest with
      | none => none
      | some (g2, as) => some (g2, a :: as)

/-- The policy engine of one instance; `fpsGuard` is `none` when no guard was created. -/
structure Engine where
  instanceName : String
  cfg : Instance
  fpsGuard : Option FPSGuard

/-- The function `NewEngine`: the guard is created only when its configuration is
present and enabled. -/
def NewEngine (instanceName : String) (cfg : Instance) : Engine :=
  match cfg.Policy.FPSGuard with
  | some fg =>
    if fg.Enabled then
      { instanceName := instanceName, cfg := cfg,
        fpsGuard := some (NewFPSGuard instanceName fg cfg.Actions.ThrottleProfiles) }
    else { instanceName := instanceName, cfg := cfg, fpsGuard := none }
  | none => { instanceName := instanceName, cfg := cfg, fpsGuard := none }

/-- The method `Engine.Evaluate`: the actions to apply for one snapshot. -/
def Engine.Evaluate (e : Engine) (snap : Snapshot) (now : Int) : Option (Engine × List Action) :=
  match e.fpsGuard with
  | none => some (e, [])
  | some g =>
    match g.Evaluate snap now with
    | none => none
    | some (g1, some a) => some ({ e with fpsGuard := some g1 }, [a])
    | some (g1, none) => some ({ e with fpsGuard := some g1 }, [])

/-- A run of `Engine.Evaluate` calls: the final engine and the actions of each call. -/
def Engine.run : Engine → List (Snapshot × Int) → Option (Engine × List (List Action))
  | e, [] => some (e, [])
  | e, (snap, now) :: rest =>
    match e.Evaluate snap now with
    | none => none
    | some (e1, a) =>
      match Engine.run e1 rest with
      | none => none
      | some (e2, as) => some (e2, a :: as)

/-- A snapshot that carries the given FPS value and zeros elsewhere (`state.Snapshot{FPS: f}`). -/
def snapFPS (f : Float64) : Snapshot := { Snapshot.zero with FPS := f }

/-! ## Token bucket and circuit breaker (`internal/telnet/client.go`) -/

/-- Go `Duration.Seconds`: `float64(d / Second) + float64(d % Second) / 1e9`, the integer
division and remainder truncating toward zero. -/
def Seconds (d : Int) : Float64 :=
  Float64.add (Float64.ofInt64 (Int.tdiv d 1000000000))
    (Float64.div (Float64.ofInt64 (Int.tmod d 1000000000)) (Float64.ofInt 1000000000))

namespace telnet

/-- The settings of the telnet client; durations in nanoseconds. -/
structure Config where
  Host : String
  Port : Int
  Password : String
  RateLimitPerSec : Float64
  CommandTimeout : Int
  ReconnectMin : Int
  ReconnectMax : Int
  CircuitBreakAfter : Int
  CircuitBreakWindow : Int
  deriving DecidableEq

/-- The state of the client that the token bucket and the circuit breaker read and
write.  `lastTick` and `breakerAt` are clock readings (`breakerAt` is the zero time,
`none`, until the breaker first opens); `connected` tells whether `Run` is inside
`sendLoop` with an open connection. -/
structure Client where
  cfg : Config
  tokens : Float64
  lastTick : Int
  failCount : Int
  breakerOpen : Bool
  breakerAt : Option Int
  connected : Bool
  deriving DecidableEq

/-- The function `NewClient`, called at clock reading `now`: fills in the defaults and
starts with a full bucket. -/
def NewClient (cfg : Config) (now : Int) : Client :=
  let cfg1 := if Float64.le cfg.RateLimitPerSec Float64.zero then
    { cfg with RateLimitPerSec := Float64.ofInt 2 } else cfg
  let cfg2 := if cfg1.CommandTimeout = 0 then { cfg1 with CommandTimeout := 10 * second } else cfg1
  let cfg3 := if cfg2.ReconnectMin = 0 then { cfg2 with ReconnectMin := 2 * second } else cfg2
  let cfg4 := if cfg3.ReconnectMax = 0 then { cfg3 with ReconnectMax := 60 * second } else cfg3
  let cfg5 := if cfg4.CircuitBreakAfter ≤ 0 then { cfg4 with CircuitBreakAfter := 3 } else cfg4
  let cfg6 := if cfg5.CircuitBreakWindow = 0 then
    { cfg5 with CircuitBreakWindow := 30 * second } else cfg5
  { cfg := cfg6, tokens := cfg6.RateLimitPerSec, lastTick := now, failCount := 0,
    breakerOpen := false, breakerAt := none, connected := false }

/-- The refill loop of `takeToken`, entered while `tokens < 1`.  Each round reads the
clock; the readings of the successive rounds are the list `clock`, of which a call
that enters the loop is given at least one.  A round that leaves less than one token
sleeps 100 ms and goes on with the next reading; when no reading is left the context
is done during that sleep and the result is `false`. -/
def refillLoop (c : Client) : List Int → Client × Bool
  | [] => (c, false)
  | now :: rest =>
    let elapsed := Seconds (Sub now (some c.lastTick))
    let tokens1 := Float64.add c.tokens (Float64.mul elapsed c.cfg.RateLimitPerSec)
    let tokens2 := if Float64.gt tokens1 c.cfg.RateLimitPerSec then c.cfg.RateLimitPerSec
      else tokens1
    let c1 := { c with tokens := tokens2, lastTick := now }
    if Float64.ge tokens2 (Float64.ofInt 1) then
      ({ c1 with tokens := Float64.sub tokens2 (Float64.ofInt 1) }, true)
    else
      match rest with
      | [] => (c1, false)
      | _ :: _ =>
        if Float64.lt tokens2 (Float64.ofInt 1) then refillLoop c1 rest
        else ({ c1 with tokens := Float64.sub tokens2 (Float64.ofInt 1) }, true)

/-- The method `takeToken`: `true` when a token was taken.  The clock is read only when
the bucket holds less than one token. -/
def Client.takeToken (c : Client) (clock : List Int) : Client × Bool :=
  if Float64.lt c.tokens (Float64.ofInt 1) then refillLoop c clock
  else ({ c with tokens := Float64.sub c.tokens (Float64.ofInt 1) }, true)

/-- A sequence of `takeToken` calls, each with the clock readings of its own rounds:
the final state and the result of each call. -/
def Client.takeTokens : Client → List (List Int) → Client × List Bool
  | c, [] => (c, [])
  | c, clock :: rest =>
    let r := c.takeToken clock
    let rs := Client.takeTokens r.1 rest
    (rs.1, r.2 :: rs.2)

/-- What the command pump does with one request it has pulled. -/
inductive Outcome where
  | breakerOpen
  | cancelled
  | failed (err : String)
  | sent
  deriving DecidableEq, Repr

/-- The error the pump reports on the request's result channel (`none` is nil). -/
def Outcome.err : Outcome → Option String
  | .breakerOpen => some "circuit breaker open"
  | .cancelled => some "context canceled"
  | .failed e => some e
  | .sent => none

/-- Whether the command was handed to the connection. -/
def Outcome.written : Outcome → Bool
  | .breakerOpen => false
  | .cancelled => false
  | .failed _ => true
  | .sent => true

/-- The method `Run` after a successful `connect` (lines 142 to 147): the connection is
kept and the failure count and the breaker are reset. -/
def Client.connectOK (c : Client) : Client :=
  { c with failCount := 0, breakerOpen := false, connected := true }

/-- One round of `sendLoop` for a request pulled at clock reading `now`.  `clock` holds
the readings of `takeToken`; `write` is the result of the write: `none` for success,
else the error with the clock reading taken when the failure is counted.  A failed
write closes the connection and leaves `sendLoop`. -/
def Client.pump (c : Client) (now : Int) (clock : List Int) (write : Option (String × Int)) :
    Client × Outcome :=
  if c.breakerOpen && decide (Sub now c.breakerAt < c.cfg.CircuitBreakWindow) then
    (c, Outcome.breakerOpen)
  else
    let c1 := if c.breakerOpen then { c with breakerOpen := false, failCount := 0 } else c
    match c1.takeToken clock with
    | (c2, false) => (c2, Outcome.cancelled)
    | (c2, true) =>
      match write with
      | none => (c2, Outcome.sent)
      | some (err, failedAt) =>
        let c3 := { c2 with failCount := c2.failCount + 1 }
        let c4 := if c3.cfg.CircuitBreakAfter ≤ c3.failCount then
          { c3 with breakerOpen := true, breakerAt := some failedAt } else c3
        ({ c4 with connected := false }, Outcome.failed err)

/-- What happens to the client: `Run` tries to connect, or the pump pulls a request. -/
inductive Event where
  | connect (ok : Bool)
  | request (now : Int) (clock : List Int) (write : Option (String × Int))
  deriving DecidableEq, Repr

/-- One event.  `Run` connects only while it has no connection, and requests are
pulled only inside `sendLoop`, that is while connected; an event that cannot occur
in the current state leaves it unchanged. -/
def Client.step (c : Client) : Event → Client × Option Outcome
  | .connect ok => if !c.connected && ok then (c.connectOK, none) else (c, none)
  | .request now clock write =>
    if c.connected then ((c.pump now clock write).1, some (c.pump now clock write).2)
    else (c, none)

/-- A sequence of events: the final state and the outcome of each request. -/
def Client.run : Client → List Event → Client × List (Option Outcome)
  | c, [] => (c, [])
  | c, e :: rest =>
    ((Client.run (c.step e).1 rest).1, (c.step e).2 :: (Client.run (c.step e).1 rest).2)

/-- A telnet command to send. -/
structure Command where
  Raw : String
  deriving DecidableEq, Repr

/-- The command that sets a game preference. -/
def SetGamePref (name value : String) : Command := ⟨"setpref " ++ name ++ " " ++ value⟩

/-- The command that sends a chat message. -/
def Say (message : String) : Command := ⟨"say " ++ message⟩

end telnet

/-! ## Audit ring (`internal/state/audit.go`) -/

/-- One record of an action's lifecycle.  The three instants are clock readings, `none`
for the zero `time.Time`. -/
structure AuditEvent where
  ActionID : String
  ActionType : String
  Status : String
  Error : String
  QueuedAt : Option Int
  SentAt : Option Int
  DoneAt : Option Int
  deriving DecidableEq, Repr

/-- The zero value of `AuditEvent`. -/
def AuditEvent.zero : AuditEvent :=
  { ActionID := "", ActionType := "", Status := "", Error := "", QueuedAt := none,
    SentAt := none, DoneAt := none }

/-- A fixed-size ring buffer of audit events. -/
structure AuditRing where
  ring : Ring AuditEvent
  deriving DecidableEq

/-- The function `NewAuditRing`. -/
def NewAuditRing (maxLen : Int) : AuditRing := ⟨NewRing AuditEvent.zero maxLen⟩

/-- The method `AuditRing.Append`. -/
def AuditRing.Append (a : AuditRing) (ev : AuditEvent) : AuditRing := ⟨a.ring.Append ev⟩

/-- The method `AuditRing.CopyOut`. -/
def AuditRing.CopyOut (a : AuditRing) (dst : List AuditEvent) : List AuditEvent × Nat :=
  a.ring.CopyOut dst

/-- The method `AuditRing.Len`. -/
def AuditRing.Len (a : AuditRing) : Nat := a.ring.Len

/-! ## Applier (`internal/actions/applier.go`) -/

/-- An action as the applier handles it: the action with the two fields of its `Base`
that the applier reads through `ID()` and `Type()`. -/
structure Issued where
  ActionID : String
  ActionType : String
  action : Action
  deriving DecidableEq, Repr

/-- The method `ID` of an action. -/
def Issued.ID (a : Issued) : String := a.ActionID

/-- The method `Type` of an action. -/
def Issued.Type (a : Issued) : String := a.ActionType

/-- The constructor `NewSetGamePref`. -/
def NewSetGamePref (id inst reason pref value : String) : Issued :=
  ⟨id, "SetGamePref", Action.SetGamePref inst reason pref value⟩

/-- The constructor `NewSay`. -/
def NewSay (id inst reason message : String) : Issued :=
  ⟨id, "Say", Action.Say inst reason message⟩

/-- The constructor `NewRestoreBaseline`. -/
def NewRestoreBaseline (id inst reason : String) : Issued :=
  ⟨id, "RestoreBaseline", Action.RestoreBaseline inst reason⟩

/-- The constructor `NewNoop`. -/
def NewNoop (id inst reason : String) : Issued := ⟨id, "Noop", Action.Noop inst reason⟩

/-- The applier: the audit ring it shares, the baseline preferences and the bounded
queue, a channel of capacity `queueSize` holding the actions not yet taken by `Run`. -/
structure Applier where
  audit : AuditRing
  baseline : List (String × String)
  queue : List Issued
  queueSize : Nat
  deriving DecidableEq

/-- The function `NewApplier`: a queue of 32 when `queueSize <= 0`. -/
def NewApplier (audit : AuditRing) (queueSize : Int) : Applier :=
  { audit := audit, baseline := [], queue := [],
    queueSize := if queueSize ≤ 0 then 32 else queueSize.toNat }

/-- The method `SetBaseline`. -/
def Applier.SetBaseline (a : Applier) (m : List (String × String)) : Applier :=
  { a with baseline := m }

/-- The method `Enqueue`, called at clock reading `now`: the applier afterwards and the
error returned (`none` is nil).  The non-blocking send on the channel succeeds exactly
when the channel holds fewer actions than its capacity. -/
def Applier.Enqueue (a : Applier) (now : Int) (action : Issued) : Applier × Option String :=
  let ev : AuditEvent :=
    { ActionID := action.ID, ActionType := action.Type, Status := "queued", Error := "",
      QueuedAt := some now, SentAt := none, DoneAt := none }
  let audit1 := a.audit.Append ev
  if a.queue.length < a.queueSize then
    ({ a with audit := audit1, queue := a.queue ++ [action] }, none)
  else
    let ev1 := { ev with Status := "dropped", Error := "queue full" }
    ({ a with audit := audit1.Append ev1 }, some "applier: queue full")

/-- The receive `<-a.queue` of `Run`: the oldest queued action, if any. -/
def Applier.receive (a : Applier) : Option (Issued × Applier) :=
  match a.queue with
  | [] => none
  | action :: rest => some (action, { a with queue := rest })

/-- The method `applyRestoreBaseline` over the baseline entries in the order the map
is ranged over: one `setpref` per entry, stopping at the first error.  `send` is the
client's `Send`, acting on the client's state `σ` and returning the error. -/
def sendAll {σ : Type} (send : σ → telnet.Command → σ × Option String) :
    σ → List (String × String) → σ × Option String
  | s, [] => (s, none)
  | s, (pref, val) :: rest =>
    match send s (telnet.SetGamePref pref val) with
    | (s1, some e) => (s1, some e)
    | (s1, none) => sendAll send s1 rest

/-- The dispatch of `applyOne` on the kind of action: the client afterwards and the
error.  The four kinds are the only implementations of `Action` in the repository, so
the `default` arm of the type switch is not reached. -/
def Applier.dispatch {σ : Type} (a : Applier) (send : σ → telnet.Command → σ × Option String)
    (rangeOrder : List (String × String) → List (String × String)) (s : σ) :
    Action → σ × Option String
  | Action.SetGamePref _ _ pref value => send s (telnet.SetGamePref pref value)
  | Action.Say _ _ message => send s (telnet.Say message)
  | Action.RestoreBaseline _ _ => sendAll send s (rangeOrder a.baseline)
  | Action.Noop _ _ => (s, none)

/-- The method `applyOne`, with the two clock readings it takes, before and after the
dispatch: the applier and the client afterwards. -/
def Applier.applyOne {σ : Type} (a : Applier) (send : σ → telnet.Command → σ × Option String)
    (rangeOrder : List (String × String) → List (String × String)) (s : σ)
    (sentAt doneAt : Int) (action : Issued) : Applier × σ :=
  let ev : AuditEvent :=
    { ActionID := action.ID, ActionType := action.Type, Status := "sent", Error := "",
      QueuedAt := none, SentAt := some sentAt, DoneAt := none }
  let r := a.dispatch send rangeOrder s action.action
  let ev1 := { ev with DoneAt := some doneAt }
  let ev2 := match r.2 with
    | some e => { ev1 with Status := "failure", Error := e }
    | none => { ev1 with Status := "success" }
  ({ a with audit := a.audit.Append ev2 }, r.1)

/-- One round of `Run`: receive the oldest queued action and apply it; `none` when the
queue is empty. -/
def Applier.runOne {σ : Type} (a : Applier) (send : σ → telnet.Command → σ × Option String)
    (rangeOrder : List (String × String) → List (String × String)) (s : σ)
    (sentAt doneAt : Int) : Option (Applier × σ) :=
  match a.receive with
  | none => none
  | some (action, a1) => some (a1.applyOne send rangeOrder s sentAt doneAt action)

/-- The events the audit ring holds, oldest first. -/
def AuditRing.events (a : AuditRing) : List AuditEvent :=
  (a.CopyOut (List.replicate a.Len AuditEvent.zero)).1

/-! ## Tailer (`internal/logtail/tailer.go`) -/

/-- The options of the tailer; `PollInterval` in nanoseconds. -/
structure Options where
  PollInterval : Int
  MaxLineBytes : Int
  FromBeginning : Bool
  deriving DecidableEq, Repr

/-- The tailer: the path it follows and its options. -/
structure Tailer where
  path : String
  opts : Options
  deriving DecidableEq, Repr

/-- The function `NewTailer`, for a path that is already absolute: a poll interval of
one second when it is 0 and a line limit of 64 KiB when it is not positive. -/
def NewTailer (path : String) (opts : Options) : Tailer :=
  let opts1 := if opts.PollInterval = 0 then { opts with PollInterval := second } else opts
  let opts2 := if opts1.MaxLineBytes ≤ 0 then { opts1 with MaxLineBytes := 64 * 1024 } else opts1
  { path := path, opts := opts2 }

/-- What `Stat` tells about a file: `Size()` and `ModTime().UnixNano()`, both `int64`. -/
structure FileInfo where
  Size : Int
  ModTime : Int
  deriving DecidableEq, Repr

/-- The function `inodeOf`:
`uint64(info.Size())<<32 | uint64(info.ModTime().UnixNano()&0xffffffff)`.  The
conversion of an `int64` to `uint64` and the mask of its low 32 bits are residues
modulo `2^64` and `2^32`; the shift drops the bits beyond 64. -/
def inodeOf (info : FileInfo) : Nat :=
  (((info.Size % 2 ^ 64).toNat <<< 32) % 2 ^ 64) ||| (info.ModTime % 2 ^ 32).toNat

/-- The rotation test of `followFile` (line 198), for the identity `origInode` and the
`info` taken when the file was opened and the `curInfo` of the `Stat` after a read. -/
def rotated (origInode : Nat) (info curInfo : FileInfo) : Bool :=
  inodeOf curInfo != origInode || decide (curInfo.Size < info.Size)

/-- The byte `\n`. -/
def newline : Nat := 10

/-- The scan `for idx < len(partial) && partial[idx] != '\n' { idx++ }`: the index of
the first newline, the length when there is none.  A byte is its value. -/
def newlineIndex : List Nat → Nat
  | [] => 0
  | b :: rest => if b = newline then 0 else newlineIndex rest + 1

/-- The loop of `readMore` over the buffer `partial` (lines 148 to 175), with `fuel`
rounds: the lines emitted so far and the buffer at the end.  Each round but the last
takes a newline out of the buffer, so `len(partial) + 1` rounds are enough. -/
def splitLoop (max : Nat) : Nat → List Nat → List (List Nat) → List (List Nat) × List Nat
  | 0, partial_, out => (out, partial_)
  | fuel + 1, partial_, out =>
    let idx := newlineIndex partial_
    if idx < partial_.length then
      let line := partial_.take idx
      let rest := partial_.drop (idx + 1)
      let line1 := if line.length > max then line.take max else line
      splitLoop max fuel rest (out ++ [line1])
    else if partial_.length > max then (out ++ [partial_.take max], partial_.drop max)
    else (out, partial_)

/-- The closure `readMore` for a read that returned the bytes `chunk`: the lines sent on
the channel, in order, and the new partial-line buffer.  `max` is `MaxLineBytes`. -/
def readMore (max : Nat) (partial_ chunk : List Nat) : List (List Nat) × List Nat :=
  if chunk.length > 0 then
    splitLoop max ((partial_ ++ chunk).length + 1) (partial_ ++ chunk) []
  else ([], partial_)

/-- The method `readMore` of a tailer. -/
def Tailer.readMore (t : Tailer) (partial_ chunk : List Nat) : List (List Nat) × List Nat :=
  Carrion.readMore t.opts.MaxLineBytes.toNat partial_ chunk

/-- A sequence of reads on one open file, starting from the buffer `partial`: all lines
emitted, in order, and the buffer at the end. -/
def readAll (max : Nat) : List Nat → List (List Nat) → List (List Nat) × List Nat
  | partial_, [] => ([], partial_)
  | partial_, chunk :: rest =>
    ((readMore max partial_ chunk).1 ++ (readAll max (readMore max partial_ chunk).2 rest).1,
      (readAll max (readMore max partial_ chunk).2 rest).2)

/-- The bytes of an ASCII string. -/
def bytes (s : String) : List Nat := s.toList.map Char.toNat

/-- The newline-terminated lines of a byte string, in order, and its unterminated
tail; `cur` holds the bytes of the line being read. -/
def linesAux : List Nat → List Nat → List (List Nat) × List Nat
  | [], cur => ([], cur)
  | b :: rest, cur =>
    if b = newline then (cur :: (linesAux rest []).1, (linesAux rest []).2)
    else linesAux rest (cur ++ [b])

/-- The newline-terminated lines of a byte string and its unterminated tail. -/
def linesOf (s : List Nat) : List (List Nat) × List Nat := linesAux s []

/-- What `followFile` keeps for the file it has open: the partial-line buffer, the
`info` of the `Stat` at open (replaced by a later one at line 203) and the identity
`origInode` computed from it at open. -/
structure Follow where
  partial_ : List Nat
  info : FileInfo
  origInode : Nat
  deriving DecidableEq, Repr

/-- The opening of the file in `followFile` (lines 116 to 137), the `Stat` of the open
file being `info`: the state kept and the offset reading starts at. -/
def Tailer.openFile (t : Tailer) (info : FileInfo) : Follow × Int :=
  ({ partial_ := [], info := info, origInode := inodeOf info },
    if t.opts.FromBeginning then 0 else info.Size)

/-- One round of the loop of `followFile` (lines 183 to 204) in which the read returns
the bytes `chunk` without error and the `Stat` of the path returns `curInfo`: the
lines emitted, and the state kept for the next round, or `none` when `followFile`
returns because it takes the file for rotated; the handle is then closed and the
partial-line buffer is gone. -/
def Tailer.followRound (t : Tailer) (st : Follow) (chunk : List Nat) (curInfo : FileInfo) :
    List (List Nat) × Option Follow :=
  let r := t.readMore st.partial_ chunk
  if rotated st.origInode st.info curInfo then (r.1, none)
  else
    (r.1, some { st with partial_ := r.2,
                         info := if curInfo.Size > st.info.Size then curInfo else st.info })

/-- The first round of `followFile` on a file that holds `content` and is not written
meanwhile: the file is opened (`Run` calls `followFile` again after every return, so
this is also the reopening after a rotation), the offset is set, and the read returns
the bytes from the offset on, at most 4096 of them.  The lines emitted and the state
kept. -/
def Tailer.openAndRead (t : Tailer) (content : List Nat) (mtime : Int) :
    List (List Nat) × Option Follow :=
  let info : FileInfo := ⟨(content.length : Int), mtime⟩
  t.followRound (t.openFile info).1 ((content.drop (t.openFile info).2.toNat).take 4096) info

/-! ## Validation of the configuration (`internal/config/config.go`) -/

/-- HTTP API settings. -/
structure API where
  Listen : String
  AuthToken : String
  deriving DecidableEq, Repr

/-- Metrics exposition settings. -/
structure Metrics where
  Enable : Bool
  Path : String
  deriving DecidableEq, Repr

/-- The root configuration. -/
structure Config where
  Instances : List Instance
  API : API
  Metrics : Metrics

/-- The errors of `Validate`. -/
inductive ValidateError where
  | noInstances
  | nameRequired (i : Nat)
  | logPathRequired (i : Nat)
  deriving DecidableEq, Repr

/-- The text of an error of `Validate`. -/
def ValidateError.message : ValidateError → String
  | .noInstances => "config: at least one instance required"
  | .nameRequired i => "config: instances[" ++ toString i ++ "].name required"
  | .logPathRequired i => "config: instances[" ++ toString i ++ "].log_path required"

/-- The body of the loop of `Validate` for the element of index `i`: the error it
returns, or the loop variable `inst` as the body leaves it. -/
def validateBody (i : Nat) (inst : Instance) : Except ValidateError Instance :=
  if inst.Name = "" then Except.error (ValidateError.nameRequired i)
  else if inst.LogPath = "" then Except.error (ValidateError.logPathRequired i)
  else if Float64.le inst.Telnet.RateLimitPerSec Float64.zero then
    Except.ok { inst with Telnet := { inst.Telnet with RateLimitPerSec := Float64.ofInt 2 } }
  else Except.ok inst

/-- The loop `for i, inst := range c.Instances`.  The loop variable `inst` is a copy of
the element: what the body assigns to it is gone at the end of the round, and the
slice `c.Instances` is not written. -/
def validateLoop : Nat → List Instance → Option ValidateError
  | _, [] => none
  | i, inst :: rest =>
    match validateBody i inst with
    | Except.error e => some e
    | Except.ok _ => validateLoop (i + 1) rest

/-- The function `Validate`: the configuration behind the pointer after the call, and
the error returned (`none` is nil). -/
def Validate (c : Config) : Config × Option ValidateError :=
  if c.Instances.length = 0 then (c, some ValidateError.noInstances)
  else
    match validateLoop 0 c.Instances with
    | some e => (c, some e)
    | none =>
      let c1 := if c.API.Listen = "" then { c with API := { c.API with Listen := "127.0.0.1:9090" } }
        else c
      let c2 := if c1.Metrics.Path = "" then
        { c1 with Metrics := { c1.Metrics with Path := "/metrics" } } else c1
      (c2, none)

/-! ## Shapes of input used in the statements -/

/-- A token as the status line writes it: not empty, free of white space and of `:`. -/
def IsWord (w : GoString) : Prop := w ≠ [] ∧ ∀ c ∈ w, isSpace c = false ∧ c ≠ ':'

/-- The text ` K1: v1 K2: v2 ...` of a list of key/value tokens. -/
def kvText : List (GoString × GoString) → GoString
  | [] => []
  | (k, v) :: rest => ' ' :: (k ++ ':' :: ' ' :: (v ++ kvText rest))

/-- The text `K1: v1 K2: v2 ...`: `kvText` without its leading blank. -/
def kvBody : List (GoString × GoString) → GoString
  | [] => []
  | (k, v) :: rest => k ++ ':' :: ' ' :: (v ++ kvText rest)

instance (w : GoString) : Decidable (IsWord w) := by
  unfold IsWord
  infer_instance

/-- The tokens of `testLine` after the leading time value. -/
def testPairs : List (GoString × GoString) :=
  [("FPS".toList, "30.5".toList), ("Heap".toList, "512.2".toList), ("RSS".toList, "600".toList),
   ("Chunks".toList, "100".toList), ("Ply".toList, "2".toList), ("Zom".toList, "50".toList),
   ("Ent".toList, "200".toList), ("CO".toList, "2".toList)]

/-- The snapshot the test line stands for: fps 30.5, heap 512.2 (the nearest float64,
`2252679422987469 * 2^-42`), rss 600, and the counts. -/
def testSnapshot (now : Time) : Snapshot :=
  { ParsedAt := now, Timestamp := now, FPS := Float64.fin 61 (-1),
    HeapMB := Float64.fin 2252679422987469 (-42), RSSMB := Float64.fin 75 3,
    Chunks := 100, CGo := 0, CGoMissing := true, Players := 2, Zombies := 50,
    EntitiesTotal := 200, EntitiesActive := -1, CO := 2 }

/-- A string whose last character is not white space. -/
def EndsNonSpace (s : GoString) : Prop := ∃ l c, s = l ++ [c] ∧ isSpace c = false

/-- The status line `Time: t K1: v1 ... Kn: vn`. -/
def statusLine (t : GoString) (kvs : List (GoString × GoString)) : GoString :=
  "Time: ".toList ++ (t ++ kvText kvs)

/-- The line of the parser's own test `TestParseTimeLine_TimeLine`. -/
def testLine : GoString :=
  "Time: 123.45 FPS: 30.5 Heap: 512.2 RSS: 600 Chunks: 100 Ply: 2 Zom: 50 Ent: 200 CO: 2".toList

/-- The configuration of the test `TestFPSGuard_ThrottleAndRestore` (specification
scenario 3): threshold_low 25, threshold_restore 40, require_low_samples 3, window 60,
restore_stable_seconds 2, cooldown_seconds 0. -/
def scenarioCfg : FPSGuardPolicy :=
  { Enabled := true, ThresholdLow := Float64.ofInt 25, ThresholdRestore := Float64.ofInt 40,
    RequireLowSamples := 3, SampleWindowSamples := 60,
    RestoreStableSeconds := Float64.ofInt 2, CooldownSeconds := Float64.zero,
    DeltaSpikeThreshold := Float64.zero, SpikeWindowSeconds := Float64.zero,
    ThrottleProfile := "default" }

/-- The profile map of the same test: `default` with two steps. -/
def scenarioProfiles : ProfileMap :=
  [("default", ⟨[⟨"MaxSpawnedZombies", "30"⟩, ⟨"MaxSpawnedZombies", "20"⟩]⟩)]

/-- The guard with the `Enabled` flag of its configuration set to `b`. -/
def FPSGuard.withEnabled (g : FPSGuard) (b : Bool) : FPSGuard :=
  { g with cfg := { g.cfg with Enabled := b } }

/-- The configuration of the test `TestFPSGuard_NoActionWhenDisabled`,
`&config.FPSGuardPolicy{Enabled: false}`: every other field is zero. -/
def disabledTestCfg : FPSGuardPolicy :=
  { Enabled := false, ThresholdLow := Float64.zero, ThresholdRestore := Float64.zero,
    RequireLowSamples := 0, SampleWindowSamples := 0,
    RestoreStableSeconds := Float64.zero, CooldownSeconds := Float64.zero,
    DeltaSpikeThreshold := Float64.zero, SpikeWindowSeconds := Float64.zero,
    ThrottleProfile := "" }

/-- The guard after the FPS values `xs` have been appended to its ring, nothing else
having changed. -/
def feed (g : FPSGuard) (xs : List Int) : FPSGuard :=
  xs.foldl (fun h x => h.appended (snapFPS (Float64.ofInt x))) g

/-- The scenario's guard right after the throttle (`scenarioThrottled_reached`): five
samples of 50 and three of 20 in the ring, Throttled(0), the action emitted at clock
reading 8. -/
def scenarioThrottled : FPSGuard :=
  { feed (NewFPSGuard "test" scenarioCfg scenarioProfiles) [50, 50, 50, 50, 50, 20, 20, 20] with
    throttled := true, lastStep := 0, lastAction := some 8, lowSince := some 8 }

/-- The float64 written `0.1`: `3602879701896397 * 2^-55`. -/
def oneTenth : Float64 := Float64.fin 3602879701896397 (-55)

/-- The configuration of the test `TestFPSGuard_ReplayStyle` (specification scenario 4):
as `scenarioCfg` with restore_stable_seconds 0.1. -/
def replayCfg : FPSGuardPolicy := { scenarioCfg with RestoreStableSeconds := oneTenth }

/-- The profile map of `TestFPSGuard_ReplayStyle`: `default` with the single step `X = 1`. -/
def replayProfiles : ProfileMap := [("default", ⟨[⟨"X", "1"⟩]⟩)]

/-- The throttle scenario followed by the two recovered snapshots of scenario 4: five
snapshots with fps 50 and four with fps 20, one per second, then fps 45 at second 10
and fps 45 again 150 ms later. -/
def restoreScenario : List (Snapshot × Int) :=
  [(snapFPS (Float64.ofInt 50), 1 * second), (snapFPS (Float64.ofInt 50), 2 * second),
   (snapFPS (Float64.ofInt 50), 3 * second), (snapFPS (Float64.ofInt 50), 4 * second),
   (snapFPS (Float64.ofInt 50), 5 * second), (snapFPS (Float64.ofInt 20), 6 * second),
   (snapFPS (Float64.ofInt 20), 7 * second), (snapFPS (Float64.ofInt 20), 8 * second),
   (snapFPS (Float64.ofInt 20), 9 * second), (snapFPS (Float64.ofInt 45), 10 * second),
   (snapFPS (Float64.ofInt 45), 10 * second + 150 * millisecond)]

/-- The first 66 snapshots of a replay whose window recovers: five with fps 50 and four
with fps 20 as in `restoreScenario`, then 57 with fps 45, one per second. -/
def recoveryPrefix : List (Snapshot × Int) :=
  restoreScenario.take 9 ++
    (List.range 57).map (fun i => (snapFPS (Float64.ofInt 45), (10 + (i : Int)) * second))

/-- The guard of the replay test after `recoveryPrefix` (`recoveredGuard_reached`):
Throttled(0) since second 8, the restore timer unset, the 60-slot ring still holding
three of the four fps 20 samples; the next snapshot displaces one more of them. -/
def recoveredGuard : FPSGuard :=
  { feed (NewFPSGuard "test" replayCfg replayProfiles)
      ([50, 50, 50, 50, 50, 20, 20, 20, 20] ++ List.replicate 57 45) with
    throttled := true, lastStep := 0, lastAction := some (8 * second),
    lowSince := some (8 * second) }

/-- A configuration on which a dip goes unnoticed by the restore timer: as `replayCfg`
with a window of 3 samples of which 2 must be low. -/
def dipCfg : FPSGuardPolicy :=
  { replayCfg with SampleWindowSamples := 3, RequireLowSamples := 2 }

/-- The snapshots of the dip: low, low (throttle), recovered, low, recovered (the timer
starts at second 5), low at second 6 (the dip), recovered one millisecond later. -/
def dipScenario : List (Snapshot × Int) :=
  [(snapFPS (Float64.ofInt 20), 1 * second), (snapFPS (Float64.ofInt 20), 2 * second),
   (snapFPS (Float64.ofInt 45), 3 * second), (snapFPS (Float64.ofInt 20), 4 * second),
   (snapFPS (Float64.ofInt 45), 5 * second), (snapFPS (Float64.ofInt 20), 6 * second),
   (snapFPS (Float64.ofInt 45), 6 * second + millisecond)]

/-- The last `cap` items of `xs` (all of them when there are fewer), oldest first. -/
def window {α : Type} (cap : Nat) (xs : List α) : List α := xs.drop (xs.length - cap)

/-- The invariant of a ring: the slice has `maxLen` slots, `maxLen` is positive and
`head` points into the slice.  `NewRing` establishes it and `Append` keeps it. -/
def Ring.WF {α : Type} (r : Ring α) : Prop :=
  r.slice.length = r.maxLen ∧ 0 < r.maxLen ∧ r.head < r.maxLen

/-- Every slot of the ring that holds an appended item satisfies `Q`: all slots once
the ring is full, the slots below `head` before. -/
def Ring.AllHeld {α : Type} (Q : α → Prop) (r : Ring α) : Prop :=
  ∀ (i : Nat) (x : α), r.slice[i]? = some x → (r.full = true ∨ i < r.head) → Q x

/-- The ring holds the history `xs`: it is well formed, `head` and `full` are where
`xs.length` appends leave them, and each of the last `maxLen` items sits in the slot
of its index modulo `maxLen`. -/
def Ring.Holds {α : Type} (r : Ring α) (xs : List α) : Prop :=
  r.WF ∧ r.head = xs.length % r.maxLen ∧ (r.full = true ↔ r.maxLen ≤ xs.length) ∧
  ∀ j, j < xs.length → xs.length ≤ j + r.maxLen → r.slice[j % r.maxLen]? = xs[j]?

/-- A sample that `Evaluate` counts as low: `x < ThresholdLow && x >= 0`. -/
def isLow (cfg : FPSGuardPolicy) (x : Float64) : Bool :=
  Float64.lt x cfg.ThresholdLow && Float64.ge x Float64.zero

/-- The clock reading of the most recent call that returned an action, among the calls
`evs` with their results `acts`; `prev` when none of them did. -/
def lastEmit : List (Snapshot × Int) → List (Option Action) → Option Int → Option Int
  | (_, now) :: evs, some _ :: acts, _ => lastEmit evs acts (some now)
  | _ :: evs, none :: acts, prev => lastEmit evs acts prev
  | _, _, prev => prev

/-- The float64 written `0.5`. -/
def oneHalf : Float64 := Float64.fin 1 (-1)

/-- A configuration whose cooldown is more nanoseconds than an `int64` holds: as
`scenarioCfg` with cooldown_seconds 1e10. -/
def longCooldownCfg : FPSGuardPolicy :=
  { scenarioCfg with CooldownSeconds := Float64.ofInt 10000000000 }

/-- The throttle scenario (five snapshots with fps 50 and three with fps 20, one per
second) followed by one more low snapshot, one nanosecond after the throttle. -/
def longCooldownScenario : List (Snapshot × Int) :=
  restoreScenario.take 8 ++ [(snapFPS (Float64.ofInt 20), 8 * second + 1)]

/-- A configuration with a cooldown: as `dipCfg` with cooldown_seconds 0.5. -/
def cooldownCfg : FPSGuardPolicy := { dipCfg with CooldownSeconds := oneHalf }

/-- The dip scenario followed by one more low snapshot, one millisecond after the
snapshot that restores the baseline. -/
def cooldownScenario : List (Snapshot × Int) :=
  dipScenario ++ [(snapFPS (Float64.ofInt 20), 6 * second + 2 * millisecond)]

/-- The guard of `cooldownCfg` with the two-step profile after two low snapshots, at
seconds 1 and 2 (`cooldownGuard_reached`): Throttled(0) since second 2. -/
def cooldownGuard : FPSGuard :=
  { feed (NewFPSGuard "test" cooldownCfg scenarioProfiles) [20, 20] with
    throttled := true, lastStep := 0, lastAction := some (2 * second),
    lowSince := some (2 * second) }

/-- An instance with the given telnet rate limit and nothing else but a name and a log
path. -/
def instanceWithRate (rate : Float64) : Instance :=
  { Name := "a", LogPath := "x",
    Telnet := { Host := "", Port := 0, Password := "", RateLimitPerSec := rate },
    Policy := { FPSGuard := none },
    Actions := { ThrottleProfiles := [], Baseline := [] } }

/-- The audit event `Enqueue` appends first: status `queued`, stamped with the clock
reading. -/
def queuedEvent (now : Int) (action : Issued) : AuditEvent :=
  { ActionID := action.ActionID, ActionType := action.ActionType, Status := "queued",
    Error := "", QueuedAt := some now, SentAt := none, DoneAt := none }

/-- The audit event `Enqueue` appends when the queue is full: the queued event with
status `dropped` and error `queue full`. -/
def droppedEvent (now : Int) (action : Issued) : AuditEvent :=
  { queuedEvent now action with Status := "dropped", Error := "queue full" }

/-- A client whose `Send` always succeeds; it has no state. -/
def sendOK : Unit → telnet.Command → Unit × Option String := fun s _ => (s, none)

/-- The applier of the overload scenario: queue capacity 1, an audit ring of 8. -/
def overloadApplier : Applier := NewApplier (NewAuditRing 8) 1

/-- A configuration of the client with rate limit 2 per second and defaults elsewhere. -/
def clientCfg : telnet.Config :=
  { Host := "127.0.0.1", Port := 8081, Password := "", RateLimitPerSec := Float64.ofInt 2,
    CommandTimeout := 0, ReconnectMin := 0, ReconnectMax := 0, CircuitBreakAfter := 0,
    CircuitBreakWindow := 0 }

/-- Three requests, one per second, whose writes all fail, each followed by a
successful reconnect, and a fourth request one millisecond after the third failure. -/
def threeFailures : List telnet.Event :=
  [telnet.Event.connect true,
   telnet.Event.request (1 * second) [] (some ("write: broken pipe", 1 * second)),
   telnet.Event.connect true,
   telnet.Event.request (2 * second) [] (some ("write: broken pipe", 2 * second)),
   telnet.Event.connect true,
   telnet.Event.request (3 * second) [3 * second] (some ("write: broken pipe", 3 * second)),
   telnet.Event.connect true,
   telnet.Event.request (3 * second + millisecond) [] none]

/-- A byte string put in front of the lines of what follows it: it joins the first
line, or the tail when there is no line. -/
def prependLine (cur : List Nat) (r : List (List Nat) × List Nat) : List (List Nat) × List Nat :=
  match r.1 with
  | [] => ([], cur ++ r.2)
  | l :: ls => ((cur ++ l) :: ls, r.2)

/-- A byte string with its newlines removed. -/
def strip (s : List Nat) : List Nat := s.filter (fun b => b != newline)

/-- A configuration that asks for more low samples than the window holds: as
`scenarioCfg` with a window of 2 samples, of which 3 must be low. -/
def narrowCfg : FPSGuardPolicy := { scenarioCfg with SampleWindowSamples := 2 }

/-- Five snapshots with fps 20, one per second. -/
def lowScenario : List (Snapshot × Int) :=
  [(snapFPS (Float64.ofInt 20), 1 * second), (snapFPS (Float64.ofInt 20), 2 * second),
   (snapFPS (Float64.ofInt 20), 3 * second), (snapFPS (Float64.ofInt 20), 4 * second),
   (snapFPS (Float64.ofInt 20), 5 * second)]

/-- Whether the lower-cased key of a token is one of `names`. -/
def keyIn (names : List String) (kv : GoString × GoString) : Bool :=
  names.any (fun n => decide (ToLower kv.1 = n.toList))

/-- The line of the parser's test `TestParseTimeLine_Realistic`. -/
def realisticLine : GoString :=
  "Time: 2024-01-15 14:30:00 FPS: 45.2 Heap: 2048.5 RSS: 2500 Chunks: 500 Ply: 4 Zom: 120 Ent: 1500 CO: 4".toList

/-- The line of the parser's test `TestParseTimeLine_MissingTokens`. -/
def missingTokensLine : GoString := "Time: 0 FPS: 20 Heap: 50".toList

/-- A recognised line without a time value, whose first token is `CGo: 5`. -/
def leadingCgoLine : GoString := "Time: CGo: 5 FPS: 30".toList

/-- A status line whose time, fps and chunks values do not parse. -/
def malformedLine : GoString := "Time: x FPS: abc Chunks: 1.5 Ply: 3".toList

/-- A status line with a negative count. -/
def negativeLine : GoString := "Time: 0 Chunks: -5".toList

/-- An audit event with the given action id and status `success`. -/
def eventOf (id : String) : AuditEvent :=
  { AuditEvent.zero with ActionID := id, ActionType := "Noop", Status := "success" }

/-- An audit ring of capacity 8 after the events 1 to 5 have been appended. -/
def fiveEvents : AuditRing :=
  [eventOf "1", eventOf "2", eventOf "3", eventOf "4", eventOf "5"].foldl AuditRing.Append
    (NewAuditRing 8)

/-- A finite float64 whose magnitude is at most `B`. -/
def Float64.Within (B : ℚ) : Float64 → Prop
  | Float64.fin m e => |(m : ℚ)| * (2 : ℚ) ^ e ≤ B
  | _ => False

/-- A configuration of the client with rate limit 0.5 per second. -/
def slowCfg : telnet.Config := { clientCfg with RateLimitPerSec := oneHalf }

/-- A token bucket that cannot grant: the rate limit is a finite value above 0 and
below 1, and the bucket holds at most the rate limit. -/
def telnet.Starved (c : telnet.Client) : Prop :=
  (∃ r e, c.cfg.RateLimitPerSec = Float64.fin r e ∧ 0 < r) ∧
  Float64.lt c.cfg.RateLimitPerSec (Float64.ofInt 1) = true ∧
  Float64.le c.tokens c.cfg.RateLimitPerSec = true

/-! ## Lemmas: trimming and scanning -/

theorem TrimSpace_nil : TrimSpace [] = [] := rfl

theorem EndsNonSpace.append_left {s : GoString} (h : EndsNonSpace s) (x : GoString) :
    EndsNonSpace (x ++ s) := by
  obtain ⟨l, c, rfl, hc⟩ := h
  exact ⟨x ++ l, c, by simp, hc⟩

theorem EndsNonSpace.cons {s : GoString} (h : EndsNonSpace s) (a : Char) :
    EndsNonSpace (a :: s) := h.append_left [a]

theorem EndsNonSpace.dropWhile {s : GoString} (h : EndsNonSpace s) :
    EndsNonSpace (s.dropWhile isSpace) := by
  obtain ⟨l, c, rfl, hc⟩ := h
  induction l with
  | nil => exact ⟨[], c, by simp [List.dropWhile, hc], hc⟩
  | cons a l ih =>
    by_cases ha : isSpace a = true
    · simpa [List.dropWhile, ha] using ih
    · exact ⟨a :: l, c, by simp [List.dropWhile, ha], hc⟩

theorem TrimSpace_of_ends {s : GoString} (h : EndsNonSpace s) :
    TrimSpace s = s.dropWhile isSpace := by
  obtain ⟨l, c, hl, hc⟩ := h.dropWhile
  unfold TrimSpace
  rw [hl]
  simp [List.dropWhile, hc]

theorem IsWord.ends {w : GoString} (h : IsWord w) : EndsNonSpace w := by
  obtain ⟨hne, hall⟩ := h
  refine ⟨w.dropLast, w.getLast hne, (List.dropLast_append_getLast hne).symm, ?_⟩
  exact (hall _ (List.getLast_mem hne)).1

theorem IsWord.dropWhile_append {w : GoString} (h : IsWord w) (x : GoString) :
    (w ++ x).dropWhile isSpace = w ++ x := by
  obtain ⟨hne, hall⟩ := h
  cases w with
  | nil => exact absurd rfl hne
  | cons a w =>
    have ha := (hall a (List.mem_cons_self a w)).1
    simp [List.dropWhile, ha]

theorem TrimSpace_word_append {w x : GoString} (h : IsWord w) (hx : EndsNonSpace (w ++ x)) :
    TrimSpace (w ++ x) = w ++ x := by
  rw [TrimSpace_of_ends hx, h.dropWhile_append]

theorem TrimSpace_word {w : GoString} (h : IsWord w) : TrimSpace w = w := by
  have := TrimSpace_word_append (x := []) h (by simpa using h.ends)
  simpa using this

theorem TrimSpace_space_word_append {w x : GoString} (h : IsWord w)
    (hx : EndsNonSpace (w ++ x)) : TrimSpace (' ' :: (w ++ x)) = w ++ x := by
  rw [TrimSpace_of_ends (hx.cons ' ')]
  have hs : isSpace ' ' = true := by decide
  simp only [List.dropWhile, hs]
  exact h.dropWhile_append x

theorem isKeyChar_of_word {w : GoString} (h : IsWord w) : ∀ c ∈ w, isKeyChar c = true := by
  intro c hc
  obtain ⟨h1, h2⟩ := h.2 c hc
  have hsp : c ≠ ' ' := by
    rintro rfl
    exact absurd h1 (by decide)
  have htab : c ≠ '\t' := by
    rintro rfl
    exact absurd h1 (by decide)
  simp [isKeyChar, hsp, htab, h2]

theorem not_blank_of_word {w : GoString} (h : IsWord w) :
    ∀ c ∈ w, (c = ' ' || c = '\t') = false := by
  intro c hc
  have := isKeyChar_of_word h c hc
  simp only [isKeyChar, Bool.and_eq_true, bne_iff_ne, ne_eq] at this
  simp [this.1.1, this.1.2]

theorem takeWhile_key_append {w : GoString} (h : ∀ c ∈ w, isKeyChar c = true) (x : GoString) :
    (w ++ ':' :: x).takeWhile isKeyChar = w := by
  induction w with
  | nil => simp [List.takeWhile, isKeyChar]
  | cons a w ih =>
    have ha := h a (List.mem_cons_self a w)
    have ih1 := ih (fun c hc => h c (List.mem_cons_of_mem a hc))
    simp only [List.cons_append, List.takeWhile_cons, ha, if_true, ih1]

theorem dropWhile_key_append {w : GoString} (h : ∀ c ∈ w, isKeyChar c = true) (x : GoString) :
    (w ++ ':' :: x).dropWhile isKeyChar = ':' :: x := by
  induction w with
  | nil => simp [List.dropWhile, isKeyChar]
  | cons a w ih =>
    have ha := h a (List.mem_cons_self a w)
    have ih1 := ih (fun c hc => h c (List.mem_cons_of_mem a hc))
    simp only [List.cons_append, List.dropWhile_cons, ha, if_true, ih1]

theorem startsWithKey_word {w : GoString} (h : IsWord w) (x : GoString) :
    startsWithKey (w ++ ':' :: x) = true := by
  unfold startsWithKey
  rw [dropWhile_key_append (isKeyChar_of_word h)]
  simp

/-! ## Lemmas: the key/value loop on a well-shaped line -/

theorem ends_word_kvText {v : GoString} (hv : IsWord v) :
    ∀ (kvs : List (GoString × GoString)), (∀ p ∈ kvs, IsWord p.1 ∧ IsWord p.2) →
      EndsNonSpace (v ++ kvText kvs) := by
  intro kvs
  induction kvs generalizing v with
  | nil => intro _; simpa [kvText] using hv.ends
  | cons p rest ih =>
    obtain ⟨k, v1⟩ := p
    intro h
    have h1 := ih (h (k, v1) (List.mem_cons_self _ _)).2
      (fun q hq => h q (List.mem_cons_of_mem _ hq))
    have h2 := h1.append_left (v ++ ' ' :: (k ++ [':', ' ']))
    simpa [kvText] using h2

theorem ends_kvBody {k v : GoString} {rest : List (GoString × GoString)} (hv : IsWord v)
    (h : ∀ p ∈ rest, IsWord p.1 ∧ IsWord p.2) : EndsNonSpace (kvBody ((k, v) :: rest)) := by
  have h2 := (ends_word_kvText hv rest h).append_left (k ++ [':', ' '])
  simpa [kvBody] using h2

theorem TrimSpace_kvText (kvs : List (GoString × GoString))
    (h : ∀ p ∈ kvs, IsWord p.1 ∧ IsWord p.2) : TrimSpace (kvText kvs) = kvBody kvs := by
  cases kvs with
  | nil => rfl
  | cons p rest =>
    obtain ⟨k, v⟩ := p
    have hk := (h (k, v) (List.mem_cons_self _ _)).1
    have hv := (h (k, v) (List.mem_cons_self _ _)).2
    have hr : ∀ q ∈ rest, IsWord q.1 ∧ IsWord q.2 := fun q hq => h q (List.mem_cons_of_mem _ hq)
    have he : EndsNonSpace (k ++ ':' :: ' ' :: (v ++ kvText rest)) := by
      simpa [kvBody] using ends_kvBody (k := k) hv hr
    simpa [kvText, kvBody] using TrimSpace_space_word_append hk he

theorem valEndFrom_skip {w : GoString} (h : ∀ c ∈ w, (c = ' ' || c = '\t') = false)
    (x : GoString) (j : Nat) : valEndFrom (w ++ x) j = valEndFrom x (j + w.length) := by
  induction w generalizing j with
  | nil => simp
  | cons a w ih =>
    have ha := h a (List.mem_cons_self a w)
    have ih1 := ih (fun c hc => h c (List.mem_cons_of_mem a hc)) (j + 1)
    have hj : j + 1 + w.length = j + (w.length + 1) := by omega
    simp only [List.cons_append, valEndFrom, ha, Bool.false_and, Bool.false_eq_true, if_false,
      List.length_cons]
    rw [← hj]
    exact ih1

theorem firstKeyStartFrom_skip {w : GoString} (h : ∀ c ∈ w, (c = ' ' || c = '\t') = false)
    (x : GoString) (j : Nat) :
    firstKeyStartFrom (w ++ x) j = firstKeyStartFrom x (j + w.length) := by
  induction w generalizing j with
  | nil => simp
  | cons a w ih =>
    have ha := h a (List.mem_cons_self a w)
    have ih1 := ih (fun c hc => h c (List.mem_cons_of_mem a hc)) (j + 1)
    have hj : j + 1 + w.length = j + (w.length + 1) := by omega
    simp only [List.cons_append, firstKeyStartFrom, ha, Bool.false_and, Bool.false_eq_true,
      if_false, List.length_cons]
    rw [← hj]
    exact ih1

theorem kvBody_cons_key_test {k v : GoString} {rest : List (GoString × GoString)}
    (h : ∀ p ∈ (k, v) :: rest, IsWord p.1 ∧ IsWord p.2) :
    (decide (0 < (TrimSpace (kvText ((k, v) :: rest))).length) &&
      startsWithKey (TrimSpace (kvText ((k, v) :: rest)))) = true := by
  rw [TrimSpace_kvText _ h]
  have hk := (h (k, v) (List.mem_cons_self _ _)).1
  have hpos : 0 < (kvBody ((k, v) :: rest)).length := by
    simp [kvBody]
  have hs : startsWithKey (kvBody ((k, v) :: rest)) = true := by
    simpa [kvBody] using startsWithKey_word hk (' ' :: (v ++ kvText rest))
  simp [hpos, hs]

theorem valEndFrom_kvText (kvs : List (GoString × GoString))
    (h : ∀ p ∈ kvs, IsWord p.1 ∧ IsWord p.2) (j : Nat) : valEndFrom (kvText kvs) j = j := by
  cases kvs with
  | nil => rfl
  | cons p rest =>
    obtain ⟨k, v⟩ := p
    have ht := kvBody_cons_key_test h
    have hc : kvText ((k, v) :: rest) = ' ' :: (k ++ ':' :: ' ' :: (v ++ kvText rest)) := rfl
    rw [hc] at ht ⊢
    simp only [valEndFrom, ht, decide_True, Bool.true_or, Bool.and_self, if_true]

theorem firstKeyStartFrom_kvText {k v : GoString} {rest : List (GoString × GoString)}
    (h : ∀ p ∈ (k, v) :: rest, IsWord p.1 ∧ IsWord p.2) (j : Nat) :
    firstKeyStartFrom (kvText ((k, v) :: rest)) j = (j : Int) := by
  have ht := kvBody_cons_key_test h
  have hc : kvText ((k, v) :: rest) = ' ' :: (k ++ ':' :: ' ' :: (v ++ kvText rest)) := rfl
  rw [hc] at ht ⊢
  simp only [firstKeyStartFrom, ht, decide_True, Bool.true_or, Bool.and_self, if_true]

theorem TrimSuffix_colon (k : GoString) : TrimSuffix (k ++ [':']) ":".toList = k := by
  have e : ":".toList = [':'] := rfl
  have h : HasSuffix (k ++ [':']) [':'] = true := by
    simp [HasSuffix, List.isPrefixOf]
  rw [e]
  simp [TrimSuffix, h]

theorem kvLoop_step {k v : GoString} {rest : List (GoString × GoString)}
    (h : ∀ p ∈ (k, v) :: rest, IsWord p.1 ∧ IsWord p.2) (fuel : Nat) (out : GoMap) :
    kvLoop (fuel + 1) (kvBody ((k, v) :: rest)) out =
      kvLoop fuel (kvBody rest) (out.set k v) := by
  have hk := (h (k, v) (List.mem_cons_self _ _)).1
  have hv := (h (k, v) (List.mem_cons_self _ _)).2
  have hr : ∀ q ∈ rest, IsWord q.1 ∧ IsWord q.2 := fun q hq => h q (List.mem_cons_of_mem _ hq)
  have hs : kvBody ((k, v) :: rest) = k ++ ':' :: ' ' :: (v ++ kvText rest) := rfl
  have hne : kvBody ((k, v) :: rest) ≠ [] := by simp [hs]
  have hi : ((kvBody ((k, v) :: rest)).takeWhile isKeyChar).length = k.length := by
    rw [hs, takeWhile_key_append (isKeyChar_of_word hk)]
  have hlen : ¬ (kvBody ((k, v) :: rest)).length ≤ k.length := by
    simp [hs]
  have hhead : ((kvBody ((k, v) :: rest)).drop k.length).head? = some ':' := by
    rw [hs, List.drop_left]
    rfl
  have htake : (kvBody ((k, v) :: rest)).take (k.length + 1) = k ++ [':'] := by
    have e : k ++ ':' :: ' ' :: (v ++ kvText rest) = (k ++ [':']) ++ ' ' :: (v ++ kvText rest) := by
      simp
    have l : k.length + 1 = (k ++ [':']).length := by simp
    rw [hs, e, l, List.take_left]
  have hdrop : (kvBody ((k, v) :: rest)).drop (k.length + 1) = ' ' :: (v ++ kvText rest) := by
    have e : k ++ ':' :: ' ' :: (v ++ kvText rest) = (k ++ [':']) ++ ' ' :: (v ++ kvText rest) := by
      simp
    have l : k.length + 1 = (k ++ [':']).length := by simp
    rw [hs, e, l, List.drop_left]
  have hs1 : TrimSpace (' ' :: (v ++ kvText rest)) = v ++ kvText rest :=
    TrimSpace_space_word_append hv (ends_word_kvText hv rest hr)
  have hve : valEndFrom (v ++ kvText rest) 0 = v.length := by
    rw [valEndFrom_skip (not_blank_of_word hv), valEndFrom_kvText rest hr]
    simp
  rw [kvLoop]
  simp only [hne, if_false, hi, hlen, decide_False, Bool.false_or, hhead, bne_self_eq_false,
    Bool.false_eq_true, htake, hdrop, hs1, hve, List.take_left, List.drop_left,
    TrimSpace_word hv, TrimSpace_kvText rest hr, TrimSuffix_colon]

theorem kvLoop_nil (fuel : Nat) (out : GoMap) : kvLoop fuel [] out = out := by
  cases fuel <;> simp [kvLoop]

theorem kvBody_length_lt {k v : GoString} {rest : List (GoString × GoString)} :
    (kvBody rest).length < (kvBody ((k, v) :: rest)).length := by
  cases rest with
  | nil => simp [kvBody]
  | cons p r =>
    obtain ⟨k1, v1⟩ := p
    simp [kvBody, kvText]
    omega

theorem kvLoop_kvBody (kvs : List (GoString × GoString))
    (h : ∀ p ∈ kvs, IsWord p.1 ∧ IsWord p.2) (fuel : Nat) (hf : (kvBody kvs).length ≤ fuel)
    (out : GoMap) :
    kvLoop fuel (kvBody kvs) out = kvs.foldl (fun m p => m.set p.1 p.2) out := by
  induction kvs generalizing fuel out with
  | nil => simpa [kvBody] using kvLoop_nil fuel out
  | cons p rest ih =>
    obtain ⟨k, v⟩ := p
    have hlt := @kvBody_length_lt k v rest
    cases fuel with
    | zero => omega
    | succ f =>
      rw [kvLoop_step h f out, List.foldl_cons]
      exact ih (fun q hq => h q (List.mem_cons_of_mem _ hq)) f (by omega) _

theorem GoMap.set_fresh (m : GoMap) (k v : GoString) (h : k ∉ m.map Prod.fst) :
    m.set k v = m ++ [(k, v)] := by
  have : m.any (fun p => decide (p.1 = k)) = false := by
    rw [List.any_eq_false]
    intro p hp
    have : p.1 ≠ k := fun e => h (e ▸ List.mem_map_of_mem Prod.fst hp)
    simpa using this
  simp [GoMap.set, this]

theorem foldl_set_fresh (kvs : List (GoString × GoString)) (m : GoMap)
    (h : (m.map Prod.fst ++ kvs.map Prod.fst).Nodup) :
    kvs.foldl (fun m p => GoMap.set m p.1 p.2) m = m ++ kvs := by
  induction kvs generalizing m with
  | nil => simp
  | cons p rest ih =>
    obtain ⟨k, v⟩ := p
    have hk : k ∉ m.map Prod.fst := by
      intro hmem
      rw [List.nodup_append] at h
      exact h.2.2 hmem (by simp)
    rw [List.foldl_cons, GoMap.set_fresh m k v hk, ih]
    · simp
    · have e : (m ++ [(k, v)]).map Prod.fst ++ rest.map Prod.fst =
          m.map Prod.fst ++ ((k, v) :: rest).map Prod.fst := by simp
      rw [e]
      exact h

/-! ## Theorems: parser -/

/-- C1. For every input line `ParseTimeLine` returns a nil error; `ok` is true exactly
when the line, trimmed of surrounding white space, begins with `Time:`; and when `ok`
is false the snapshot returned is the zero snapshot. -/
theorem C1_ParseTimeLine_recognition (now : Time) (rangeOrder : GoMap → GoMap)
    (line : GoString) :
    (ParseTimeLine now rangeOrder line).2.2 = none ∧
    ((ParseTimeLine now rangeOrder line).2.1 = true ↔
      ∃ t, TrimSpace line = "Time:".toList ++ t) ∧
    ((ParseTimeLine now rangeOrder line).2.1 = false →
      (ParseTimeLine now rangeOrder line).1 = Snapshot.zero) := by
  have hp : HasPrefix (TrimSpace line) "Time:".toList = true ↔
      ∃ t, TrimSpace line = "Time:".toList ++ t := by
    unfold HasPrefix
    rw [List.isPrefixOf_iff_prefix]
    constructor
    · rintro ⟨t, ht⟩
      exact ⟨t, ht.symm⟩
    · rintro ⟨t, ht⟩
      exact ⟨t, ht.symm⟩
  rw [← hp]
  unfold ParseTimeLine
  cases h : HasPrefix (TrimSpace line) "Time:".toList <;> simp

theorem restOfLine_statusLine {t : GoString} {kvs : List (GoString × GoString)}
    (ht : IsWord t) (hw : ∀ p ∈ kvs, IsWord p.1 ∧ IsWord p.2) :
    restOfLine (statusLine t kvs) = t ++ kvText kvs := by
  have he := ends_word_kvText ht kvs hw
  have h1 : TrimSpace (statusLine t kvs) = statusLine t kvs := by
    have e : statusLine t kvs = "Time".toList ++ (':' :: ' ' :: (t ++ kvText kvs)) := rfl
    rw [e]
    exact TrimSpace_word_append (by decide) ((he.cons ' ').cons ':' |>.append_left _)
  have h2 : TrimPrefix (statusLine t kvs) "Time:".toList = ' ' :: (t ++ kvText kvs) := by
    simp [TrimPrefix, HasPrefix, statusLine, List.isPrefixOf]
  unfold restOfLine
  rw [h1, h2]
  exact TrimSpace_space_word_append ht he

theorem parseKeyValuePairs_wellShaped {t : GoString} {kvs : List (GoString × GoString)}
    (ht : IsWord t) (hne : kvs ≠ []) (hw : ∀ p ∈ kvs, IsWord p.1 ∧ IsWord p.2) :
    parseKeyValuePairs (t ++ kvText kvs) =
      kvs.foldl (fun m p => GoMap.set m p.1 p.2) [("Time".toList, t)] := by
  have he := ends_word_kvText ht kvs hw
  have h1 : TrimSpace (t ++ kvText kvs) = t ++ kvText kvs := TrimSpace_word_append ht he
  obtain ⟨⟨k, v⟩, rest, rfl⟩ := List.exists_cons_of_ne_nil hne
  have hidx : firstKeyStart (t ++ kvText ((k, v) :: rest)) = (t.length : Int) := by
    unfold firstKeyStart
    rw [firstKeyStartFrom_skip (not_blank_of_word ht), firstKeyStartFrom_kvText hw]
    simp
  have hpos : (0 : Int) < (t.length : Int) := by
    have : t ≠ [] := ht.1
    have := List.length_pos.mpr this
    omega
  unfold parseKeyValuePairs
  simp only [h1, hidx, hpos, if_true, Int.toNat_ofNat, List.take_left, List.drop_left,
    TrimSpace_word ht, TrimSpace_kvText _ hw]
  rw [kvLoop_kvBody _ hw _ (le_refl _)]
  rfl

theorem testLine_pairs :
    parseKeyValuePairs (restOfLine testLine) = ("Time".toList, "123.45".toList) :: testPairs := by
  decide

theorem applyPair_comm_testLine :
    ∀ x ∈ ("Time".toList, "123.45".toList) :: testPairs,
    ∀ y ∈ ("Time".toList, "123.45".toList) :: testPairs,
    ∀ z : Snapshot, applyPair (applyPair z x) y = applyPair (applyPair z y) x := by
  simp only [testPairs, List.mem_cons, List.mem_singleton, List.not_mem_nil, or_false]
  rintro x (rfl | rfl | rfl | rfl | rfl | rfl | rfl | rfl | rfl) y
    (rfl | rfl | rfl | rfl | rfl | rfl | rfl | rfl | rfl) z <;> rfl

/-- C2. On a status line `Time: t K1: v1 ... Kn: vn` (n ≥ 1; `t`, the keys and the values
non-empty and free of white space and `:`; `Time` and the keys pairwise distinct)
`parseKeyValuePairs`, applied to the text after `Time:`, returns exactly the map
`Time -> t, K1 -> v1, ..., Kn -> vn`; and on the line of the parser's test,
whatever order `range` takes over the map, `ParseTimeLine` yields fps 30.5, heap 512.2,
rss 600, chunks 100, players 2, zombies 50, entities 200, co 2, entities_active -1 and
cgo_missing true. -/
theorem C2_status_line_pairs (t : GoString) (kvs : List (GoString × GoString))
    (ht : IsWord t) (hne : kvs ≠ []) (hw : ∀ p ∈ kvs, IsWord p.1 ∧ IsWord p.2)
    (hnd : ("Time".toList :: kvs.map Prod.fst).Nodup) :
    parseKeyValuePairs (restOfLine (statusLine t kvs)) = ("Time".toList, t) :: kvs ∧
    (∀ (now : Time) (rangeOrder : GoMap → GoMap), IsRangeOrder rangeOrder →
      ParseTimeLine now rangeOrder testLine = (testSnapshot now, true, none)) := by
  constructor
  · rw [restOfLine_statusLine ht hw, parseKeyValuePairs_wellShaped ht hne hw]
    exact foldl_set_fresh kvs [("Time".toList, t)] (by simpa using hnd)
  · intro now rangeOrder horder
    have hperm := horder (parseKeyValuePairs (restOfLine testLine))
    rw [testLine_pairs] at hperm
    have hfold := hperm.symm.foldl_eq' applyPair_comm_testLine (initialSnapshot now)
    have hpre : HasPrefix (TrimSpace testLine) "Time:".toList = true := by decide
    unfold ParseTimeLine
    simp only [hpre, Bool.not_true, Bool.false_eq_true, if_false]
    rw [testLine_pairs, ← hfold]
    rfl

/-- C2 at the line of the parser's test: the hypotheses hold, the map is the expected
one, and the snapshot is the expected one when `range` follows the order of the line
and when it runs against it. -/
theorem C2_status_line_pairs_witness :
    statusLine "123.45".toList testPairs = testLine ∧
    parseKeyValuePairs (restOfLine testLine) = ("Time".toList, "123.45".toList) :: testPairs ∧
    ParseTimeLine Time.zero id testLine = (testSnapshot Time.zero, true, none) ∧
    ParseTimeLine Time.zero List.reverse testLine = (testSnapshot Time.zero, true, none) := by
  have h := C2_status_line_pairs "123.45".toList testPairs (by decide) (by decide) (by decide)
    (by decide)
  have e : statusLine "123.45".toList testPairs = testLine := by decide
  rw [e] at h
  exact ⟨e, h.1, h.2 Time.zero id (fun m => List.Perm.refl m),
    h.2 Time.zero List.reverse (fun m => List.reverse_perm m)⟩

/-- C3. The test `TestParseKeyValuePairs` and the specification expect
`parseKeyValuePairs("FPS: 60 Heap: 100 MB")` to be the map `FPS -> "60", Heap -> "100 MB"`.
The code stores the text before the second key, `FPS: 60`, under the synthetic key
`Time`, and nothing under `FPS`. -/
theorem C3_leading_key_stored_as_Time :
    parseKeyValuePairs "FPS: 60 Heap: 100 MB".toList =
      [("Time".toList, "FPS: 60".toList), ("Heap".toList, "100 MB".toList)] ∧
    GoMap.get (parseKeyValuePairs "FPS: 60 Heap: 100 MB".toList) "FPS".toList = [] ∧
    GoMap.get (parseKeyValuePairs "FPS: 60 Heap: 100 MB".toList) "Heap".toList = "100 MB".toList := by
  decide

/-! ## Lemmas: the loop of `parseKeyValuePairs` never runs out of rounds -/

theorem TrimSpace_length_le (s : GoString) : (TrimSpace s).length ≤ s.length := by
  unfold TrimSpace
  rw [List.length_reverse]
  calc ((s.dropWhile isSpace).reverse.dropWhile isSpace).length
      ≤ (s.dropWhile isSpace).reverse.length := (List.dropWhile_sublist _).length_le
    _ = (s.dropWhile isSpace).length := List.length_reverse _
    _ ≤ s.length := (List.dropWhile_sublist _).length_le

theorem kvLoop_fuel (f1 f2 : Nat) (s : GoString) (out : GoMap)
    (h1 : s.length ≤ f1) (h2 : s.length ≤ f2) : kvLoop f1 s out = kvLoop f2 s out := by
  induction f1 generalizing f2 s out with
  | zero =>
    have : s = [] := List.length_eq_zero.mp (by omega)
    subst this
    rw [kvLoop_nil, kvLoop_nil]
  | succ f1 ih =>
    cases f2 with
    | zero =>
      have : s = [] := List.length_eq_zero.mp (by omega)
      subst this
      rw [kvLoop_nil, kvLoop_nil]
    | succ f2 =>
      rw [kvLoop, kvLoop]
      by_cases hs : s = []
      · simp [hs]
      · simp only [hs, if_false]
        split
        · rfl
        · apply ih
          all_goals
            refine le_trans (TrimSpace_length_le _) ?_
            rw [List.length_drop]
            refine le_trans (Nat.sub_le _ _) ?_
            refine le_trans (TrimSpace_length_le _) ?_
            rw [List.length_drop]
            omega

/-! ## Lemmas: ring buffer -/

theorem NewRing_WF {α : Type} (zero : α) (maxLen : Int) : (NewRing zero maxLen).WF := by
  unfold NewRing Ring.WF
  by_cases h : maxLen ≤ 0
  · simp [h]
  · simp only [h, if_false, List.length_replicate, true_and]
    omega

theorem Ring.Append_WF {α : Type} {r : Ring α} (h : r.WF) (v : α) : (r.Append v).WF := by
  obtain ⟨h1, h2, h3⟩ := h
  refine ⟨?_, h2, ?_⟩
  · simp [Ring.Append, h1]
  · exact Nat.mod_lt _ h2

theorem NewRing_AllHeld {α : Type} (Q : α → Prop) (zero : α) (maxLen : Int) :
    (NewRing zero maxLen).AllHeld Q := by
  intro i x _ h
  rcases h with h | h
  · simp [NewRing] at h
  · simp [NewRing] at h

theorem Ring.Append_AllHeld {α : Type} {Q : α → Prop} {r : Ring α} (hwf : r.WF)
    (h : r.AllHeld Q) {v : α} (hv : Q v) : (r.Append v).AllHeld Q := by
  obtain ⟨h1, h2, h3⟩ := hwf
  intro i x hx hi
  simp only [Ring.Append] at hx hi
  by_cases hih : i = r.head
  · subst hih
    rw [List.getElem?_set_self (by omega)] at hx
    cases hx
    exact hv
  · rw [List.getElem?_set_ne (Ne.symm hih)] at hx
    apply h i x hx
    by_cases hfull : r.full = true
    · exact Or.inl hfull
    · right
      have hlt : i < r.slice.length := by
        rcases List.getElem?_eq_some.mp hx with ⟨hlt, _⟩
        exact hlt
      by_cases hwrap : (r.head + 1) % r.maxLen = 0
      · have : r.head + 1 = r.maxLen := by
          rcases Nat.lt_or_ge (r.head + 1) r.maxLen with hlt2 | hge
          · rw [Nat.mod_eq_of_lt hlt2] at hwrap
            omega
          · omega
        omega
      · simp only [hwrap, if_false] at hi
        rcases hi with hi | hi
        · exact absurd hi hfull
        · have hle : (r.head + 1) % r.maxLen ≤ r.head + 1 := Nat.mod_le _ _
          omega

theorem Ring.copyLoop_getElem? {α : Type} (r : Ring α) (start : Nat) (k i : Nat) (dst : List α)
    (hv : ∀ j, i ≤ j → j < i + k → (start + j) % r.maxLen < r.slice.length) (p : Nat) :
    (Ring.copyLoop r start k i dst)[p]? =
      if i ≤ p ∧ p < i + k ∧ p < dst.length then r.slice[(start + p) % r.maxLen]?
      else dst[p]? := by
  induction k generalizing i dst with
  | zero =>
    have : ¬ (i ≤ p ∧ p < i + 0 ∧ p < dst.length) := by omega
    rw [if_neg this]
    rfl
  | succ k ih =>
    have hidx := hv i (le_refl _) (by omega)
    obtain ⟨x, hx⟩ : ∃ x, r.slice[(start + i) % r.maxLen]? = some x :=
      ⟨_, List.getElem?_eq_getElem hidx⟩
    simp only [Ring.copyLoop, hx]
    rw [ih (i + 1) (dst.set i x) (fun j h1 h2 => hv j (by omega) (by omega))]
    simp only [List.length_set]
    by_cases hpi : p = i
    · subst hpi
      have h1 : ¬ (p + 1 ≤ p ∧ p < p + 1 + k ∧ p < dst.length) := by omega
      simp only [h1, if_false]
      by_cases hlen : p < dst.length
      · have h2 : p ≤ p ∧ p < p + (k + 1) ∧ p < dst.length := ⟨le_refl _, by omega, hlen⟩
        simp only [h2, and_self, if_true, hx]
        exact List.getElem?_set_self hlen
      · have h2 : ¬ (p ≤ p ∧ p < p + (k + 1) ∧ p < dst.length) := fun h => hlen h.2.2
        simp only [h2, if_false]
        rw [List.getElem?_eq_none (by simpa using hlen), List.getElem?_eq_none (by simpa using hlen)]
    · rw [List.getElem?_set_ne (Ne.symm hpi)]
      by_cases hc : i ≤ p ∧ p < i + (k + 1) ∧ p < dst.length
      · have hc2 : i + 1 ≤ p ∧ p < i + 1 + k ∧ p < dst.length := by omega
        simp only [hc, hc2, and_self, if_true]
      · have hc2 : ¬ (i + 1 ≤ p ∧ p < i + 1 + k ∧ p < dst.length) := by omega
        simp only [hc, hc2, if_false]

theorem Ring.CopyOut_snd_le {α : Type} (r : Ring α) (dst : List α) :
    (r.CopyOut dst).2 ≤ r.Len := by
  unfold Ring.CopyOut
  by_cases h : dst.length < r.Len
  · by_cases h0 : dst.length = 0
    · simp [h, h0]
    · simp only [h, if_true, h0, if_false]
      omega
  · by_cases h0 : r.Len = 0
    · simp [h, h0]
    · simp [h, h0]

theorem lowCountOf_le (cfg : FPSGuardPolicy) (buf : List Float64) (n : Nat) :
    lowCountOf cfg buf n ≤ n := by
  unfold lowCountOf
  refine le_trans (List.countP_le_length _) ?_
  rw [List.length_take]
  exact Nat.min_le_left _ _

theorem FPSGuard.lowCount_le_Len (g : FPSGuard) : g.lowCount ≤ g.fpsRing.Len := by
  unfold FPSGuard.lowCount
  exact le_trans (lowCountOf_le _ _ _) (Ring.CopyOut_snd_le _ _)

theorem FPSGuard.lowCount_eq_zero (g : FPSGuard) (hwf : g.fpsRing.WF)
    (h : g.fpsRing.AllHeld (fun x => isLow g.cfg x = false)) : g.lowCount = 0 := by
  obtain ⟨h1, h2, h3⟩ := hwf
  unfold FPSGuard.lowCount lowCountOf Ring.CopyOut
  simp only [List.length_replicate, lt_self_iff_false, if_false]
  by_cases h0 : g.fpsRing.Len = 0
  · simp [h0]
  · simp only [h0, if_false]
    rw [List.countP_eq_zero]
    intro x hx
    obtain ⟨p, hp, rfl⟩ := List.getElem_of_mem hx
    have hpn : p < g.fpsRing.Len := by
      have := hp
      rw [List.length_take] at this
      omega
    have hget := Ring.copyLoop_getElem? g.fpsRing (if g.fpsRing.full then g.fpsRing.head else 0)
      g.fpsRing.Len 0 (List.replicate g.fpsRing.Len Float64.zero)
      (fun j _ _ => by rw [h1]; exact Nat.mod_lt _ h2) p
    have hc : 0 ≤ p ∧ p < 0 + g.fpsRing.Len ∧
        p < (List.replicate g.fpsRing.Len Float64.zero).length := by
      simp [hpn]
    rw [if_pos hc] at hget
    have hval : (List.take g.fpsRing.Len (Ring.copyLoop g.fpsRing
        (if g.fpsRing.full then g.fpsRing.head else 0) g.fpsRing.Len 0
        (List.replicate g.fpsRing.Len Float64.zero)))[p]? = some
          ((List.take g.fpsRing.Len (Ring.copyLoop g.fpsRing
            (if g.fpsRing.full then g.fpsRing.head else 0) g.fpsRing.Len 0
            (List.replicate g.fpsRing.Len Float64.zero)))[p]) := List.getElem?_eq_getElem hp
    rw [List.getElem?_take_of_lt hpn, hget] at hval
    have hq := h _ _ hval
    have hfilled : g.fpsRing.full = true ∨
        ((if g.fpsRing.full then g.fpsRing.head else 0) + p) % g.fpsRing.maxLen < g.fpsRing.head := by
      by_cases hf : g.fpsRing.full = true
      · exact Or.inl hf
      · right
        have hl : g.fpsRing.Len = g.fpsRing.head := by simp [Ring.Len, hf]
        simp only [hf, Bool.false_eq_true, if_false, Nat.zero_add]
        rw [Nat.mod_eq_of_lt (by omega)]
        omega
    have := hq hfilled
    simpa [isLow] using this

/-! ## Lemmas: what the ring holds -/

theorem NewRing_Holds {α : Type} (zero : α) (maxLen : Int) : (NewRing zero maxLen).Holds [] := by
  refine ⟨NewRing_WF zero maxLen, ?_, ?_, ?_⟩
  · simp [NewRing]
  · have h := (NewRing_WF zero maxLen).2.1
    constructor
    · intro hf
      simp [NewRing] at hf
    · intro hle
      simp only [List.length_nil] at hle
      omega
  · intro j hj
    simp at hj

theorem Ring.Append_Holds {α : Type} {r : Ring α} {xs : List α} (h : r.Holds xs) (v : α) :
    (r.Append v).Holds (xs ++ [v]) := by
  obtain ⟨hwf, hhead, hfull, hslots⟩ := h
  obtain ⟨h1, h2, h3⟩ := hwf
  have hml : (r.Append v).maxLen = r.maxLen := rfl
  have hhead' : (r.Append v).head = (xs.length + 1) % r.maxLen := by
    show (r.head + 1) % r.maxLen = _
    rw [hhead, Nat.mod_add_mod]
  refine ⟨Ring.Append_WF ⟨h1, h2, h3⟩ v, ?_, ?_, ?_⟩
  · rw [hml, hhead']
    simp
  · rw [hml]
    simp only [List.length_append, List.length_singleton]
    show (if (r.head + 1) % r.maxLen = 0 then true else r.full) = true ↔ _
    have hh : (r.head + 1) % r.maxLen = (xs.length + 1) % r.maxLen := hhead'
    rw [hh]
    by_cases hz : (xs.length + 1) % r.maxLen = 0
    · simp only [hz, if_true, true_iff]
      have hdvd : r.maxLen ∣ xs.length + 1 := Nat.dvd_of_mod_eq_zero hz
      exact Nat.le_of_dvd (by omega) hdvd
    · simp only [hz, if_false]
      rw [hfull]
      constructor
      · intro hle
        omega
      · intro hle
        by_contra hn
        have : xs.length + 1 = r.maxLen := by omega
        rw [this, Nat.mod_self] at hz
        exact hz rfl
  · intro j hj hwin
    rw [hml] at hwin ⊢
    simp only [List.length_append, List.length_singleton] at hj hwin
    show (r.slice.set r.head v)[j % r.maxLen]? = _
    by_cases hjn : j = xs.length
    · subst hjn
      rw [← hhead, List.getElem?_set_self (by omega)]
      simp
    · have hjlt : j < xs.length := by omega
      have hne : r.head ≠ j % r.maxLen := by
        rw [hhead]
        intro heq
        have hd : (xs.length - j) % r.maxLen = 0 :=
          Nat.sub_mod_eq_zero_of_mod_eq heq
        have hdvd : r.maxLen ∣ xs.length - j := Nat.dvd_of_mod_eq_zero hd
        have := Nat.le_of_dvd (by omega) hdvd
        omega
      rw [List.getElem?_set_ne hne, hslots j hjlt (by omega), List.getElem?_append_left hjlt]

theorem Ring.Holds.Len_eq {α : Type} {r : Ring α} {xs : List α} (h : r.Holds xs) :
    r.Len = min xs.length r.maxLen := by
  obtain ⟨⟨_, h2, _⟩, hhead, hfull, _⟩ := h
  unfold Ring.Len
  by_cases hf : r.full = true
  · have := hfull.mp hf
    simp only [hf, if_true]
    omega
  · have hlt : xs.length < r.maxLen := by
      by_contra hn
      exact hf (hfull.mpr (by omega))
    simp only [hf, Bool.false_eq_true, if_false, hhead, Nat.mod_eq_of_lt hlt]
    omega

theorem Ring.copyLoop_length {α : Type} (r : Ring α) (start : Nat) (k i : Nat) (dst : List α) :
    (Ring.copyLoop r start k i dst).length = dst.length := by
  induction k generalizing i dst with
  | zero => rfl
  | succ k ih =>
    simp only [Ring.copyLoop]
    split
    · rw [ih, List.length_set]
    · rw [ih]

theorem window_length {α : Type} (cap : Nat) (xs : List α) :
    (window cap xs).length = min xs.length cap := by
  unfold window
  rw [List.length_drop]
  omega

theorem Ring.Holds.CopyOut_eq {α : Type} {r : Ring α} {xs : List α} (h : r.Holds xs)
    (dst : List α) (hd : dst.length = r.Len) :
    r.CopyOut dst = (window r.maxLen xs, r.Len) := by
  have hlen := h.Len_eq
  obtain ⟨⟨h1, h2, h3⟩, hhead, hfull, hslots⟩ := h
  unfold Ring.CopyOut
  simp only [hd, lt_self_iff_false, if_false]
  by_cases h0 : r.Len = 0
  · have hx : xs = [] := by
      have : min xs.length r.maxLen = 0 := by omega
      have : xs.length = 0 := by omega
      exact List.length_eq_zero.mp this
    have hdn : dst = [] := List.length_eq_zero.mp (by omega)
    simp [h0, hx, hdn, window]
  · simp only [h0, if_false]
    congr 1
    apply List.ext_getElem?
    intro p
    have hget := Ring.copyLoop_getElem? r (if r.full then r.head else 0) r.Len 0 dst
      (fun j _ _ => by rw [h1]; exact Nat.mod_lt _ h2) p
    rw [hget]
    by_cases hp : p < r.Len
    · have hc : 0 ≤ p ∧ p < 0 + r.Len ∧ p < dst.length := by omega
      rw [if_pos hc]
      unfold window
      rw [List.getElem?_drop]
      by_cases hf : r.full = true
      · have hle := hfull.mp hf
        have hL : r.Len = r.maxLen := by omega
        simp only [hf, if_true]
        have hj := hslots (xs.length - r.maxLen + p) (by omega) (by omega)
        rw [← hj, hhead]
        congr 1
        have e1 : xs.length - r.maxLen + p + r.maxLen = xs.length + p := by omega
        calc (xs.length % r.maxLen + p) % r.maxLen
            = (xs.length + p) % r.maxLen := Nat.mod_add_mod _ _ _
          _ = (xs.length - r.maxLen + p + r.maxLen) % r.maxLen := by rw [e1]
          _ = (xs.length - r.maxLen + p) % r.maxLen := Nat.add_mod_right _ _
      · have hlt : xs.length < r.maxLen := by
          by_contra hn
          exact hf (hfull.mpr (by omega))
        simp only [hf, Bool.false_eq_true, if_false, Nat.zero_add]
        have hj := hslots p (by omega) (by omega)
        rw [Nat.mod_eq_of_lt (by omega)] at hj ⊢
        rw [hj]
        congr 1
        omega
    · have hc : ¬ (0 ≤ p ∧ p < 0 + r.Len ∧ p < dst.length) := by omega
      rw [if_neg hc, List.getElem?_eq_none (by omega), List.getElem?_eq_none]
      rw [window_length]
      omega

/-! ## Lemmas: one call of `Evaluate` -/

theorem appended_cfg (g : FPSGuard) (snap : Snapshot) : (g.appended snap).cfg = g.cfg := rfl

theorem appended_profiles (g : FPSGuard) (snap : Snapshot) :
    (g.appended snap).profiles = g.profiles := rfl

theorem appended_throttled (g : FPSGuard) (snap : Snapshot) :
    (g.appended snap).throttled = g.throttled := rfl

theorem appended_lastStep (g : FPSGuard) (snap : Snapshot) :
    (g.appended snap).lastStep = g.lastStep := rfl

theorem appended_lastAction (g : FPSGuard) (snap : Snapshot) :
    (g.appended snap).lastAction = g.lastAction := rfl

theorem appended_restoreAt (g : FPSGuard) (snap : Snapshot) :
    (g.appended snap).restoreAt = g.restoreAt := rfl

theorem appended_instanceName (g : FPSGuard) (snap : Snapshot) :
    (g.appended snap).instanceName = g.instanceName := rfl

theorem appended_steps (g : FPSGuard) (snap : Snapshot) : (g.appended snap).steps = g.steps := rfl

/-- The body of `Evaluate`, written over the state after the append. -/
theorem Evaluate_unfold (g0 : FPSGuard) (snap : Snapshot) (now : Int) (g : FPSGuard)
    (hg : g = g0.appended snap) :
    g0.Evaluate snap now =
      if (g.fpsRing.Len : Int) < g.cfg.RequireLowSamples then some (g, none)
      else
        match g.profiles.lookup g.cfg.ThrottleProfile with
        | none => some (g, none)
        | some profile =>
          if profile.Steps.length = 0 then some (g, none)
          else
            if (decide (Sub now g.lastAction < secondsToDuration g.cfg.CooldownSeconds) &&
                g.throttled) = true then some (g, none)
            else if g.cfg.RequireLowSamples ≤ (g.lowCount : Int) then
              if (!g.throttled) = true then
                match stepAt profile.Steps 0 with
                | none => none
                | some step =>
                  some ({ g with throttled := true, lowSince := some now, lastAction := some now,
                                 lastStep := 0 },
                        some (Action.SetGamePref g.instanceName
                          "fps_guardrail: FPS below threshold" step.Pref step.Value))
              else if (decide (g.lastStep + 1 < (profile.Steps.length : Int)) &&
                  decide (secondsToDuration g.cfg.CooldownSeconds ≤ Sub now g.lastAction)) = true then
                match stepAt profile.Steps (g.lastStep + 1) with
                | none => none
                | some step =>
                  some ({ g with lastStep := g.lastStep + 1, lastAction := some now },
                        some (Action.SetGamePref g.instanceName
                          "fps_guardrail: stepping throttle" step.Pref step.Value))
              else some (g, none)
            else if g.throttled = true then
              if Float64.ge snap.FPS g.cfg.ThresholdRestore = true then
                if secondsToDuration g.cfg.RestoreStableSeconds ≤
                    Sub now (if g.restoreAt.isNone then some now else g.restoreAt) then
                  some ({ g with throttled := false, restoreAt := none, lastAction := some now },
                        some (Action.RestoreBaseline g.instanceName
                          "fps_guardrail: FPS stable, restore baseline"))
                else
                  some ({ g with restoreAt := (if g.restoreAt.isNone then some now else g.restoreAt) },
                        none)
              else some ({ g with restoreAt := none }, none)
            else some (g, none) := by
  subst hg
  unfold FPSGuard.Evaluate
  simp only [FPSGuard.appended]
  split
  · rfl
  · split
    · rfl
    · split
      · rfl
      · split
        · rfl
        · split
          · rfl
          · split
            · split
              · cases g0.restoreAt <;> rfl
              · rfl
            · rfl

theorem Evaluate_few (g : FPSGuard) (snap : Snapshot) (now : Int)
    (h : ((g.appended snap).fpsRing.Len : Int) < g.cfg.RequireLowSamples) :
    g.Evaluate snap now = some (g.appended snap, none) := by
  rw [Evaluate_unfold g snap now _ rfl]
  simp only [appended_cfg, h, if_true]

theorem Evaluate_noSteps (g : FPSGuard) (snap : Snapshot) (now : Int) (h : g.steps = []) :
    g.Evaluate snap now = some (g.appended snap, none) := by
  rw [Evaluate_unfold g snap now _ rfl]
  unfold FPSGuard.steps at h
  simp only [appended_cfg, appended_profiles]
  cases hl : g.profiles.lookup g.cfg.ThrottleProfile with
  | none => simp
  | some p =>
    simp only [hl] at h
    simp [h]

theorem Evaluate_normal (g : FPSGuard) (snap : Snapshot) (now : Int)
    (hN : g.throttled = false) (st : ThrottleStep) (rest : List ThrottleStep)
    (hs : g.steps = st :: rest) :
    g.Evaluate snap now =
      if g.cfg.RequireLowSamples ≤ ((g.appended snap).fpsRing.Len : Int) ∧
          g.cfg.RequireLowSamples ≤ ((g.appended snap).lowCount : Int) then
        some ({ (g.appended snap) with
                  throttled := true, lowSince := some now, lastAction := some now, lastStep := 0 },
              some (Action.SetGamePref g.instanceName "fps_guardrail: FPS below threshold"
                st.Pref st.Value))
      else some (g.appended snap, none) := by
  rw [Evaluate_unfold g snap now _ rfl]
  unfold FPSGuard.steps at hs
  simp only [appended_cfg, appended_profiles, appended_throttled, appended_instanceName]
  cases hl : g.profiles.lookup g.cfg.ThrottleProfile with
  | none => simp [hl] at hs
  | some p =>
    simp only [hl] at hs
    simp only [hs, hN, List.length_cons, stepAt]
    by_cases h1 : ((g.appended snap).fpsRing.Len : Int) < g.cfg.RequireLowSamples
    · have h1' : ¬ g.cfg.RequireLowSamples ≤ ((g.appended snap).fpsRing.Len : Int) := by omega
      simp [h1, h1']
    · have h1' : g.cfg.RequireLowSamples ≤ ((g.appended snap).fpsRing.Len : Int) := by omega
      by_cases h2 : g.cfg.RequireLowSamples ≤ ((g.appended snap).lowCount : Int)
      · simp [h1, h1', h2]
      · simp [h1, h1', h2]

theorem Evaluate_throttled_low (g : FPSGuard) (snap : Snapshot) (now : Int)
    (hT : g.throttled = true) (hk : 0 ≤ g.lastStep)
    (hlow : g.cfg.RequireLowSamples ≤ ((g.appended snap).lowCount : Int)) :
    g.Evaluate snap now =
      if g.lastStep + 1 < (g.steps.length : Int) ∧
          secondsToDuration g.cfg.CooldownSeconds ≤ Sub now g.lastAction then
        match stepAt g.steps (g.lastStep + 1) with
        | none => none
        | some step =>
          some ({ (g.appended snap) with lastStep := g.lastStep + 1, lastAction := some now },
                some (Action.SetGamePref g.instanceName "fps_guardrail: stepping throttle"
                  step.Pref step.Value))
      else some (g.appended snap, none) := by
  have hlen : ¬ ((g.appended snap).fpsRing.Len : Int) < g.cfg.RequireLowSamples := by
    have := (g.appended snap).lowCount_le_Len
    omega
  by_cases hst : g.steps = []
  · rw [Evaluate_noSteps g snap now hst]
    have : ¬ (g.lastStep + 1 < 0) := by omega
    simp [hst, this]
  · rw [Evaluate_unfold g snap now _ rfl]
    unfold FPSGuard.steps at hst ⊢
    simp only [appended_cfg, appended_profiles, appended_throttled, appended_instanceName,
      appended_lastAction, appended_lastStep]
    cases hl : g.profiles.lookup g.cfg.ThrottleProfile with
    | none => simp [hl] at hst
    | some p =>
      simp only [hl] at hst ⊢
      have hp0 : ¬ p.Steps.length = 0 := fun h => hst (List.length_eq_zero.mp h)
      simp only [hT, hlen, hp0, if_false, hlow, if_true,
        Bool.and_true, Bool.not_true, Bool.false_eq_true, decide_eq_true_eq]
      by_cases hc : Sub now g.lastAction < secondsToDuration g.cfg.CooldownSeconds
      · have hc' : ¬ secondsToDuration g.cfg.CooldownSeconds ≤ Sub now g.lastAction := by omega
        simp [hc, hc']
      · have hc' : secondsToDuration g.cfg.CooldownSeconds ≤ Sub now g.lastAction := by omega
        by_cases hn : g.lastStep + 1 < (p.Steps.length : Int)
        · simp [hc, hc', hn]
        · simp [hc, hc', hn]

theorem Evaluate_normal_quiet (g : FPSGuard) (snap : Snapshot) (now : Int)
    (hN : g.throttled = false)
    (hc : ¬ (g.cfg.RequireLowSamples ≤ ((g.appended snap).fpsRing.Len : Int) ∧
             g.cfg.RequireLowSamples ≤ ((g.appended snap).lowCount : Int))) :
    g.Evaluate snap now = some (g.appended snap, none) := by
  cases hs : g.steps with
  | nil => exact Evaluate_noSteps g snap now hs
  | cons st rest => rw [Evaluate_normal g snap now hN st rest hs, if_neg hc]

/-- What one call of `Evaluate` can do to a throttled guard whose step index is not
negative: it returns, keeps the profile and the instance name, and either emits
nothing and stays at its step, or emits the next step, or emits `RestoreBaseline`. -/
theorem Evaluate_throttled_cases (g : FPSGuard) (snap : Snapshot) (now : Int)
    (hT : g.throttled = true) (hk : 0 ≤ g.lastStep) :
    ∃ g1 a, g.Evaluate snap now = some (g1, a) ∧ g1.steps = g.steps ∧
      g1.instanceName = g.instanceName ∧ g1.cfg = g.cfg ∧
      ((a = none ∧ g1.throttled = true ∧ g1.lastStep = g.lastStep) ∨
       (∃ st, stepAt g.steps (g.lastStep + 1) = some st ∧
          a = some (Action.SetGamePref g.instanceName "fps_guardrail: stepping throttle"
                st.Pref st.Value) ∧
          g1.throttled = true ∧ g1.lastStep = g.lastStep + 1) ∨
       (a = some (Action.RestoreBaseline g.instanceName
            "fps_guardrail: FPS stable, restore baseline") ∧ g1.throttled = false ∧
          g1.lastStep = g.lastStep)) := by
  by_cases hlow : g.cfg.RequireLowSamples ≤ ((g.appended snap).lowCount : Int)
  · rw [Evaluate_throttled_low g snap now hT hk hlow]
    by_cases hc : g.lastStep + 1 < (g.steps.length : Int) ∧
        secondsToDuration g.cfg.CooldownSeconds ≤ Sub now g.lastAction
    · rw [if_pos hc]
      have hlt : (g.lastStep + 1).toNat < g.steps.length := by omega
      have hst : stepAt g.steps (g.lastStep + 1) = some (g.steps[(g.lastStep + 1).toNat]) := by
        have hn : ¬ g.lastStep + 1 < 0 := by omega
        simp only [stepAt, hn, if_false]
        exact List.getElem?_eq_getElem hlt
      rw [hst]
      exact ⟨_, _, rfl, rfl, rfl, rfl, Or.inr (Or.inl ⟨_, rfl, rfl, hT, rfl⟩)⟩
    · rw [if_neg hc]
      exact ⟨_, _, rfl, rfl, rfl, rfl, Or.inl ⟨rfl, hT, rfl⟩⟩
  · by_cases hlen : ((g.appended snap).fpsRing.Len : Int) < g.cfg.RequireLowSamples
    · rw [Evaluate_few g snap now hlen]
      exact ⟨_, _, rfl, rfl, rfl, rfl, Or.inl ⟨rfl, hT, rfl⟩⟩
    · rw [Evaluate_unfold g snap now _ rfl]
      simp only [appended_cfg, appended_profiles, appended_throttled, appended_instanceName,
        appended_lastAction, appended_lastStep, appended_restoreAt, hlen, hlow, hT, if_false,
        if_true, Bool.and_true, decide_eq_true_eq]
      cases hl : g.profiles.lookup g.cfg.ThrottleProfile with
      | none => exact ⟨_, _, rfl, rfl, rfl, rfl, Or.inl ⟨rfl, hT, rfl⟩⟩
      | some p =>
        simp only []
        split_ifs <;> first
          | exact ⟨_, _, rfl, rfl, rfl, rfl, Or.inl ⟨rfl, hT, rfl⟩⟩
          | exact ⟨_, _, rfl, rfl, rfl, rfl, Or.inl ⟨rfl, rfl, rfl⟩⟩
          | exact ⟨_, _, rfl, rfl, rfl, rfl, Or.inr (Or.inr ⟨rfl, rfl, rfl⟩)⟩

/-- A call of `Evaluate` returns (no index is out of range) as long as the step index is not
negative, and keeps it so. -/
theorem Evaluate_total (g : FPSGuard) (snap : Snapshot) (now : Int) (hk : 0 ≤ g.lastStep) :
    ∃ g1 a, g.Evaluate snap now = some (g1, a) ∧ 0 ≤ g1.lastStep := by
  by_cases hT : g.throttled = true
  · obtain ⟨g1, a, he, _, _, _, hc⟩ := Evaluate_throttled_cases g snap now hT hk
    refine ⟨g1, a, he, ?_⟩
    rcases hc with ⟨_, _, h⟩ | ⟨_, _, _, _, h⟩ | ⟨_, _, h⟩ <;> omega
  · have hN : g.throttled = false := by simpa using hT
    cases hs : g.steps with
    | nil => exact ⟨_, _, Evaluate_noSteps g snap now hs, hk⟩
    | cons st rest =>
      rw [Evaluate_normal g snap now hN st rest hs]
      split
      · exact ⟨_, _, rfl, le_refl _⟩
      · exact ⟨_, _, rfl, hk⟩

/-- A run of `Evaluate` calls returns as long as the step index starts not negative. -/
theorem run_total (evs : List (Snapshot × Int)) :
    ∀ (g : FPSGuard), 0 ≤ g.lastStep → ∃ r, g.run evs = some r := by
  induction evs with
  | nil => intro g _; exact ⟨_, rfl⟩
  | cons e rest ih =>
    obtain ⟨snap, now⟩ := e
    intro g hk
    obtain ⟨g1, a, he, hk1⟩ := Evaluate_total g snap now hk
    obtain ⟨r, hr⟩ := ih g1 hk1
    exact ⟨(r.1, a :: r.2), by simp only [FPSGuard.run, he, hr]⟩

/-- From a throttled guard at step `k ≥ 0`, any run of `Evaluate` calls returns, and the
first action it emits is the step `k + 1` or `RestoreBaseline`. -/
theorem run_throttled_first_action (evs : List (Snapshot × Int)) :
    ∀ (g : FPSGuard), g.throttled = true → 0 ≤ g.lastStep →
    ∃ g2 acts, g.run evs = some (g2, acts) ∧
      ∀ (i : Nat) (a : Action), acts[i]? = some (some a) →
        (∀ j, j < i → acts[j]? = some none) →
        ((∃ st, stepAt g.steps (g.lastStep + 1) = some st ∧
            a = Action.SetGamePref g.instanceName "fps_guardrail: stepping throttle"
                  st.Pref st.Value) ∨
         a = Action.RestoreBaseline g.instanceName
                "fps_guardrail: FPS stable, restore baseline") := by
  induction evs with
  | nil =>
    intro g _ _
    refine ⟨g, [], rfl, ?_⟩
    intro i a h
    simp at h
  | cons e rest ih =>
    obtain ⟨snap, now⟩ := e
    intro g hT hk
    obtain ⟨g1, a1, he, hsteps, hname, _, hcases⟩ := Evaluate_throttled_cases g snap now hT hk
    have htot : ∃ g2 acts, g1.run rest = some (g2, acts) ∧
        (a1 = none → ∀ (i : Nat) (a : Action), acts[i]? = some (some a) →
          (∀ j, j < i → acts[j]? = some none) →
          ((∃ st, stepAt g.steps (g.lastStep + 1) = some st ∧
              a = Action.SetGamePref g.instanceName "fps_guardrail: stepping throttle"
                    st.Pref st.Value) ∨
           a = Action.RestoreBaseline g.instanceName
                  "fps_guardrail: FPS stable, restore baseline")) := by
      rcases hcases with ⟨ha, hT1, hk1⟩ | ⟨st, _, ha, hT1, hk1⟩ | ⟨ha, hT1, hk1⟩
      · obtain ⟨g2, acts, hr, hprop⟩ := ih g1 hT1 (by omega)
        rw [hsteps, hname, hk1] at hprop
        exact ⟨g2, acts, hr, fun _ => hprop⟩
      · obtain ⟨g2, acts, hr, _⟩ := ih g1 hT1 (by omega)
        refine ⟨g2, acts, hr, fun h => ?_⟩
        rw [ha] at h
        cases h
      · have : ∃ r, g1.run rest = some r := run_total rest g1 (by omega)
        obtain ⟨⟨g2, acts⟩, hr⟩ := this
        refine ⟨g2, acts, hr, fun h => ?_⟩
        rw [ha] at h
        cases h
    obtain ⟨g2, acts, hr, hprop⟩ := htot
    refine ⟨g2, a1 :: acts, by simp only [FPSGuard.run, he, hr], ?_⟩
    intro i a hi hbefore
    cases i with
    | zero =>
      simp only [List.getElem?_cons_zero, Option.some.injEq] at hi
      rcases hcases with ⟨ha, _, _⟩ | ⟨st, hst, ha, _, _⟩ | ⟨ha, _, _⟩
      · rw [ha] at hi
        cases hi
      · rw [ha] at hi
        cases hi
        exact Or.inl ⟨st, hst, rfl⟩
      · rw [ha] at hi
        cases hi
        exact Or.inr rfl
    | succ i =>
      have h0 := hbefore 0 (by omega)
      simp only [List.getElem?_cons_zero, Option.some.injEq] at h0
      simp only [List.getElem?_cons_succ] at hi
      apply hprop h0 i a hi
      intro j hj
      have := hbefore (j + 1) (by omega)
      simpa using this

theorem Float64.lt_asymm {a b : Float64} (h : Float64.lt a b = true) :
    Float64.lt b a = false := by
  cases a with
  | nan => simp [Float64.lt] at h
  | inf n1 =>
    cases b with
    | nan => simp [Float64.lt] at h
    | inf n2 => cases n1 <;> cases n2 <;> simp [Float64.lt] at h ⊢
    | fin m e => cases n1 <;> simp [Float64.lt] at h ⊢
  | fin m1 e1 =>
    cases b with
    | nan => simp [Float64.lt] at h
    | inf n2 => cases n2 <;> simp [Float64.lt] at h ⊢
    | fin m2 e2 =>
      simp only [Float64.lt, decide_eq_true_eq, decide_eq_false_iff_not, not_lt] at h ⊢
      rw [min_comm e2 e1]
      exact le_of_lt h

theorem isLow_of_above (cfg : FPSGuardPolicy) (x : Float64)
    (h : Float64.lt cfg.ThresholdLow x = true) : isLow cfg x = false := by
  simp [isLow, Float64.lt_asymm h]

theorem NewFPSGuard_ThresholdLow (name : String) (cfg : FPSGuardPolicy) (profiles : ProfileMap) :
    (NewFPSGuard name cfg profiles).cfg.ThresholdLow = cfg.ThresholdLow := by
  unfold NewFPSGuard
  by_cases h1 : cfg.SampleWindowSamples ≤ 0 <;> by_cases h2 : cfg.RequireLowSamples ≤ 0 <;>
    simp [h1, h2]

theorem NewFPSGuard_RequireLowSamples_pos (name : String) (cfg : FPSGuardPolicy)
    (profiles : ProfileMap) : 0 < (NewFPSGuard name cfg profiles).cfg.RequireLowSamples := by
  unfold NewFPSGuard
  by_cases h1 : cfg.SampleWindowSamples ≤ 0 <;> by_cases h2 : cfg.RequireLowSamples ≤ 0 <;>
    simp [h1, h2] <;> omega

/-- A Normal guard whose held samples are all not low stays so on a snapshot that is
not low, and emits nothing. -/
theorem run_quiet (evs : List (Snapshot × Int)) :
    ∀ (g : FPSGuard), g.throttled = false → g.fpsRing.WF →
      g.fpsRing.AllHeld (fun x => isLow g.cfg x = false) → 0 < g.cfg.RequireLowSamples →
      (∀ e ∈ evs, isLow g.cfg e.1.FPS = false) →
      ∃ g2, g.run evs = some (g2, evs.map (fun _ => none)) ∧ g2.throttled = false := by
  induction evs with
  | nil =>
    intro g hN _ _ _ _
    exact ⟨g, rfl, hN⟩
  | cons e rest ih =>
    obtain ⟨snap, now⟩ := e
    intro g hN hwf hall hreq hev
    have hx : isLow g.cfg snap.FPS = false := hev (snap, now) (List.mem_cons_self _ _)
    have hwf1 : (g.appended snap).fpsRing.WF := Ring.Append_WF hwf _
    have hall1 : (g.appended snap).fpsRing.AllHeld (fun x => isLow (g.appended snap).cfg x = false) :=
      Ring.Append_AllHeld hwf hall hx
    have hz := (g.appended snap).lowCount_eq_zero hwf1 hall1
    have he := Evaluate_normal_quiet g snap now hN (by rw [hz]; simp; omega)
    obtain ⟨g2, hr, hN2⟩ := ih (g.appended snap) hN hwf1 hall1 hreq
      (fun e he => hev e (List.mem_cons_of_mem _ he))
    exact ⟨g2, by simp only [FPSGuard.run, he, hr, List.map_cons], hN2⟩

theorem Sub_mono {t1 t2 : Int} (h : t1 ≤ t2) (u : Option Int) : Sub t1 u ≤ Sub t2 u := by
  cases u with
  | none => exact le_refl _
  | some v =>
    unfold Sub maxDuration minDuration
    simp only []
    split_ifs <;> omega

theorem Sub_self (t : Int) : Sub t (some t) = 0 := by
  unfold Sub maxDuration minDuration
  simp

theorem Sub_some {t1 t2 : Int} (h1 : t1 ≤ t2) (h2 : t2 - t1 ≤ maxDuration) :
    Sub t2 (some t1) = t2 - t1 := by
  unfold Sub
  have hmin : ¬ t2 - t1 < minDuration := by
    unfold minDuration
    omega
  have hmax : ¬ maxDuration < t2 - t1 := by omega
  simp only [hmax, hmin, if_false]

/-- A throttled guard, cooldown elapsed, on a recovered snapshot after which the
window's low count is below the requirement: the restore branch is the one taken. -/
theorem Evaluate_throttled_recovered (g : FPSGuard) (snap : Snapshot) (now : Int)
    (hT : g.throttled = true) (hs : g.steps ≠ [])
    (hcool : secondsToDuration g.cfg.CooldownSeconds ≤ Sub now g.lastAction)
    (hlen : g.cfg.RequireLowSamples ≤ ((g.appended snap).fpsRing.Len : Int))
    (hlow : ((g.appended snap).lowCount : Int) < g.cfg.RequireLowSamples)
    (hf : Float64.ge snap.FPS g.cfg.ThresholdRestore = true) :
    g.Evaluate snap now =
      if secondsToDuration g.cfg.RestoreStableSeconds ≤
          Sub now (if g.restoreAt.isNone then some now else g.restoreAt) then
        some ({ (g.appended snap) with
                  throttled := false, restoreAt := none, lastAction := some now },
              some (Action.RestoreBaseline g.instanceName
                "fps_guardrail: FPS stable, restore baseline"))
      else
        some ({ (g.appended snap) with
                  restoreAt := (if g.restoreAt.isNone then some now else g.restoreAt) },
              none) := by
  rw [Evaluate_unfold g snap now _ rfl]
  unfold FPSGuard.steps at hs
  have hlen' : ¬ ((g.appended snap).fpsRing.Len : Int) < g.cfg.RequireLowSamples := by omega
  have hlow' : ¬ g.cfg.RequireLowSamples ≤ ((g.appended snap).lowCount : Int) := by omega
  have hcool' : ¬ Sub now g.lastAction < secondsToDuration g.cfg.CooldownSeconds := by omega
  simp only [appended_cfg, appended_profiles, appended_throttled, appended_instanceName,
    appended_lastAction, appended_lastStep, appended_restoreAt, hlen', hlow', hT, hf,
    if_false, if_true, Bool.and_true, decide_eq_true_eq, hcool']
  cases hl : g.profiles.lookup g.cfg.ThrottleProfile with
  | none => simp [hl] at hs
  | some p =>
    simp only [hl] at hs
    have hp0 : ¬ p.Steps.length = 0 := fun h => hs (List.length_eq_zero.mp h)
    simp only [hp0, if_false]

/-- Whatever `Evaluate` returns, the ring is the old ring with the snapshot's FPS
appended, and the configuration, the profiles and the instance name are unchanged. -/
theorem Evaluate_frame (g : FPSGuard) (snap : Snapshot) (now : Int) (g1 : FPSGuard)
    (a : Option Action) (h : g.Evaluate snap now = some (g1, a)) :
    g1.fpsRing = g.fpsRing.Append snap.FPS ∧ g1.cfg = g.cfg ∧ g1.profiles = g.profiles ∧
      g1.instanceName = g.instanceName := by
  rw [Evaluate_unfold g snap now _ rfl] at h
  split at h
  · cases h
    exact ⟨rfl, rfl, rfl, rfl⟩
  · split at h
    · cases h
      exact ⟨rfl, rfl, rfl, rfl⟩
    · split_ifs at h
      all_goals first
        | (cases h; exact ⟨rfl, rfl, rfl, rfl⟩)
        | (split at h
           · cases h
           · cases h
             exact ⟨rfl, rfl, rfl, rfl⟩)

/-- Along a run the ring holds the FPS values of the snapshots evaluated so far. -/
theorem run_Holds (evs : List (Snapshot × Int)) :
    ∀ (g : FPSGuard) (xs : List Float64) (r : FPSGuard × List (Option Action)),
      g.fpsRing.Holds xs → g.run evs = some r →
      r.1.fpsRing.Holds (xs ++ evs.map (fun e => e.1.FPS)) ∧ r.1.cfg = g.cfg ∧
        r.1.profiles = g.profiles ∧ r.1.instanceName = g.instanceName ∧
        r.1.fpsRing.maxLen = g.fpsRing.maxLen := by
  induction evs with
  | nil =>
    intro g xs r hh hr
    simp only [FPSGuard.run, Option.some.injEq] at hr
    subst hr
    simpa using hh
  | cons e rest ih =>
    obtain ⟨snap, now⟩ := e
    intro g xs r hh hr
    simp only [FPSGuard.run] at hr
    cases he : g.Evaluate snap now with
    | none => simp [he] at hr
    | some p =>
      obtain ⟨g1, a⟩ := p
      simp only [he] at hr
      cases hrest : g1.run rest with
      | none => simp [hrest] at hr
      | some r2 =>
        simp only [hrest, Option.some.injEq] at hr
        subst hr
        obtain ⟨f1, f2, f3, f4⟩ := Evaluate_frame g snap now g1 a he
        have hh1 : g1.fpsRing.Holds (xs ++ [snap.FPS]) := by
          rw [f1]
          exact Ring.Append_Holds hh _
        obtain ⟨i1, i2, i3, i4, i5⟩ := ih g1 _ r2 hh1 hrest
        refine ⟨?_, by rw [i2, f2], by rw [i3, f3], by rw [i4, f4], ?_⟩
        · simpa using i1
        · rw [i5, f1]
          rfl

theorem lowCount_of_Holds (g : FPSGuard) (xs : List Float64) (h : g.fpsRing.Holds xs) :
    g.lowCount = (window g.fpsRing.maxLen xs).countP (isLow g.cfg) := by
  unfold FPSGuard.lowCount lowCountOf
  rw [h.CopyOut_eq _ (by simp)]
  simp only []
  have hl : g.fpsRing.Len = (window g.fpsRing.maxLen xs).length := by
    rw [h.Len_eq, window_length]
  rw [hl, List.take_length]
  rfl

/-! ## Theorems: FPS guardrail -/

/-- C4. While the guard is in state Normal and its throttle profile has at least one
step, `Evaluate` emits an action exactly when, the snapshot appended, the ring holds at
least `require_low_samples` samples and at least that many of them are low
(`0 <= x < threshold_low`); the action is `SetGamePref(steps[0])` and the guard becomes
Throttled(0), its last-action and low-since instants set to now; otherwise only the ring
changes.  When the guard is the state a newly constructed guard has reached through
the snapshots `evs`, the ring then holds the last `min(n + 1, window)` FPS values and the
low count is the number of low values among them.  In the scenario (threshold_low 25, require 3, window 60), whatever the clock
readings, five snapshots with fps 50 and two with fps 20 emit nothing and the third
with fps 20 emits `SetGamePref("MaxSpawnedZombies", "30")`. -/
theorem C4_normal_throttle (g : FPSGuard) (snap : Snapshot) (now : Int)
    (hN : g.throttled = false) (hp : g.steps ≠ []) :
    (∃ g1 a, g.Evaluate snap now = some (g1, a) ∧
      (a ≠ none ↔ (g.cfg.RequireLowSamples ≤ ((g.appended snap).fpsRing.Len : Int) ∧
                    g.cfg.RequireLowSamples ≤ ((g.appended snap).lowCount : Int))) ∧
      (a ≠ none → ∃ st, g.steps.head? = some st ∧
          a = some (Action.SetGamePref g.instanceName "fps_guardrail: FPS below threshold"
                st.Pref st.Value) ∧
          g1.throttled = true ∧ g1.lastStep = 0 ∧ g1.lastAction = some now ∧
          g1.lowSince = some now ∧ g1.fpsRing = (g.appended snap).fpsRing) ∧
      (a = none → g1 = g.appended snap)) ∧
    (∀ (name : String) (cfg : FPSGuardPolicy) (profiles : ProfileMap)
        (evs : List (Snapshot × Int)) (acts : List (Option Action)),
      (NewFPSGuard name cfg profiles).run evs = some (g, acts) →
      (g.fpsRing.maxLen : Int) =
        (if cfg.SampleWindowSamples ≤ 0 then 60 else cfg.SampleWindowSamples) ∧
      (g.appended snap).fpsRing.Len = min (evs.length + 1) g.fpsRing.maxLen ∧
      (g.appended snap).lowCount =
        (window g.fpsRing.maxLen (evs.map (fun e => e.1.FPS) ++ [snap.FPS])).countP
          (fun x => Float64.lt x g.cfg.ThresholdLow && Float64.ge x Float64.zero)) ∧
    (∀ t1 t2 t3 t4 t5 t6 t7 t8 : Int, ∃ g2,
      (NewFPSGuard "test" scenarioCfg scenarioProfiles).run
        [(snapFPS (Float64.ofInt 50), t1), (snapFPS (Float64.ofInt 50), t2),
         (snapFPS (Float64.ofInt 50), t3), (snapFPS (Float64.ofInt 50), t4),
         (snapFPS (Float64.ofInt 50), t5), (snapFPS (Float64.ofInt 20), t6),
         (snapFPS (Float64.ofInt 20), t7), (snapFPS (Float64.ofInt 20), t8)] =
        some (g2, [none, none, none, none, none, none, none,
          some (Action.SetGamePref "test" "fps_guardrail: FPS below threshold"
            "MaxSpawnedZombies" "30")]) ∧
      g2.throttled = true ∧ g2.lastStep = 0) := by
  refine ⟨?_, ?_⟩
  · obtain ⟨st, rest, hs⟩ := List.exists_cons_of_ne_nil hp
    rw [Evaluate_normal g snap now hN st rest hs]
    by_cases hc : g.cfg.RequireLowSamples ≤ ((g.appended snap).fpsRing.Len : Int) ∧
        g.cfg.RequireLowSamples ≤ ((g.appended snap).lowCount : Int)
    · rw [if_pos hc]
      refine ⟨_, _, rfl, ?_, ?_, ?_⟩
      · simp [hc]
      · intro _
        exact ⟨st, by simp [hs], rfl, rfl, rfl, rfl, rfl, rfl⟩
      · intro h
        cases h
    · rw [if_neg hc]
      refine ⟨_, _, rfl, ?_, ?_, ?_⟩
      · simp [hc]
      · intro h
        exact absurd rfl h
      · intro _
        rfl
  constructor
  · intro name cfg profiles evs acts hrun
    obtain ⟨hh, _, _, _, hml⟩ := run_Holds evs _ [] _ (NewRing_Holds Float64.zero _) hrun
    simp only [List.nil_append] at hh
    have hh1 : (g.appended snap).fpsRing.Holds (evs.map (fun e => e.1.FPS) ++ [snap.FPS]) :=
      Ring.Append_Holds hh _
    have hml1 : (g.appended snap).fpsRing.maxLen = g.fpsRing.maxLen := rfl
    refine ⟨?_, ?_, ?_⟩
    · simp only [] at hml
      rw [hml]
      unfold NewFPSGuard NewRing
      by_cases h1 : cfg.SampleWindowSamples ≤ 0 <;> by_cases h2 : cfg.RequireLowSamples ≤ 0 <;>
        simp [h1, h2] <;> omega
    · rw [hh1.Len_eq, hml1]
      simp
    · rw [lowCount_of_Holds _ _ hh1, hml1]
      rfl
  · intro t1 t2 t3 t4 t5 t6 t7 t8
    have e1 := Evaluate_normal_quiet (feed (NewFPSGuard "test" scenarioCfg scenarioProfiles) [])
      (snapFPS (Float64.ofInt 50)) t1 rfl (by decide)
    have e2 := Evaluate_normal_quiet (feed (NewFPSGuard "test" scenarioCfg scenarioProfiles) [50])
      (snapFPS (Float64.ofInt 50)) t2 rfl (by decide)
    have e3 := Evaluate_normal_quiet
      (feed (NewFPSGuard "test" scenarioCfg scenarioProfiles) [50, 50])
      (snapFPS (Float64.ofInt 50)) t3 rfl (by decide)
    have e4 := Evaluate_normal_quiet
      (feed (NewFPSGuard "test" scenarioCfg scenarioProfiles) [50, 50, 50])
      (snapFPS (Float64.ofInt 50)) t4 rfl (by decide)
    have e5 := Evaluate_normal_quiet
      (feed (NewFPSGuard "test" scenarioCfg scenarioProfiles) [50, 50, 50, 50])
      (snapFPS (Float64.ofInt 50)) t5 rfl (by decide)
    have e6 := Evaluate_normal_quiet
      (feed (NewFPSGuard "test" scenarioCfg scenarioProfiles) [50, 50, 50, 50, 50])
      (snapFPS (Float64.ofInt 20)) t6 rfl (by decide)
    have e7 := Evaluate_normal_quiet
      (feed (NewFPSGuard "test" scenarioCfg scenarioProfiles) [50, 50, 50, 50, 50, 20])
      (snapFPS (Float64.ofInt 20)) t7 rfl (by decide)
    have e8 := Evaluate_normal
      (feed (NewFPSGuard "test" scenarioCfg scenarioProfiles) [50, 50, 50, 50, 50, 20, 20])
      (snapFPS (Float64.ofInt 20)) t8 rfl ⟨"MaxSpawnedZombies", "30"⟩
      [⟨"MaxSpawnedZombies", "20"⟩] rfl
    rw [if_pos (by decide)] at e8
    simp only [feed, List.foldl_cons, List.foldl_nil] at e1 e2 e3 e4 e5 e6 e7 e8
    simp only [FPSGuard.run, e1, e2, e3, e4, e5, e6, e7, e8]
    exact ⟨_, rfl, rfl, rfl⟩

/-- C4 at the third low snapshot of the scenario: the guard is Normal, its profile has
steps, and the action is the first step. -/
theorem C4_normal_throttle_witness :
    ∃ g1, (feed (NewFPSGuard "test" scenarioCfg scenarioProfiles)
        [50, 50, 50, 50, 50, 20, 20]).Evaluate (snapFPS (Float64.ofInt 20)) 8 =
      some (g1, some (Action.SetGamePref "test" "fps_guardrail: FPS below threshold"
        "MaxSpawnedZombies" "30")) ∧ g1.throttled = true := by
  obtain ⟨⟨g1, a, he, hiff, hact, _⟩, _, _⟩ := C4_normal_throttle
    (feed (NewFPSGuard "test" scenarioCfg scenarioProfiles) [50, 50, 50, 50, 50, 20, 20])
    (snapFPS (Float64.ofInt 20)) 8 (by decide) (by decide)
  have ha : a ≠ none := hiff.mpr (by decide)
  obtain ⟨st, hst, hast, ht, _⟩ := hact ha
  have : st = ⟨"MaxSpawnedZombies", "30"⟩ := by
    have h2 : (feed (NewFPSGuard "test" scenarioCfg scenarioProfiles)
        [50, 50, 50, 50, 50, 20, 20]).steps.head? = some ⟨"MaxSpawnedZombies", "30"⟩ := by decide
    rw [h2] at hst
    exact (Option.some.inj hst).symm
  subst this
  exact ⟨g1, by rw [he, hast]; rfl, ht⟩

/-- The step of a throttled guard.  In state Throttled(k), on a snapshot after which the
window's low count is at least `require_low_samples`, `Evaluate` emits
`SetGamePref(steps[k+1])` and moves to Throttled(k+1) if and only if `k + 1 < len(steps)`
and `now.Sub(last_action)` is at least the cooldown as `Evaluate` converts it to a
duration; otherwise it emits nothing and stays at step k.  Consequently, over any run
of calls from Throttled(k), the first action emitted is the step `k + 1` or
`RestoreBaseline`, never the step `k` again. -/
theorem throttled_step_rule (g : FPSGuard) (snap : Snapshot) (now : Int)
    (hT : g.throttled = true) (hk : 0 ≤ g.lastStep)
    (hlow : g.cfg.RequireLowSamples ≤ ((g.appended snap).lowCount : Int)) :
    (∃ g1 a, g.Evaluate snap now = some (g1, a) ∧
      (a ≠ none ↔ (g.lastStep + 1 < (g.steps.length : Int) ∧
                    secondsToDuration g.cfg.CooldownSeconds ≤ Sub now g.lastAction)) ∧
      (a ≠ none → ∃ st, stepAt g.steps (g.lastStep + 1) = some st ∧
          a = some (Action.SetGamePref g.instanceName "fps_guardrail: stepping throttle"
                st.Pref st.Value) ∧
          g1.throttled = true ∧ g1.lastStep = g.lastStep + 1 ∧ g1.lastAction = some now) ∧
      (a = none → g1.throttled = true ∧ g1.lastStep = g.lastStep ∧
          g1.lastAction = g.lastAction)) ∧
    (∀ evs : List (Snapshot × Int), ∃ g2 acts, g.run evs = some (g2, acts) ∧
      ∀ (i : Nat) (a : Action), acts[i]? = some (some a) →
        (∀ j, j < i → acts[j]? = some none) →
        ((∃ st, stepAt g.steps (g.lastStep + 1) = some st ∧
            a = Action.SetGamePref g.instanceName "fps_guardrail: stepping throttle"
                  st.Pref st.Value) ∨
         a = Action.RestoreBaseline g.instanceName
                "fps_guardrail: FPS stable, restore baseline")) := by
  refine ⟨?_, fun evs => run_throttled_first_action evs g hT hk⟩
  rw [Evaluate_throttled_low g snap now hT hk hlow]
  by_cases hc : g.lastStep + 1 < (g.steps.length : Int) ∧
      secondsToDuration g.cfg.CooldownSeconds ≤ Sub now g.lastAction
  · rw [if_pos hc]
    have hlt : (g.lastStep + 1).toNat < g.steps.length := by omega
    have hst : stepAt g.steps (g.lastStep + 1) = some (g.steps[(g.lastStep + 1).toNat]) := by
      have hn : ¬ g.lastStep + 1 < 0 := by omega
      simp only [stepAt, hn, if_false]
      exact List.getElem?_eq_getElem hlt
    rw [hst]
    refine ⟨_, _, rfl, ?_, ?_, ?_⟩
    · simp [hc]
    · intro _
      exact ⟨_, rfl, rfl, hT, rfl, rfl⟩
    · intro h
      cases h
  · rw [if_neg hc]
    refine ⟨_, _, rfl, ?_, ?_, ?_⟩
    · simp [hc]
    · intro h
      exact absurd rfl h
    · intro _
      exact ⟨hT, rfl, rfl⟩

theorem scenarioThrottled_reached :
    ((NewFPSGuard "test" scenarioCfg scenarioProfiles).run
      [(snapFPS (Float64.ofInt 50), 1), (snapFPS (Float64.ofInt 50), 2),
       (snapFPS (Float64.ofInt 50), 3), (snapFPS (Float64.ofInt 50), 4),
       (snapFPS (Float64.ofInt 50), 5), (snapFPS (Float64.ofInt 20), 6),
       (snapFPS (Float64.ofInt 20), 7), (snapFPS (Float64.ofInt 20), 8)]).map Prod.fst =
      some scenarioThrottled := by
  decide

/-- C6, as stated, fails.  In the scenario (five fps 50 and four fps 20 in the
60-sample window, guard Throttled, threshold_restore 40, restore_stable_seconds 0.1)
the second of two fps 45 snapshots 150 ms apart emits no action at all: the window
still holds four low samples, so `Evaluate` takes the low-count branch and never
reaches the restore.  This is so with the one-step profile of the replay test and with
the two-step profile of the throttle scenario. -/
theorem C6_counterexample :
    ((NewFPSGuard "test" replayCfg replayProfiles).run restoreScenario).map Prod.snd =
      some [none, none, none, none, none, none, none,
        some (Action.SetGamePref "test" "fps_guardrail: FPS below threshold" "X" "1"),
        none, none, none] ∧
    ((NewFPSGuard "test" replayCfg scenarioProfiles).run restoreScenario).map Prod.snd =
      some [none, none, none, none, none, none, none,
        some (Action.SetGamePref "test" "fps_guardrail: FPS below threshold"
          "MaxSpawnedZombies" "30"),
        some (Action.SetGamePref "test" "fps_guardrail: stepping throttle"
          "MaxSpawnedZombies" "20"),
        none, none] := by
  decide

/-- C6, amended.  Restore after stable recovery, once the window has recovered: when the
guard is Throttled with the restore timer unset and the cooldown elapsed, and two
snapshots with fps at or above `threshold_restore` are evaluated at `t1` and at
`t2 >= t1 + restore_stable_seconds` (a positive duration), the window's low count
being below `require_low_samples` at both, then the first emits nothing and starts the
timer at `t1`, and the second emits `RestoreBaseline` and returns the guard to Normal. -/
theorem C6_restore_after_window_recovers (g : FPSGuard) (s1 s2 : Snapshot) (t1 t2 : Int)
    (hT : g.throttled = true) (hs : g.steps ≠ []) (hR : g.restoreAt = none)
    (hcool : secondsToDuration g.cfg.CooldownSeconds ≤ Sub t1 g.lastAction)
    (hlen1 : g.cfg.RequireLowSamples ≤ ((g.appended s1).fpsRing.Len : Int))
    (hlen2 : g.cfg.RequireLowSamples ≤ (((g.appended s1).appended s2).fpsRing.Len : Int))
    (hlow1 : ((g.appended s1).lowCount : Int) < g.cfg.RequireLowSamples)
    (hlow2 : (((g.appended s1).appended s2).lowCount : Int) < g.cfg.RequireLowSamples)
    (hf1 : Float64.ge s1.FPS g.cfg.ThresholdRestore = true)
    (hf2 : Float64.ge s2.FPS g.cfg.ThresholdRestore = true)
    (hpos : 0 < secondsToDuration g.cfg.RestoreStableSeconds)
    (hgap : secondsToDuration g.cfg.RestoreStableSeconds ≤ t2 - t1)
    (hrange : t2 - t1 ≤ maxDuration) :
    ∃ g1 g2, g.Evaluate s1 t1 = some (g1, none) ∧ g1.restoreAt = some t1 ∧
      g1.throttled = true ∧
      g1.Evaluate s2 t2 =
        some (g2, some (Action.RestoreBaseline g.instanceName
          "fps_guardrail: FPS stable, restore baseline")) ∧
      g2.throttled = false ∧ g2.restoreAt = none ∧ g2.lastAction = some t2 := by
  have ht : t1 ≤ t2 := by omega
  have e1 := Evaluate_throttled_recovered g s1 t1 hT hs hcool hlen1 hlow1 hf1
  have hno : ¬ secondsToDuration g.cfg.RestoreStableSeconds ≤ Sub t1 (some t1) := by
    rw [Sub_self]
    omega
  simp only [hR, Option.isNone_none, if_true] at e1
  rw [if_neg hno] at e1
  have e2 := Evaluate_throttled_recovered
    { (g.appended s1) with restoreAt := some t1 } s2 t2 hT hs
    (le_trans hcool (Sub_mono ht _)) hlen2 hlow2 hf2
  have hyes : secondsToDuration g.cfg.RestoreStableSeconds ≤ Sub t2 (some t1) := by
    rw [Sub_some ht hrange]
    exact hgap
  simp only [Option.isNone_some, Bool.false_eq_true, if_false] at e2
  rw [if_pos (show secondsToDuration (g.appended s1).cfg.RestoreStableSeconds ≤
    Sub t2 (some t1) from hyes)] at e2
  exact ⟨_, _, e1, rfl, hT, e2, rfl, rfl, rfl⟩

set_option maxRecDepth 100000 in
theorem recoveredGuard_reached :
    ((NewFPSGuard "test" replayCfg replayProfiles).run recoveryPrefix).map Prod.fst =
      some recoveredGuard := by
  decide

set_option maxRecDepth 100000 in
/-- C6, amended, at the replay test once its window has recovered: 66 snapshots in
(`recoveredGuard_reached`), fps 45 at second 70 displaces the third-youngest fps 20
sample, leaves two low samples in the window and starts the timer; fps 45 again 150 ms
later emits `RestoreBaseline`.  Restore_stable_seconds 0.1 is 100 ms. -/
theorem C6_restore_after_window_recovers_witness :
    (∃ g1 g2, recoveredGuard.Evaluate (snapFPS (Float64.ofInt 45)) (70 * second) =
        some (g1, none) ∧ g1.restoreAt = some (70 * second) ∧ g1.throttled = true ∧
      g1.Evaluate (snapFPS (Float64.ofInt 45)) (70 * second + 150 * millisecond) =
        some (g2, some (Action.RestoreBaseline "test"
          "fps_guardrail: FPS stable, restore baseline")) ∧
      g2.throttled = false ∧ g2.restoreAt = none ∧
      g2.lastAction = some (70 * second + 150 * millisecond)) ∧
    secondsToDuration recoveredGuard.cfg.RestoreStableSeconds = 100 * millisecond :=
  ⟨C6_restore_after_window_recovers recoveredGuard (snapFPS (Float64.ofInt 45))
    (snapFPS (Float64.ofInt 45)) (70 * second) (70 * second + 150 * millisecond)
    (by decide) (by decide) (by decide) (by decide) (by decide) (by decide) (by decide)
    (by decide) (by decide) (by decide) (by decide) (by decide) (by decide), by decide⟩

/-- C7.  The claim says every dip clears the restore timer.  On `dipCfg` (window 3,
2 low samples required, threshold_restore 40, restore_stable_seconds 0.1) the timer
is started at second 5; the snapshot of second 6 has fps 20, below `threshold_restore`,
but it brings the low count back to 2, so `Evaluate` returns from the low-count branch
and leaves `restore_at` at second 5; one millisecond later a single recovered snapshot
emits `RestoreBaseline`, although a snapshot below `threshold_restore` was evaluated
since the timer started. -/
theorem C7_dip_leaves_restore_timer :
    ((NewFPSGuard "test" dipCfg replayProfiles).run dipScenario).map Prod.snd =
      some [none,
        some (Action.SetGamePref "test" "fps_guardrail: FPS below threshold" "X" "1"),
        none, none, none, none,
        some (Action.RestoreBaseline "test" "fps_guardrail: FPS stable, restore baseline")] ∧
    ((NewFPSGuard "test" dipCfg replayProfiles).run (dipScenario.take 5)).map
      (fun r => r.1.restoreAt) = some (some (5 * second)) ∧
    ((NewFPSGuard "test" dipCfg replayProfiles).run (dipScenario.take 6)).map
      (fun r => (r.1.restoreAt, r.1.throttled)) = some (some (5 * second), true) ∧
    Float64.lt (Float64.ofInt 20) dipCfg.ThresholdRestore = true := by
  decide

/-- C8. No spurious action: from a newly constructed FPS guard, on every finite
sequence of snapshots whose fps values are all above `threshold_low` (whatever the
clock readings), every `Evaluate` call returns no action and the guard stays Normal. -/
theorem C8_no_spurious_action (name : String) (cfg : FPSGuardPolicy) (profiles : ProfileMap)
    (evs : List (Snapshot × Int))
    (h : ∀ e ∈ evs, Float64.lt cfg.ThresholdLow e.1.FPS = true) :
    ∃ g2, (NewFPSGuard name cfg profiles).run evs = some (g2, evs.map (fun _ => none)) ∧
      g2.throttled = false := by
  apply run_quiet evs _ rfl (NewRing_WF _ _) (NewRing_AllHeld _ _ _)
    (NewFPSGuard_RequireLowSamples_pos name cfg profiles)
  intro e he
  apply isLow_of_above
  rw [NewFPSGuard_ThresholdLow]
  exact h e he

/-- C8 on the scenario's configuration: four snapshots above the threshold of 25. -/
theorem C8_no_spurious_action_witness :
    ∃ g2, (NewFPSGuard "test" scenarioCfg scenarioProfiles).run
        [(snapFPS (Float64.ofInt 50), 1), (snapFPS (Float64.ofInt 26), 2),
         (snapFPS (Float64.ofInt 50), 3), (snapFPS (Float64.ofInt 30), 4)] =
      some (g2, [none, none, none, none]) ∧ g2.throttled = false :=
  C8_no_spurious_action "test" scenarioCfg scenarioProfiles
    [(snapFPS (Float64.ofInt 50), 1), (snapFPS (Float64.ofInt 26), 2),
     (snapFPS (Float64.ofInt 50), 3), (snapFPS (Float64.ofInt 30), 4)] (by decide)

/-- The engine honours the flag: when the instance's FPS-guard configuration is absent
or has `enabled = false`, `NewEngine` creates no guard, and `Engine.Evaluate` returns
no action for every sequence of snapshots and every set of throttle profiles. -/
theorem NewEngine_disabled_inert (name : String) (inst : Instance)
    (evs : List (Snapshot × Int))
    (h : ∀ fg, inst.Policy.FPSGuard = some fg → fg.Enabled = false) :
    (NewEngine name inst).fpsGuard = none ∧
    ∃ e2, (NewEngine name inst).run evs = some (e2, evs.map (fun _ => [])) := by
  have hnone : (NewEngine name inst).fpsGuard = none := by
    unfold NewEngine
    cases hfg : inst.Policy.FPSGuard with
    | none => rfl
    | some fg => simp [h fg hfg]
  refine ⟨hnone, ?_⟩
  generalize NewEngine name inst = e at hnone
  induction evs with
  | nil => exact ⟨e, rfl⟩
  | cons ev rest ih =>
    obtain ⟨snap, now⟩ := ev
    obtain ⟨e2, hr⟩ := ih
    have he : e.Evaluate snap now = some (e, []) := by
      unfold Engine.Evaluate
      rw [hnone]
    exact ⟨e2, by simp only [Engine.run, he, hr, List.map_cons]⟩

/-- The method `Evaluate` never reads `Enabled`: with the flag set either way it takes
the same branch and returns the same action. -/
theorem Evaluate_withEnabled (g : FPSGuard) (snap : Snapshot) (now : Int) (b : Bool) :
    (g.withEnabled b).Evaluate snap now =
      (g.Evaluate snap now).map (fun r => (r.1.withEnabled b, r.2)) := by
  rw [Evaluate_unfold g snap now _ rfl, Evaluate_unfold (g.withEnabled b) snap now _ rfl]
  have e1 : (g.withEnabled b).appended snap = (g.appended snap).withEnabled b := rfl
  rw [e1]
  generalize g.appended snap = h
  have e2 : (h.withEnabled b).lowCount = h.lowCount := rfl
  rw [e2]
  simp only [FPSGuard.withEnabled]
  repeat' (first | rfl | split)

theorem run_withEnabled (evs : List (Snapshot × Int)) (b : Bool) :
    ∀ g : FPSGuard, (g.withEnabled b).run evs =
      (g.run evs).map (fun r => (r.1.withEnabled b, r.2)) := by
  induction evs with
  | nil => intro g; rfl
  | cons ev rest ih =>
    intro g
    obtain ⟨snap, now⟩ := ev
    simp only [FPSGuard.run]
    rw [Evaluate_withEnabled]
    cases he : g.Evaluate snap now with
    | none => rfl
    | some p =>
      obtain ⟨g1, a⟩ := p
      simp only [Option.map_some']
      rw [ih g1]
      cases hr : g1.run rest with
      | none => rfl
      | some r => rfl

theorem NewFPSGuard_withEnabled (name : String) (cfg : FPSGuardPolicy) (profiles : ProfileMap)
    (b : Bool) :
    NewFPSGuard name { cfg with Enabled := b } profiles =
      (NewFPSGuard name cfg profiles).withEnabled b := by
  unfold NewFPSGuard FPSGuard.withEnabled
  simp only
  split_ifs <;> rfl

/-- Claim C9, the divergence.  The test `TestFPSGuard_NoActionWhenDisabled` builds a guard
directly with `Enabled: false` and expects that it "should not emit".  A guard built so
on the scenario's configuration and profile emits the first throttle step on the third
snapshot with fps 10.  `FPSGuard.Evaluate` never reads the flag: for every
configuration, profile map and sequence of snapshots the guard returns the same actions
whichever way the flag is set.  The test passes only because it feeds a single snapshot
and no profile, on which the guard returns no action with the flag set either way.  The
flag is honoured by the engine alone: when the configuration of the guard is absent or
disabled, `NewEngine` creates no guard and `Engine.Evaluate` returns no action. -/
theorem C9_disabled_guard_emits :
    ((NewFPSGuard "test" { scenarioCfg with Enabled := false } scenarioProfiles).run
        [(snapFPS (Float64.ofInt 10), 1), (snapFPS (Float64.ofInt 10), 2),
         (snapFPS (Float64.ofInt 10), 3)]).map Prod.snd =
      some [none, none,
        some (Action.SetGamePref "test" "fps_guardrail: FPS below threshold"
          "MaxSpawnedZombies" "30")] ∧
    (∀ (name : String) (cfg : FPSGuardPolicy) (profiles : ProfileMap)
      (evs : List (Snapshot × Int)) (b : Bool),
      ((NewFPSGuard name { cfg with Enabled := b } profiles).run evs).map Prod.snd =
        ((NewFPSGuard name cfg profiles).run evs).map Prod.snd) ∧
    (∀ (now : Int) (b : Bool),
      ((NewFPSGuard "test" { disabledTestCfg with Enabled := b } []).Evaluate
        (snapFPS (Float64.ofInt 10)) now).map Prod.snd = some none) ∧
    (∀ (name : String) (inst : Instance) (evs : List (Snapshot × Int)),
      (∀ fg, inst.Policy.FPSGuard = some fg → fg.Enabled = false) →
      (NewEngine name inst).fpsGuard = none ∧
      ∃ e2, (NewEngine name inst).run evs = some (e2, evs.map (fun _ => []))) := by
  refine ⟨by decide, ?_, ?_, fun name inst evs h => NewEngine_disabled_inert name inst evs h⟩
  · intro name cfg profiles evs b
    rw [NewFPSGuard_withEnabled, run_withEnabled]
    cases (NewFPSGuard name cfg profiles).run evs <;> rfl
  · intro now b
    cases b
    · rw [Evaluate_few _ _ now (by decide)]
      rfl
    · rw [Evaluate_few _ _ now (by decide)]
      rfl

/-- The run of a guard without usable profile: nothing is emitted and only the ring moves. -/
theorem run_noSteps (evs : List (Snapshot × Int)) :
    ∀ (g : FPSGuard), g.steps = [] →
      ∃ g2, g.run evs = some (g2, evs.map (fun _ => none)) ∧
        g2.throttled = g.throttled ∧ g2.lastStep = g.lastStep ∧
        g2.lastAction = g.lastAction ∧ g2.restoreAt = g.restoreAt ∧
        g2.lowSince = g.lowSince := by
  induction evs with
  | nil =>
    intro g _
    exact ⟨g, rfl, rfl, rfl, rfl, rfl, rfl⟩
  | cons e rest ih =>
    obtain ⟨snap, now⟩ := e
    intro g hs
    have he := Evaluate_noSteps g snap now hs
    obtain ⟨g2, hr, h1, h2, h3, h4, h5⟩ := ih (g.appended snap) hs
    exact ⟨g2, by simp only [FPSGuard.run, he, hr, List.map_cons], h1, h2, h3, h4, h5⟩

/-- C10. If the configured throttle profile is not in the profile map, or has no steps,
every `Evaluate` call of every sequence returns no action, from any state of the guard,
and the throttled flag, the step index, the last-action, restore and low-since
instants keep their values. -/
theorem C10_missing_profile_inert (g : FPSGuard) (evs : List (Snapshot × Int))
    (h : g.profiles.lookup g.cfg.ThrottleProfile = none ∨
         ∃ p, g.profiles.lookup g.cfg.ThrottleProfile = some p ∧ p.Steps.length = 0) :
    ∃ g2, g.run evs = some (g2, evs.map (fun _ => none)) ∧
      g2.throttled = g.throttled ∧ g2.lastStep = g.lastStep ∧
      g2.lastAction = g.lastAction ∧ g2.restoreAt = g.restoreAt ∧
      g2.lowSince = g.lowSince := by
  apply run_noSteps
  unfold FPSGuard.steps
  rcases h with h | ⟨p, h, hp⟩
  · simp [h]
  · simp [h, List.length_eq_zero.mp hp]

/-- C10 on the test `TestFPSGuard_NoActionWhenNoProfile`: the profile `missing` is not
in the empty map, and five snapshots with fps 10 emit nothing. -/
theorem C10_missing_profile_inert_witness :
    ∃ g2, (NewFPSGuard "test"
        { scenarioCfg with SampleWindowSamples := 10, ThrottleProfile := "missing" } []).run
        [(snapFPS (Float64.ofInt 10), 1), (snapFPS (Float64.ofInt 10), 2),
         (snapFPS (Float64.ofInt 10), 3), (snapFPS (Float64.ofInt 10), 4),
         (snapFPS (Float64.ofInt 10), 5)] =
      some (g2, [none, none, none, none, none]) ∧ g2.throttled = false := by
  obtain ⟨g2, hr, ht, _⟩ := C10_missing_profile_inert
    (NewFPSGuard "test"
      { scenarioCfg with SampleWindowSamples := 10, ThrottleProfile := "missing" } [])
    [(snapFPS (Float64.ofInt 10), 1), (snapFPS (Float64.ofInt 10), 2),
     (snapFPS (Float64.ofInt 10), 3), (snapFPS (Float64.ofInt 10), 4),
     (snapFPS (Float64.ofInt 10), 5)] (Or.inl (by decide))
  exact ⟨g2, hr, ht⟩

/-! ## Theorems: ring buffer -/

theorem Ring.Holds.slot_eq {α : Type} {r : Ring α} {xs : List α} (h : r.Holds xs)
    (p : Nat) (hp : p < r.Len) :
    r.slice[((if r.full then r.head else 0) + p) % r.maxLen]? = (window r.maxLen xs)[p]? := by
  have hlen := h.Len_eq
  obtain ⟨⟨h1, h2, h3⟩, hhead, hfull, hslots⟩ := h
  unfold window
  rw [List.getElem?_drop]
  by_cases hf : r.full = true
  · have hle := hfull.mp hf
    have hL : r.Len = r.maxLen := by omega
    simp only [hf, if_true]
    have hj := hslots (xs.length - r.maxLen + p) (by omega) (by omega)
    rw [← hj, hhead]
    congr 1
    have e1 : xs.length - r.maxLen + p + r.maxLen = xs.length + p := by omega
    calc (xs.length % r.maxLen + p) % r.maxLen
        = (xs.length + p) % r.maxLen := Nat.mod_add_mod _ _ _
      _ = (xs.length - r.maxLen + p + r.maxLen) % r.maxLen := by rw [e1]
      _ = (xs.length - r.maxLen + p) % r.maxLen := Nat.add_mod_right _ _
  · have hlt : xs.length < r.maxLen := by
      by_contra hn
      exact hf (hfull.mpr (by omega))
    simp only [hf, Bool.false_eq_true, if_false, Nat.zero_add]
    have hj := hslots p (by omega) (by omega)
    rw [Nat.mod_eq_of_lt (by omega)] at hj ⊢
    rw [hj]
    congr 1
    omega

/-- What `CopyOut` does for a destination of any length: the first
`min (len dst) (Len)` slots receive the oldest held items in order, the other slots
are left as they were. -/
theorem Ring.Holds.CopyOut_any {α : Type} {r : Ring α} {xs : List α} (h : r.Holds xs)
    (dst : List α) :
    r.CopyOut dst =
      ((window r.maxLen xs).take dst.length ++ dst.drop (min dst.length r.Len),
        min dst.length r.Len) := by
  have hlen := h.Len_eq
  have hwl := window_length r.maxLen xs
  have hslot := h.slot_eq
  obtain ⟨⟨h1, h2, h3⟩, -, -, -⟩ := h
  unfold Ring.CopyOut
  have hn : (if dst.length < r.Len then dst.length else r.Len) = min dst.length r.Len := by
    split <;> omega
  simp only [hn]
  by_cases h0 : min dst.length r.Len = 0
  · rw [if_pos h0, h0]
    congr 1
    rcases Nat.eq_zero_or_pos dst.length with hd | hd
    · have hdn : dst = [] := List.length_eq_zero.mp hd
      simp [hdn]
    · have hw : window r.maxLen xs = [] := List.length_eq_zero.mp (by omega)
      simp [hw]
  · rw [if_neg h0]
    congr 1
    apply List.ext_getElem?
    intro p
    have hget := Ring.copyLoop_getElem? r (if r.full then r.head else 0)
      (min dst.length r.Len) 0 dst
      (fun j _ _ => by rw [h1]; exact Nat.mod_lt _ h2) p
    rw [hget]
    have htl : ((window r.maxLen xs).take dst.length).length = min dst.length r.Len := by
      rw [List.length_take, hwl]
      omega
    by_cases hp : p < min dst.length r.Len
    · have hc : 0 ≤ p ∧ p < 0 + min dst.length r.Len ∧ p < dst.length := by omega
      rw [if_pos hc, List.getElem?_append_left (by omega), List.getElem?_take_of_lt (by omega)]
      exact hslot p (by omega)
    · have hc : ¬ (0 ≤ p ∧ p < 0 + min dst.length r.Len ∧ p < dst.length) := by omega
      rw [if_neg hc, List.getElem?_append_right (by omega), htl, List.getElem?_drop]
      congr 1
      omega

theorem foldl_Append_Holds {α : Type} (xs : List α) :
    ∀ (r : Ring α) (ys : List α), r.Holds ys → (xs.foldl Ring.Append r).Holds (ys ++ xs) := by
  induction xs with
  | nil =>
    intro r ys h
    simpa using h
  | cons x xs ih =>
    intro r ys h
    have := ih (r.Append x) (ys ++ [x]) (Ring.Append_Holds h x)
    simpa using this

theorem foldl_Append_maxLen {α : Type} (xs : List α) :
    ∀ (r : Ring α), (xs.foldl Ring.Append r).maxLen = r.maxLen := by
  induction xs with
  | nil => intro r; rfl
  | cons x xs ih => intro r; exact (ih _).trans rfl

theorem NewRing_maxLen_pos {α : Type} (zero : α) (c : Nat) (hc : 1 ≤ c) :
    (NewRing zero (c : Int)).maxLen = c := by
  unfold NewRing
  have : ¬ ((c : Int) ≤ 0) := by omega
  simp [this]

/-- Claim C12: after `NewRing(c)` with `c >= 1` and the appends `x1, ..., xn` in order,
`CopyOut` into a destination of length at least `c` returns `k = min(n, c)`, fills the
first `k` slots with the last `k` appended items oldest first (the other slots keep
their content), and `Len()` is `k`, never above `c`. -/
theorem C12_ring_copy_out {α : Type} (zero : α) (c : Nat) (hc : 1 ≤ c) (xs dst : List α)
    (hd : c ≤ dst.length) :
    ((xs.foldl Ring.Append (NewRing zero (c : Int))).CopyOut dst =
        (xs.drop (xs.length - min xs.length c) ++ dst.drop (min xs.length c),
          min xs.length c)) ∧
      (xs.foldl Ring.Append (NewRing zero (c : Int))).Len = min xs.length c ∧
      (xs.foldl Ring.Append (NewRing zero (c : Int))).Len ≤ c := by
  have hH := foldl_Append_Holds xs (NewRing zero (c : Int)) [] (NewRing_Holds zero _)
  rw [List.nil_append] at hH
  have hm : (xs.foldl Ring.Append (NewRing zero (c : Int))).maxLen = c := by
    rw [foldl_Append_maxLen, NewRing_maxLen_pos zero c hc]
  have hL := hH.Len_eq
  rw [hm] at hL
  refine ⟨?_, hL, by omega⟩
  rw [hH.CopyOut_any dst, hm, hL]
  have e1 : min dst.length (min xs.length c) = min xs.length c := by omega
  rw [e1]
  congr 2
  unfold window
  rw [List.take_of_length_le]
  · congr 1
    omega
  · rw [List.length_drop]
    omega

/-- Claim C12 at a ring of capacity 3 after five appends, copied into four slots. -/
theorem C12_ring_copy_out_witness :
    (([1, 2, 3, 4, 5] : List Nat).foldl Ring.Append (NewRing 0 ((3 : Nat) : Int))).CopyOut
        [0, 0, 0, 0] = ([3, 4, 5, 0], 3) ∧
      (([1, 2, 3, 4, 5] : List Nat).foldl Ring.Append (NewRing 0 ((3 : Nat) : Int))).Len = 3 :=
  ⟨(C12_ring_copy_out 0 3 (by decide) [1, 2, 3, 4, 5] [0, 0, 0, 0] (by decide)).1,
    (C12_ring_copy_out 0 3 (by decide) [1, 2, 3, 4, 5] [0, 0, 0, 0] (by decide)).2.1⟩

/-! ## Theorems: cooldown -/

/-- One call of `Evaluate`: `lastAction` becomes the clock reading exactly when an action
is returned; a throttled guard has a `lastAction`; and a throttled guard returns an
action only when the cooldown has elapsed since `lastAction`. -/
theorem Evaluate_lastAction (g : FPSGuard) (snap : Snapshot) (now : Int) (g1 : FPSGuard)
    (a : Option Action) (h : g.Evaluate snap now = some (g1, a))
    (hinv : g.throttled = true → g.lastAction ≠ none) :
    (g1.lastAction = match a with
      | some _ => some now
      | none => g.lastAction) ∧
    (g1.throttled = true → g1.lastAction ≠ none) ∧
    (g.throttled = true → a ≠ none →
      secondsToDuration g.cfg.CooldownSeconds ≤ Sub now g.lastAction) ∧
    (g.throttled = false → a ≠ none →
      ∃ pref value, a = some (Action.SetGamePref g.instanceName
        "fps_guardrail: FPS below threshold" pref value)) := by
  rw [Evaluate_unfold g snap now _ rfl] at h
  simp only [appended_cfg, appended_profiles, appended_throttled, appended_lastAction,
    appended_lastStep, appended_restoreAt, appended_instanceName] at h
  split at h
  · cases h
    exact ⟨rfl, hinv, fun _ h => absurd rfl h, fun _ h => absurd rfl h⟩
  · split at h
    · cases h
      exact ⟨rfl, hinv, fun _ h => absurd rfl h, fun _ h => absurd rfl h⟩
    · split_ifs at h with h1 h2 h3 h4 h5 h6 h7 h8
      all_goals first
        | (cases h; exact ⟨rfl, hinv, fun _ h => absurd rfl h, fun _ h => absurd rfl h⟩)
        | (split at h
           · cases h
           · cases h
             refine ⟨rfl, fun _ => by simp, ?_, ?_⟩
             · intro hT _
               simp_all
             · intro hT _
               simp_all)
        | (cases h
           refine ⟨rfl, ?_, ?_, ?_⟩
           · intro hT
             simp_all
           · intro hT _
             simp_all
           · intro hT _
             simp_all)

theorem NewFPSGuard_CooldownSeconds (name : String) (cfg : FPSGuardPolicy)
    (profiles : ProfileMap) :
    (NewFPSGuard name cfg profiles).cfg.CooldownSeconds = cfg.CooldownSeconds := by
  unfold NewFPSGuard
  simp only
  split_ifs <;> rfl

/-- Along a run `lastAction` is the clock reading of the last call that returned an
action, and a throttled guard has one. -/
theorem run_lastAction (evs : List (Snapshot × Int)) :
    ∀ (g : FPSGuard) (r : FPSGuard × List (Option Action)),
      (g.throttled = true → g.lastAction ≠ none) → g.run evs = some r →
      r.1.lastAction = lastEmit evs r.2 g.lastAction ∧
        (r.1.throttled = true → r.1.lastAction ≠ none) ∧ r.1.cfg = g.cfg ∧
        r.1.instanceName = g.instanceName := by
  induction evs with
  | nil =>
    intro g r hinv hr
    simp only [FPSGuard.run, Option.some.injEq] at hr
    subst hr
    exact ⟨rfl, hinv, rfl, rfl⟩
  | cons e rest ih =>
    obtain ⟨snap, now⟩ := e
    intro g r hinv hr
    simp only [FPSGuard.run] at hr
    cases he : g.Evaluate snap now with
    | none => simp [he] at hr
    | some p =>
      obtain ⟨g1, a⟩ := p
      simp only [he] at hr
      cases hr1 : g1.run rest with
      | none => simp [hr1] at hr
      | some r1 =>
        simp only [hr1, Option.some.injEq] at hr
        subst hr
        obtain ⟨hl, hinv1, -, -⟩ := Evaluate_lastAction g snap now g1 a he hinv
        obtain ⟨hf1, hf2, hf3, hf4⟩ := Evaluate_frame g snap now g1 a he
        obtain ⟨i1, i2, i3, i4⟩ := ih g1 r1 hinv1 hr1
        refine ⟨?_, i2, i3.trans hf2, i4.trans hf4⟩
        show r1.1.lastAction = lastEmit ((snap, now) :: rest) (a :: r1.2) g.lastAction
        rw [i1, hl]
        cases a <;> rfl

theorem cooldownGuard_reached :
    (NewFPSGuard "test" cooldownCfg scenarioProfiles).run (dipScenario.take 2) =
      some (cooldownGuard, [none, some (Action.SetGamePref "test"
        "fps_guardrail: FPS below threshold" "MaxSpawnedZombies" "30")]) := by
  decide

/-- Claim C11, as stated, fails.  With cooldown 0.5 s, the guard restores the baseline at
6.001 s and one millisecond later, on a low snapshot, throttles again: two consecutive
actions 1 ms apart.  The cooldown test of `Evaluate` applies only while the guard is
throttled, and the restore has just returned it to Normal. -/
theorem C11_counterexample :
    ((NewFPSGuard "test" cooldownCfg replayProfiles).run cooldownScenario).map Prod.snd =
      some [none,
        some (Action.SetGamePref "test" "fps_guardrail: FPS below threshold" "X" "1"),
        none, none, none, none,
        some (Action.RestoreBaseline "test" "fps_guardrail: FPS stable, restore baseline"),
        some (Action.SetGamePref "test" "fps_guardrail: FPS below threshold" "X" "1")] ∧
    secondsToDuration cooldownCfg.CooldownSeconds = 500 * millisecond ∧
    (cooldownScenario.map Prod.snd).drop 6 =
      [6 * second + millisecond, 6 * second + 2 * millisecond] := by
  decide

/-! ## Theorems: applier and audit ring -/

/-- Claim C13, as stated, fails.  In the overload scenario (queue capacity 1; A is enqueued
and taken by `Run`, B is enqueued, C is enqueued) the call for C returns the error and
appends two audit events, the first of them with status `queued`: the ring then holds
`queued` for A, B and C and `dropped` for C. -/
theorem C13_counterexample :
    ((overloadApplier.Enqueue 1 (NewNoop "A" "i" "r")).1.receive.map
      (fun p => ((p.2.Enqueue 2 (NewNoop "B" "i" "r")).1.Enqueue 3 (NewNoop "C" "i" "r")))).map
      (fun r => (r.1.audit.events.map (fun e => (e.ActionID, e.Status, e.Error)), r.2)) =
    some ([("A", "queued", ""), ("B", "queued", ""), ("C", "queued", ""),
      ("C", "dropped", "queue full")], some "applier: queue full") := by
  decide

/-- Claim C13, amended.  `Enqueue` always appends a `queued` event first.  When the queue
holds fewer actions than its capacity, that is the only event: the action is added at
the end of the queue and the result is nil.  When the queue is full, the queue is
unchanged, a second event for the same action, with status `dropped` and error
`queue full`, is appended after the `queued` one, and the result is an error. -/
theorem C13_enqueue_audit (a : Applier) (evs : List AuditEvent)
    (h : a.audit.ring.Holds evs) (now : Int) (action : Issued) :
    (a.queue.length < a.queueSize →
      (a.Enqueue now action).2 = none ∧
      (a.Enqueue now action).1.queue = a.queue ++ [action] ∧
      (a.Enqueue now action).1.audit.ring.Holds (evs ++ [queuedEvent now action])) ∧
    (a.queueSize ≤ a.queue.length →
      (a.Enqueue now action).2 = some "applier: queue full" ∧
      (a.Enqueue now action).1.queue = a.queue ∧
      (a.Enqueue now action).1.audit.ring.Holds
        (evs ++ [queuedEvent now action, droppedEvent now action])) := by
  constructor
  · intro hlt
    simp only [Applier.Enqueue, hlt, if_true, true_and]
    exact Ring.Append_Holds h _
  · intro hge
    have hn : ¬ a.queue.length < a.queueSize := by omega
    simp only [Applier.Enqueue, hn, if_false, true_and]
    have h2 := Ring.Append_Holds (Ring.Append_Holds h (queuedEvent now action))
      (droppedEvent now action)
    rw [List.append_assoc] at h2
    exact h2

/-- Claim C13 at a new applier with queue capacity 1: the first `Enqueue` queues the action
and appends one event. -/
theorem C13_enqueue_audit_witness :
    (overloadApplier.Enqueue 1 (NewNoop "A" "i" "r")).2 = none ∧
    (overloadApplier.Enqueue 1 (NewNoop "A" "i" "r")).1.queue = [NewNoop "A" "i" "r"] ∧
    (overloadApplier.Enqueue 1 (NewNoop "A" "i" "r")).1.audit.ring.Holds
      [queuedEvent 1 (NewNoop "A" "i" "r")] :=
  (C13_enqueue_audit overloadApplier [] (NewRing_Holds AuditEvent.zero 8) 1
    (NewNoop "A" "i" "r")).1 (by decide)

/-- Claim C14, the divergence.  For every action, every client and every audit history,
`applyOne` appends exactly one audit event: the terminal one, with status `success`
when the dispatch returned no error and `failure` with the error text otherwise,
carrying both `sent_at` and `done_at`.  The event with status `sent` that `applyOne`
builds first is overwritten before the only `Append`; no `sent` event reaches the
ring. -/
theorem C14_applyOne_appends_one_event {σ : Type} (a : Applier)
    (send : σ → telnet.Command → σ × Option String)
    (rangeOrder : List (String × String) → List (String × String)) (s : σ)
    (sentAt doneAt : Int) (action : Issued) (evs : List AuditEvent)
    (h : a.audit.ring.Holds evs) :
    ∃ ev : AuditEvent,
      (a.applyOne send rangeOrder s sentAt doneAt action).1.audit.ring.Holds (evs ++ [ev]) ∧
      ev.ActionID = action.ActionID ∧ ev.ActionType = action.ActionType ∧
      ev.SentAt = some sentAt ∧ ev.DoneAt = some doneAt ∧ ev.Status ≠ "sent" ∧
      (((a.dispatch send rangeOrder s action.action).2 = none ∧ ev.Status = "success") ∨
        (∃ e, (a.dispatch send rangeOrder s action.action).2 = some e ∧
          ev.Status = "failure" ∧ ev.Error = e)) := by
  simp only [Applier.applyOne]
  cases hd : (a.dispatch send rangeOrder s action.action).2 with
  | none =>
    exact ⟨_, Ring.Append_Holds h _, rfl, rfl, rfl, rfl,
      show ("success" : String) ≠ "sent" by decide, Or.inl ⟨rfl, rfl⟩⟩
  | some e =>
    exact ⟨_, Ring.Append_Holds h _, rfl, rfl, rfl, rfl,
      show ("failure" : String) ≠ "sent" by decide, Or.inr ⟨e, rfl, rfl, rfl⟩⟩

/-- Claim C14 on an action enqueued at reading 1 and applied between readings 2 and 3 by
a client that succeeds: the ring holds the `queued` event and the `success` event, and
no `sent` event between them. -/
theorem C14_applyOne_appends_one_event_witness :
    ∃ ev : AuditEvent,
      ((overloadApplier.Enqueue 1 (NewNoop "A" "i" "r")).1.applyOne sendOK id () 2 3
        (NewNoop "A" "i" "r")).1.audit.ring.Holds ([queuedEvent 1 (NewNoop "A" "i" "r")] ++ [ev]) ∧
      ev.Status = "success" :=
  match C14_applyOne_appends_one_event (overloadApplier.Enqueue 1 (NewNoop "A" "i" "r")).1
    sendOK id () 2 3 (NewNoop "A" "i" "r") [queuedEvent 1 (NewNoop "A" "i" "r")]
    (Ring.Append_Holds (NewRing_Holds AuditEvent.zero 8) _) with
  | ⟨ev, hH, _, _, _, _, _, hs⟩ =>
    ⟨ev, hH, hs.elim (fun h => h.2) (fun h => h.elim (fun _ he => Option.noConfusion he.1))⟩

/-! ## Theorems: telnet client -/

/-- A call of `takeToken` that finds a whole token in the bucket does not read the
clock: its result is the same for every list of readings. -/
theorem takeToken_stored (c : telnet.Client) (clock : List Int)
    (h : Float64.lt c.tokens (Float64.ofInt 1) = false) :
    c.takeToken clock = c.takeToken [] := by
  simp [telnet.Client.takeToken, h]

/-- Claim C15, the divergence.  A client with rate limit 2 (capacity 2) is created at
clock reading 0 and left idle.  Four calls of `takeToken` then all return `true`
although the only clock reading any of them takes is 10 s; a fifth call at the same
reading finds the bucket empty.  The first two calls spend the stored tokens without
reading the clock, so `lastTick` is still 0 when the third refills the bucket for
ten idle seconds.  Four tokens within an interval of length 0 exceed the bound
`ceil(2 * 0) + 2 = 2`. -/
theorem C15_burst_after_idle (clock1 clock2 clock4 : List Int) :
    ((telnet.NewClient clientCfg 0).takeTokens
      [clock1, clock2, [10 * second], clock4, [10 * second]]).2 =
      [true, true, true, true, false] := by
  have e1 := takeToken_stored (telnet.NewClient clientCfg 0) clock1 (by decide)
  have e2 := takeToken_stored ((telnet.NewClient clientCfg 0).takeToken []).1 clock2 (by decide)
  have e4 := takeToken_stored
    (((((telnet.NewClient clientCfg 0).takeToken []).1.takeToken []).1.takeToken
      [10 * second]).1) clock4 (by decide)
  simp only [telnet.Client.takeTokens]
  rw [e1, e2, e4]
  decide

theorem refillLoop_frame (clock : List Int) :
    ∀ c : telnet.Client, (telnet.refillLoop c clock).1.cfg = c.cfg ∧
      (telnet.refillLoop c clock).1.failCount = c.failCount ∧
      (telnet.refillLoop c clock).1.breakerOpen = c.breakerOpen ∧
      (telnet.refillLoop c clock).1.connected = c.connected := by
  induction clock with
  | nil => intro c; exact ⟨rfl, rfl, rfl, rfl⟩
  | cons now rest ih =>
    intro c
    cases rest with
    | nil =>
      simp only [telnet.refillLoop]
      split_ifs <;> exact ⟨rfl, rfl, rfl, rfl⟩
    | cons n2 r2 =>
      rw [telnet.refillLoop]
      simp only []
      split_ifs <;> first
        | exact ⟨rfl, rfl, rfl, rfl⟩
        | exact ih _

theorem takeToken_frame (c : telnet.Client) (clock : List Int) :
    (c.takeToken clock).1.cfg = c.cfg ∧ (c.takeToken clock).1.failCount = c.failCount ∧
      (c.takeToken clock).1.breakerOpen = c.breakerOpen ∧
      (c.takeToken clock).1.connected = c.connected := by
  unfold telnet.Client.takeToken
  split
  · exact refillLoop_frame clock c
  · exact ⟨rfl, rfl, rfl, rfl⟩

/-- The invariant of the client: a connected client has a closed breaker and no counted
failure, the failure count is never above 1, and the breaker is closed whenever
`CircuitBreakAfter` is above 1. -/
theorem pump_inv (c : telnet.Client) (now : Int) (clock : List Int)
    (write : Option (String × Int)) (hc : c.breakerOpen = false ∧ c.failCount = 0) :
    (c.pump now clock write).2 ≠ telnet.Outcome.breakerOpen ∧
    (c.pump now clock write).1.cfg = c.cfg ∧
    (c.pump now clock write).1.failCount ≤ 1 ∧
    ((c.pump now clock write).1.connected = true →
      (c.pump now clock write).1.breakerOpen = false ∧
      (c.pump now clock write).1.failCount = 0) ∧
    (1 < c.cfg.CircuitBreakAfter → (c.pump now clock write).1.breakerOpen = false) := by
  obtain ⟨hb, hf⟩ := hc
  obtain ⟨t1, t2, t3, t4⟩ := takeToken_frame c clock
  unfold telnet.Client.pump
  simp only [hb, Bool.false_and, Bool.false_eq_true, if_false]
  cases hr : c.takeToken clock with
  | mk c2 ok =>
    rw [hr] at t1 t2 t3 t4
    simp only at t1 t2 t3 t4
    cases ok with
    | false =>
      simp only
      refine ⟨by decide, t1, by omega, fun _ => ⟨by rw [t3, hb], by rw [t2, hf]⟩, fun _ => ?_⟩
      rw [t3, hb]
    | true =>
      cases write with
      | none =>
        simp only
        refine ⟨by decide, t1, by omega, fun _ => ⟨by rw [t3, hb], by rw [t2, hf]⟩, fun _ => ?_⟩
        rw [t3, hb]
      | some w =>
        obtain ⟨err, failedAt⟩ := w
        simp only
        refine ⟨by simp, ?_, ?_, ?_, ?_⟩
        · split <;> exact t1
        · split <;> simp only <;> omega
        · intro h
          simp at h
        · intro h1
          have hn : ¬ c2.cfg.CircuitBreakAfter ≤ c2.failCount + 1 := by
            rw [t1, t2, hf]
            omega
          simp only [hn, if_false]
          rw [t3, hb]

/-- Along every sequence of events, from a state in which a connected client has a closed
breaker and no counted failure: no request is refused by the breaker, and the state
reached is again such a state, with the same configuration. -/
theorem run_inv (evs : List telnet.Event) :
    ∀ c : telnet.Client,
      (c.connected = true → c.breakerOpen = false ∧ c.failCount = 0) →
      c.failCount ≤ 1 → (1 < c.cfg.CircuitBreakAfter → c.breakerOpen = false) →
      (∀ o ∈ (c.run evs).2, o ≠ some telnet.Outcome.breakerOpen) ∧
      (c.run evs).1.cfg = c.cfg ∧ (c.run evs).1.failCount ≤ 1 ∧
      ((c.run evs).1.connected = true →
        (c.run evs).1.breakerOpen = false ∧ (c.run evs).1.failCount = 0) ∧
      (1 < c.cfg.CircuitBreakAfter → (c.run evs).1.breakerOpen = false) := by
  induction evs with
  | nil =>
    intro c h1 h2 h3
    exact ⟨fun o ho => by simp [telnet.Client.run] at ho, rfl, h2, h1, h3⟩
  | cons e rest ih =>
    intro c h1 h2 h3
    have key : (c.step e).2 ≠ some telnet.Outcome.breakerOpen ∧ (c.step e).1.cfg = c.cfg ∧
        (c.step e).1.failCount ≤ 1 ∧
        ((c.step e).1.connected = true →
          (c.step e).1.breakerOpen = false ∧ (c.step e).1.failCount = 0) ∧
        (1 < c.cfg.CircuitBreakAfter → (c.step e).1.breakerOpen = false) := by
      cases e with
      | connect ok =>
        simp only [telnet.Client.step]
        split
        · exact ⟨by simp, rfl, by simp [telnet.Client.connectOK], fun _ => ⟨rfl, rfl⟩,
            fun _ => rfl⟩
        · exact ⟨by simp, rfl, h2, h1, h3⟩
      | request now clock write =>
        simp only [telnet.Client.step]
        split
        · rename_i hcon
          obtain ⟨p1, p2, p3, p4, p5⟩ := pump_inv c now clock write (h1 hcon)
          exact ⟨by simpa using p1, p2, p3, p4, p5⟩
        · exact ⟨by simp, rfl, h2, h1, h3⟩
    obtain ⟨k1, k2, k3, k4, k5⟩ := key
    obtain ⟨i1, i2, i3, i4, i5⟩ := ih (c.step e).1 k4 k3 (by rw [k2]; exact k5)
    simp only [telnet.Client.run]
    refine ⟨?_, i2.trans k2, i3, i4, ?_⟩
    · intro o ho
      rcases List.mem_cons.mp ho with h | h
      · rw [h]
        exact k1
      · exact i1 o h
    · intro h
      exact i5 (by rw [k2]; exact h)

/-- Claim C16, the divergence.  Every failed write leaves `sendLoop`, and the successful
connect that must come before the next request is pulled sets the failure count to 0
and closes the breaker.  So, for every configuration and every sequence of connects
and requests: no request is ever refused with `circuit breaker open`, the failure
count never exceeds 1, and with `CircuitBreakAfter` above 1 (the default is 3) the
breaker never opens.  With the default configuration, three requests in a row whose
writes fail leave the breaker closed, and the request pulled one millisecond after
the third failure is written. -/
theorem C16_breaker_never_refuses (cfg : telnet.Config) (t0 : Int) (evs : List telnet.Event) :
    ((∀ o ∈ ((telnet.NewClient cfg t0).run evs).2, o ≠ some telnet.Outcome.breakerOpen) ∧
      ((telnet.NewClient cfg t0).run evs).1.failCount ≤ 1 ∧
      (1 < ((telnet.NewClient cfg t0).run evs).1.cfg.CircuitBreakAfter →
        ((telnet.NewClient cfg t0).run evs).1.breakerOpen = false)) ∧
    (telnet.NewClient clientCfg 0).cfg.CircuitBreakAfter = 3 ∧
    ((telnet.NewClient clientCfg 0).run threeFailures).2 =
      [none, some (telnet.Outcome.failed "write: broken pipe"),
       none, some (telnet.Outcome.failed "write: broken pipe"),
       none, some (telnet.Outcome.failed "write: broken pipe"),
       none, some telnet.Outcome.sent] ∧
    ((telnet.NewClient clientCfg 0).run (threeFailures.take 6)).1.breakerOpen = false := by
  refine ⟨?_, by decide, by decide, by decide⟩
  have h0 : (telnet.NewClient cfg t0).connected = false := by
    unfold telnet.NewClient
    rfl
  have h1 : (telnet.NewClient cfg t0).failCount = 0 := by
    unfold telnet.NewClient
    rfl
  have h2 : (telnet.NewClient cfg t0).breakerOpen = false := by
    unfold telnet.NewClient
    rfl
  obtain ⟨i1, i2, i3, -, i5⟩ := run_inv evs (telnet.NewClient cfg t0)
    (fun h => by rw [h0] at h; cases h) (by rw [h1]; decide) (fun _ => h2)
  exact ⟨i1, i3, fun h => i5 (by rw [← i2]; exact h)⟩

/-! ## Theorems: tailer -/

/-- The identity `inodeOf` computes, in arithmetic: the low 32 bits of the size, shifted
by 32, plus the low 32 bits of the modification time. -/
theorem inodeOf_eq (info : FileInfo) :
    inodeOf info =
      2 ^ 32 * ((info.Size % 2 ^ 64).toNat % 2 ^ 32) + (info.ModTime % 2 ^ 32).toNat := by
  unfold inodeOf
  have hb : (info.ModTime % 2 ^ 32).toNat < 2 ^ 32 := by omega
  have hs : ((info.Size % 2 ^ 64).toNat <<< 32) % 2 ^ 64 =
      2 ^ 32 * ((info.Size % 2 ^ 64).toNat % 2 ^ 32) := by
    rw [Nat.shiftLeft_eq]
    omega
  rw [hs, Nat.mul_add_lt_is_or hb]

/-- Claim C17, the divergence.  The identity that `followFile` compares has the file size
in its upper half, so it changes whenever the file grows by fewer than `2^32` bytes:
for a file opened with `info` and found grown at the `Stat` after a read, the rotation
test is true, whatever the modification times, and the round ends `followFile`,
which drops the open handle and the partial-line buffer. -/
theorem C17_growth_reads_as_rotation (t : Tailer) (info curInfo : FileInfo)
    (chunk : List Nat) (hgrow : info.Size < curInfo.Size)
    (hlt : curInfo.Size - info.Size < 2 ^ 32) :
    rotated (t.openFile info).1.origInode (t.openFile info).1.info curInfo = true ∧
    (t.followRound (t.openFile info).1 chunk curInfo).2 = none := by
  have hne : inodeOf curInfo ≠ inodeOf info := by
    rw [inodeOf_eq, inodeOf_eq]
    omega
  have hr : rotated (t.openFile info).1.origInode (t.openFile info).1.info curInfo = true := by
    simp [rotated, Tailer.openFile, hne]
  refine ⟨hr, ?_⟩
  unfold Tailer.followRound
  simp only [hr, if_true]

/-- Claim C17 on the file of the test `TestTailerPartialLineAcrossReads`: opened from
the beginning when it holds the 10 bytes `incomplete`, found 15 bytes long after the
append of `line\n` 50 ms later.  The round that reads the appended bytes emits the
line and ends `followFile`. -/
theorem C17_growth_reads_as_rotation_witness :
    rotated ((NewTailer "log.txt" ⟨20 * millisecond, 0, true⟩).openFile
        ⟨10, 1700000000000000000⟩).1.origInode
      ((NewTailer "log.txt" ⟨20 * millisecond, 0, true⟩).openFile
        ⟨10, 1700000000000000000⟩).1.info ⟨15, 1700000000050000000⟩ = true ∧
    ((NewTailer "log.txt" ⟨20 * millisecond, 0, true⟩).followRound
      ((NewTailer "log.txt" ⟨20 * millisecond, 0, true⟩).openFile
        ⟨10, 1700000000000000000⟩).1 (bytes "line\n") ⟨15, 1700000000050000000⟩).2 = none :=
  C17_growth_reads_as_rotation (NewTailer "log.txt" ⟨20 * millisecond, 0, true⟩)
    ⟨10, 1700000000000000000⟩ ⟨15, 1700000000050000000⟩ (bytes "line\n")
    (by decide) (by decide)

/-! ## Theorems: validation of the configuration -/

/-- Claim C20, the divergence.  `Validate` never writes an instance: the assignment of 2.0
goes to the loop's copy of the element.  For every configuration the instances after
the call are those before it; and for a configuration whose only instance has rate
limit 0, `Validate` returns nil and the rate limit is still 0, although the body of
the loop has set its copy to 2. -/
theorem C20_validate_keeps_rate_limit :
    (∀ c : Config, (Validate c).1.Instances = c.Instances) ∧
    (Validate ⟨[instanceWithRate Float64.zero], ⟨"", ""⟩, ⟨false, ""⟩⟩).2 = none ∧
    (Validate ⟨[instanceWithRate Float64.zero], ⟨"", ""⟩, ⟨false, ""⟩⟩).1.Instances.map
      (fun i => i.Telnet.RateLimitPerSec) = [Float64.zero] ∧
    (validateBody 0 (instanceWithRate Float64.zero)).toOption.map
      (fun i => i.Telnet.RateLimitPerSec) = some (Float64.ofInt 2) := by
  refine ⟨?_, by decide, by decide, by decide⟩
  intro c
  unfold Validate
  split
  · rfl
  · split
    · rfl
    · simp only
      split_ifs <;> rfl

/-! ## Lemmas: the line splitter -/

theorem newlineIndex_le (s : List Nat) : newlineIndex s ≤ s.length := by
  induction s with
  | nil => simp [newlineIndex]
  | cons b r ih =>
    simp only [newlineIndex]
    split
    · simp
    · simp only [List.length_cons]
      omega

theorem newlineIndex_split (s : List Nat) (h : newlineIndex s < s.length) :
    s = s.take (newlineIndex s) ++ newline :: s.drop (newlineIndex s + 1) ∧
      ∀ b ∈ s.take (newlineIndex s), b ≠ newline := by
  induction s with
  | nil => simp [newlineIndex] at h
  | cons b r ih =>
    by_cases hb : b = newline
    · simp [newlineIndex, hb]
    · simp only [newlineIndex, hb, if_false, List.length_cons] at h ⊢
      have h1 : newlineIndex r < r.length := by omega
      obtain ⟨e1, e2⟩ := ih h1
      constructor
      · simp only [List.take_succ_cons, List.drop_succ_cons, List.cons_append]
        rw [← e1]
      · intro x hx
        simp only [List.take_succ_cons, List.mem_cons] at hx
        rcases hx with hx | hx
        · rw [hx]
          exact hb
        · exact e2 x hx

theorem newlineIndex_none (s : List Nat) (h : ¬ newlineIndex s < s.length) :
    ∀ b ∈ s, b ≠ newline := by
  induction s with
  | nil => simp
  | cons b r ih =>
    by_cases hb : b = newline
    · simp [newlineIndex, hb] at h
    · simp only [newlineIndex, hb, if_false, List.length_cons] at h
      intro x hx
      rcases List.mem_cons.mp hx with hx | hx
      · rw [hx]
        exact hb
      · exact ih (by omega) x hx

theorem prependLine_prependLine (a b : List Nat) (r : List (List Nat) × List Nat) :
    prependLine a (prependLine b r) = prependLine (a ++ b) r := by
  obtain ⟨ls, t⟩ := r
  cases ls with
  | nil => simp [prependLine]
  | cons l ls => simp [prependLine]

theorem linesAux_eq (s : List Nat) : ∀ cur, linesAux s cur = prependLine cur (linesOf s) := by
  induction s with
  | nil =>
    intro cur
    simp [linesAux, linesOf, prependLine]
  | cons b r ih =>
    intro cur
    by_cases hb : b = newline
    · simp [linesAux, linesOf, prependLine, hb]
    · have e1 : linesAux (b :: r) cur = linesAux r (cur ++ [b]) := by
        simp [linesAux, hb]
      have e2 : linesOf (b :: r) = linesAux r [b] := by
        simp [linesAux, linesOf, hb]
      rw [e1, e2, ih, ih [b], prependLine_prependLine]

theorem linesOf_no_newline (pre : List Nat) (h : ∀ b ∈ pre, b ≠ newline) :
    linesOf pre = ([], pre) := by
  induction pre with
  | nil => rfl
  | cons b r ih =>
    have hb : b ≠ newline := h b (List.mem_cons_self _ _)
    have e2 : linesOf (b :: r) = linesAux r [b] := by
      simp [linesAux, linesOf, hb]
    rw [e2, linesAux_eq, ih (fun x hx => h x (List.mem_cons_of_mem _ hx))]
    rfl

theorem linesOf_prepend (pre s : List Nat) (h : ∀ b ∈ pre, b ≠ newline) :
    linesOf (pre ++ s) = prependLine pre (linesOf s) := by
  induction pre with
  | nil =>
    rw [List.nil_append]
    cases hl : (linesOf s).1 with
    | nil =>
      simp only [prependLine, hl, List.nil_append]
      rw [← hl]
    | cons l ls =>
      simp only [prependLine, hl, List.nil_append]
      rw [← hl]
  | cons b r ih =>
    have hb : b ≠ newline := h b (List.mem_cons_self _ _)
    have e2 : linesOf (b :: (r ++ s)) = linesAux (r ++ s) [b] := by
      simp [linesAux, linesOf, hb]
    rw [List.cons_append, e2, linesAux_eq, ih (fun x hx => h x (List.mem_cons_of_mem _ hx)),
      prependLine_prependLine]
    rfl

theorem linesOf_line (pre rest : List Nat) (h : ∀ b ∈ pre, b ≠ newline) :
    linesOf (pre ++ newline :: rest) = (pre :: (linesOf rest).1, (linesOf rest).2) := by
  rw [linesOf_prepend pre _ h]
  have e : linesOf (newline :: rest) = ([] :: (linesOf rest).1, (linesOf rest).2) := by
    simp [linesAux, linesOf]
  rw [e]
  simp [prependLine]

theorem linesAux_tail_no_newline (s : List Nat) :
    ∀ cur, (∀ b ∈ cur, b ≠ newline) → ∀ b ∈ (linesAux s cur).2, b ≠ newline := by
  induction s with
  | nil =>
    intro cur h
    exact h
  | cons x r ih =>
    intro cur h
    by_cases hx : x = newline
    · simp only [linesAux, hx, if_true]
      exact ih [] (by simp)
    · simp only [linesAux, hx, if_false]
      refine ih (cur ++ [x]) ?_
      intro b hb
      rcases List.mem_append.mp hb with hb | hb
      · exact h b hb
      · rw [List.mem_singleton.mp hb]
        exact hx

theorem linesOf_tail_no_newline (s : List Nat) : ∀ b ∈ (linesOf s).2, b ≠ newline :=
  linesAux_tail_no_newline s [] (by simp)

theorem linesAux_append (a b : List Nat) :
    ∀ cur, (∀ x ∈ cur, x ≠ newline) →
      linesAux (a ++ b) cur =
        ((linesAux a cur).1 ++ (linesOf ((linesAux a cur).2 ++ b)).1,
          (linesOf ((linesAux a cur).2 ++ b)).2) := by
  induction a with
  | nil =>
    intro cur h
    simp only [List.nil_append, linesAux]
    rw [linesAux_eq, linesOf_prepend cur b h]
  | cons x r ih =>
    intro cur h
    by_cases hx : x = newline
    · simp only [List.cons_append, linesAux, hx, if_true, List.append_eq]
      rw [ih [] (by simp)]
    · simp only [List.cons_append, linesAux, hx, if_false]
      refine ih (cur ++ [x]) ?_
      intro b hb
      rcases List.mem_append.mp hb with hb | hb
      · exact h b hb
      · rw [List.mem_singleton.mp hb]
        exact hx

/-- The lines of a concatenation: the lines of the first part, then those of its tail
followed by the second part. -/
theorem linesOf_append (a b : List Nat) :
    linesOf (a ++ b) =
      ((linesOf a).1 ++ (linesOf ((linesOf a).2 ++ b)).1, (linesOf ((linesOf a).2 ++ b)).2) :=
  linesAux_append a b [] (by simp)

theorem linesAux_flatten (s : List Nat) :
    ∀ cur, (linesAux s cur).1.flatten ++ (linesAux s cur).2 = cur ++ strip s := by
  induction s with
  | nil =>
    intro cur
    simp [linesAux, strip]
  | cons x r ih =>
    intro cur
    by_cases hx : x = newline
    · have := ih []
      simp only [List.nil_append] at this
      simp only [linesAux, hx, if_true, List.flatten_cons, List.append_assoc, this]
      simp [strip]
    · simp only [linesAux, hx, if_false]
      rw [ih]
      simp [strip, hx]

/-- The lines and the tail of a byte string, put together, are the string without its
newlines. -/
theorem linesOf_flatten (s : List Nat) : (linesOf s).1.flatten ++ (linesOf s).2 = strip s := by
  have := linesAux_flatten s []
  simpa using this

theorem strip_no_newline (p : List Nat) (h : ∀ b ∈ p, b ≠ newline) : strip p = p := by
  unfold strip
  rw [List.filter_eq_self]
  intro b hb
  simpa using h b hb

/-- What the loop of `readMore` computes on a buffer none of whose terminated lines is
longer than `max`: it emits the lines, then the first `max` bytes of the tail when
the tail is longer than `max`, and keeps the rest. -/
theorem splitLoop_spec (max : Nat) :
    ∀ (fuel : Nat) (buf : List Nat) (out : List (List Nat)), buf.length < fuel →
      (∀ l ∈ (linesOf buf).1, l.length ≤ max) →
      splitLoop max fuel buf out =
        if (linesOf buf).2.length > max then
          (out ++ (linesOf buf).1 ++ [(linesOf buf).2.take max], (linesOf buf).2.drop max)
        else (out ++ (linesOf buf).1, (linesOf buf).2) := by
  intro fuel
  induction fuel with
  | zero =>
    intro buf out h
    omega
  | succ fuel ih =>
    intro buf out hlen hH
    simp only [splitLoop]
    by_cases hidx : newlineIndex buf < buf.length
    · obtain ⟨e1, e2⟩ := newlineIndex_split buf hidx
      have hl := linesOf_line _ (buf.drop (newlineIndex buf + 1)) e2
      rw [← e1] at hl
      have hpre : (buf.take (newlineIndex buf)).length ≤ max := by
        apply hH
        rw [hl]
        exact List.mem_cons_self _ _
      have hrest : (buf.drop (newlineIndex buf + 1)).length < fuel := by
        rw [List.length_drop]
        omega
      have hH2 : ∀ l ∈ (linesOf (buf.drop (newlineIndex buf + 1))).1, l.length ≤ max := by
        intro l hl2
        apply hH
        rw [hl]
        exact List.mem_cons_of_mem _ hl2
      have hnot : ¬ (buf.take (newlineIndex buf)).length > max := by omega
      rw [if_pos hidx, if_neg hnot, ih _ _ hrest hH2, hl]
      simp only [List.append_assoc, List.singleton_append]
    · have hno := newlineIndex_none buf hidx
      rw [if_neg hidx, linesOf_no_newline buf hno]
      simp only [List.append_nil]

/-- Every string the loop of `readMore` emits has at most `max` bytes. -/
theorem splitLoop_lengths (max : Nat) :
    ∀ (fuel : Nat) (buf : List Nat) (out : List (List Nat)),
      (∀ l ∈ out, l.length ≤ max) → ∀ l ∈ (splitLoop max fuel buf out).1, l.length ≤ max := by
  intro fuel
  induction fuel with
  | zero =>
    intro buf out h
    exact h
  | succ fuel ih =>
    intro buf out h
    simp only [splitLoop]
    split
    · apply ih
      intro l hl
      rcases List.mem_append.mp hl with hl | hl
      · exact h l hl
      · rw [List.mem_singleton.mp hl]
        split
        · rw [List.length_take]
          omega
        · omega
    · split
      · intro l hl
        rcases List.mem_append.mp hl with hl | hl
        · exact h l hl
        · rw [List.mem_singleton.mp hl, List.length_take]
          omega
      · exact h

theorem readMore_nil (max : Nat) (p : List Nat) : readMore max p [] = ([], p) := by
  simp [readMore]

theorem readMore_spec (max : Nat) (p c : List Nat) (hc : c ≠ [])
    (hH : ∀ l ∈ (linesOf (p ++ c)).1, l.length ≤ max) :
    readMore max p c =
      if (linesOf (p ++ c)).2.length > max then
        ((linesOf (p ++ c)).1 ++ [(linesOf (p ++ c)).2.take max], (linesOf (p ++ c)).2.drop max)
      else ((linesOf (p ++ c)).1, (linesOf (p ++ c)).2) := by
  have hpos : c.length > 0 := List.length_pos.mpr hc
  unfold readMore
  rw [if_pos hpos, splitLoop_spec max _ _ [] (Nat.lt_succ_self _) hH]
  simp only [List.nil_append]

theorem prependLine_lines_le (max : Nat) (t t1 : List Nat) (X : List (List Nat) × List Nat)
    (h : ∀ l ∈ (prependLine t X).1, l.length ≤ max) (hle : t1.length ≤ t.length) :
    ∀ l ∈ (prependLine t1 X).1, l.length ≤ max := by
  obtain ⟨ls, tl⟩ := X
  cases ls with
  | nil => simp [prependLine]
  | cons l0 ls =>
    simp only [prependLine, List.mem_cons, forall_eq_or_imp, List.length_append] at h ⊢
    exact ⟨by omega, h.2⟩

theorem prependLine_tail_le (max : Nat) (t : List Nat) (X : List (List Nat) × List Nat)
    (h : ∀ l ∈ (prependLine t X).1, l.length ≤ max) (ht : (prependLine t X).2.length ≤ max) :
    t.length ≤ max := by
  obtain ⟨ls, tl⟩ := X
  cases ls with
  | nil =>
    simp only [prependLine, List.length_append] at ht
    omega
  | cons l0 ls =>
    simp only [prependLine, List.mem_cons, forall_eq_or_imp, List.length_append] at h
    omega

/-- The reads of a byte string in which no line and no tail is longer than `max`, cut in
any way: the lines emitted and the buffer kept are the lines and the tail of the
whole string. -/
theorem readAll_lines (max : Nat) :
    ∀ (chunks : List (List Nat)) (p : List Nat), (∀ b ∈ p, b ≠ newline) →
      (∀ l ∈ (linesOf (p ++ chunks.flatten)).1, l.length ≤ max) →
      (linesOf (p ++ chunks.flatten)).2.length ≤ max →
      readAll max p chunks = linesOf (p ++ chunks.flatten) := by
  intro chunks
  induction chunks with
  | nil =>
    intro p hp _ _
    simp only [readAll, List.flatten_nil, List.append_nil]
    rw [linesOf_no_newline p hp]
  | cons c rest ih =>
    intro p hp hH ht
    by_cases hc : c = []
    · subst hc
      simp only [readAll, readMore_nil, List.nil_append, List.flatten_cons] at hH ht ⊢
      exact ih p hp hH ht
    · simp only [List.flatten_cons] at hH ht ⊢
      rw [← List.append_assoc] at hH ht ⊢
      rw [linesOf_append] at hH ht ⊢
      simp only at hH ht
      have hno := linesOf_tail_no_newline (p ++ c)
      have hHa : ∀ l ∈ (linesOf (p ++ c)).1, l.length ≤ max :=
        fun l hl => hH l (List.mem_append_left _ hl)
      have hHb : ∀ l ∈ (linesOf ((linesOf (p ++ c)).2 ++ rest.flatten)).1, l.length ≤ max :=
        fun l hl => hH l (List.mem_append_right _ hl)
      have hta : (linesOf (p ++ c)).2.length ≤ max := by
        rw [linesOf_prepend _ _ hno] at hHb ht
        exact prependLine_tail_le max _ _ hHb ht
      have hrm := readMore_spec max p c hc hHa
      rw [if_neg (by omega)] at hrm
      simp only [readAll, hrm]
      rw [ih _ hno hHb ht]

/-- The reads of a byte string none of whose terminated lines is longer than `max`, cut
in any way: the strings emitted, followed by the buffer kept, are the bytes read
after the buffer the reads started from, without the newlines. -/
theorem readAll_keeps (max : Nat) :
    ∀ (chunks : List (List Nat)) (p : List Nat), (∀ b ∈ p, b ≠ newline) →
      (∀ l ∈ (linesOf (p ++ chunks.flatten)).1, l.length ≤ max) →
      (readAll max p chunks).1.flatten ++ (readAll max p chunks).2 =
        p ++ strip chunks.flatten := by
  intro chunks
  induction chunks with
  | nil =>
    intro p _ _
    simp [readAll, strip]
  | cons c rest ih =>
    intro p hp hH
    by_cases hc : c = []
    · subst hc
      simp only [readAll, readMore_nil, List.nil_append, List.flatten_cons] at hH ⊢
      exact ih p hp hH
    · simp only [List.flatten_cons] at hH ⊢
      rw [← List.append_assoc] at hH
      rw [linesOf_append] at hH
      simp only at hH
      have hno := linesOf_tail_no_newline (p ++ c)
      have hHa : ∀ l ∈ (linesOf (p ++ c)).1, l.length ≤ max :=
        fun l hl => hH l (List.mem_append_left _ hl)
      have hHb : ∀ l ∈ (linesOf ((linesOf (p ++ c)).2 ++ rest.flatten)).1, l.length ≤ max :=
        fun l hl => hH l (List.mem_append_right _ hl)
      have hfl := linesOf_flatten (p ++ c)
      have hsp : strip (p ++ c) = p ++ strip c := by
        unfold strip
        rw [List.filter_append]
        congr 1
        exact strip_no_newline p hp
      have hsc : strip (c ++ rest.flatten) = strip c ++ strip rest.flatten := by
        unfold strip
        rw [List.filter_append]
      have hrm := readMore_spec max p c hc hHa
      by_cases hlong : (linesOf (p ++ c)).2.length > max
      · rw [if_pos hlong] at hrm
        have hno2 : ∀ b ∈ (linesOf (p ++ c)).2.drop max, b ≠ newline :=
          fun b hb => hno b (List.mem_of_mem_drop hb)
        have hHc : ∀ l ∈ (linesOf ((linesOf (p ++ c)).2.drop max ++ rest.flatten)).1,
            l.length ≤ max := by
          rw [linesOf_prepend _ _ hno2]
          rw [linesOf_prepend _ _ hno] at hHb
          exact prependLine_lines_le max _ _ _ hHb (by rw [List.length_drop]; omega)
        have := ih _ hno2 hHc
        simp only [readAll, hrm, List.flatten_append, List.append_assoc, this, hsc,
          List.flatten_cons, List.flatten_nil, List.append_nil]
        rw [← List.append_assoc ((linesOf (p ++ c)).2.take max), List.take_append_drop,
          ← List.append_assoc, hfl, hsp, List.append_assoc]
      · rw [if_neg hlong] at hrm
        have := ih _ hno hHb
        simp only [readAll, hrm, List.flatten_append, List.append_assoc, this, hsc]
        rw [← List.append_assoc, hfl, hsp, List.append_assoc]

/-- Every string the reads emit has at most `max` bytes. -/
theorem readAll_lengths (max : Nat) :
    ∀ (chunks : List (List Nat)) (p : List Nat),
      ∀ l ∈ (readAll max p chunks).1, l.length ≤ max := by
  intro chunks
  induction chunks with
  | nil =>
    intro p l hl
    simp [readAll] at hl
  | cons c rest ih =>
    intro p l hl
    simp only [readAll] at hl
    rcases List.mem_append.mp hl with hl | hl
    · unfold readMore at hl
      split at hl
      · exact splitLoop_lengths max _ _ [] (by simp) l hl
      · simp at hl
    · exact ih _ l hl

theorem newlineIndex_append (pre rest : List Nat) (h : ∀ b ∈ pre, b ≠ newline) :
    newlineIndex (pre ++ newline :: rest) = pre.length := by
  induction pre with
  | nil => simp [newlineIndex]
  | cons b r ih =>
    have hb : b ≠ newline := h b (List.mem_cons_self _ _)
    simp only [List.cons_append, newlineIndex, hb, if_false, List.length_cons, List.append_eq]
    rw [ih (fun x hx => h x (List.mem_cons_of_mem _ hx))]

/-- A read that brings a whole line longer than `max` emits only its first `max` bytes;
the rest of the line is not kept. -/
theorem readMore_truncates (max : Nat) (line : List Nat) (h : ∀ b ∈ line, b ≠ newline)
    (hlong : max < line.length) :
    readMore max [] (line ++ [newline]) = ([line.take max], []) := by
  have hidx := newlineIndex_append line [] h
  unfold readMore
  simp only [List.nil_append, List.length_append, List.length_singleton]
  rw [if_pos (by omega)]
  simp only [splitLoop, hidx, List.length_append, List.length_singleton]
  rw [if_pos (by omega)]
  simp [hlong, List.take_left', newlineIndex]

/-! ## Theorems: the line splitter -/

/-- Claim C18.  Partial-line stitching: for every byte string in which no line and no tail
is longer than `max` bytes, and every way it arrives in chunks, the reads emit exactly
the newline-terminated lines of the whole string, in order, and keep its unterminated
tail in the buffer. -/
theorem C18_partial_line_stitching (max : Nat) (chunks : List (List Nat))
    (hlines : ∀ l ∈ (linesOf chunks.flatten).1, l.length ≤ max)
    (htail : (linesOf chunks.flatten).2.length ≤ max) :
    readAll max [] chunks = linesOf chunks.flatten :=
  readAll_lines max chunks [] (by simp) (by simpa using hlines) (by simpa using htail)

/-- Claim C18 on the chunks `abc` and `def\n` with the default limit of 64 KiB: the single
line `abcdef` is emitted and the buffer is empty. -/
theorem C18_partial_line_stitching_witness :
    readAll (64 * 1024) [] [bytes "abc", bytes "def\n"] = ([bytes "abcdef"], []) :=
  (C18_partial_line_stitching (64 * 1024) [bytes "abc", bytes "def\n"]
    (by decide) (by decide)).trans (by decide)

/-- Claim C19, as stated, fails.  With `max_line_bytes` 4, the read of `abcdefgh\n` emits
`abcd` and keeps nothing: the bytes `efgh` are dropped.  A newline-terminated line
longer than the limit is cut to the limit (`line = line[:MaxLineBytes]`). -/
theorem C19_counterexample :
    readAll 4 [] [bytes "abcdefgh\n"] = ([bytes "abcd"], []) ∧
    strip (bytes "abcdefgh\n") = bytes "abcdefgh" := by
  decide

/-- Claim C19, amended.  Every string the splitter emits has at most `max` bytes.  When no
newline-terminated line of the input is longer than `max`, no data is dropped,
however the input is cut into chunks and however long its unterminated tail is: the
strings emitted, followed by the buffer kept, are the input without its newlines.  A
line longer than `max` that arrives whole with its newline is cut to its first `max`
bytes. -/
theorem C19_splitter_keeps_short_lines (max : Nat) (chunks : List (List Nat))
    (hlines : ∀ l ∈ (linesOf chunks.flatten).1, l.length ≤ max) :
    (readAll max [] chunks).1.flatten ++ (readAll max [] chunks).2 = strip chunks.flatten ∧
    (∀ l ∈ (readAll max [] chunks).1, l.length ≤ max) ∧
    (∀ line : List Nat, (∀ b ∈ line, b ≠ newline) → max < line.length →
      readMore max [] (line ++ [newline]) = ([line.take max], [])) := by
  refine ⟨?_, readAll_lengths max chunks [], fun line h hl => readMore_truncates max line h hl⟩
  have := readAll_keeps max chunks [] (by simp) (by simpa using hlines)
  simpa using this

/-- Claim C19 with `max_line_bytes` 4 on the chunks `ab\ncdefghij` and `k`: the line `ab`
and the pieces `cdef` and `ghij` of the unterminated tail are emitted and `k` is
kept; nothing is lost. -/
theorem C19_splitter_keeps_short_lines_witness :
    readAll 4 [] [bytes "ab\ncdefghij", bytes "k"] =
      ([bytes "ab", bytes "cdef", bytes "ghij"], bytes "k") ∧
    (readAll 4 [] [bytes "ab\ncdefghij", bytes "k"]).1.flatten ++
      (readAll 4 [] [bytes "ab\ncdefghij", bytes "k"]).2 =
      strip [bytes "ab\ncdefghij", bytes "k"].flatten :=
  ⟨by decide,
    (C19_splitter_keeps_short_lines 4 [bytes "ab\ncdefghij", bytes "k"] (by decide)).1⟩

/-! ## Theorems: step index and window -/

theorem stepAt_some_lt (steps : List ThrottleStep) (i : Int) (st : ThrottleStep)
    (h : stepAt steps i = some st) : 0 ≤ i ∧ i < (steps.length : Int) := by
  unfold stepAt at h
  split at h
  · cases h
  · rename_i hi
    obtain ⟨hlt, _⟩ := List.getElem?_eq_some.mp h
    omega

/-- One call of `Evaluate` from a state whose step index is in range: the call returns,
the profile is unchanged and the step index is in range again. -/
theorem Evaluate_stepIndex (g : FPSGuard) (snap : Snapshot) (now : Int)
    (hk : 0 ≤ g.lastStep) (hlt : g.throttled = true → g.lastStep < (g.steps.length : Int)) :
    ∃ g1 a, g.Evaluate snap now = some (g1, a) ∧ g1.steps = g.steps ∧ 0 ≤ g1.lastStep ∧
      (g1.throttled = true → g1.lastStep < (g1.steps.length : Int)) := by
  by_cases hT : g.throttled = true
  · obtain ⟨g1, a, he, hs, _, _, hc⟩ := Evaluate_throttled_cases g snap now hT hk
    refine ⟨g1, a, he, hs, ?_, ?_⟩
    · rcases hc with ⟨_, _, h⟩ | ⟨_, _, _, _, h⟩ | ⟨_, _, h⟩ <;> omega
    · intro hT1
      rw [hs]
      rcases hc with ⟨_, _, h⟩ | ⟨st, hst, _, _, h⟩ | ⟨_, hN, _⟩
      · rw [h]
        exact hlt hT
      · rw [h]
        exact (stepAt_some_lt _ _ _ hst).2
      · rw [hN] at hT1
        cases hT1
  · have hN : g.throttled = false := by simpa using hT
    cases hs : g.steps with
    | nil =>
      refine ⟨_, _, Evaluate_noSteps g snap now hs, by rw [appended_steps, hs], hk, ?_⟩
      intro hT1
      rw [appended_throttled, hN] at hT1
      cases hT1
    | cons st rest =>
      rw [Evaluate_normal g snap now hN st rest hs]
      split
      · refine ⟨_, _, rfl, ?_, le_refl _, fun _ => ?_⟩
        · exact hs
        · have e : ({ (g.appended snap) with
              throttled := true, lowSince := some now, lastAction := some now,
              lastStep := 0 } : FPSGuard).steps = st :: rest := hs
          rw [e]
          simp
      · refine ⟨_, _, rfl, by rw [appended_steps, hs], hk, ?_⟩
        intro hT1
        rw [appended_throttled, hN] at hT1
        cases hT1

/-- A run of `Evaluate` calls from a state whose step index is in range returns, and ends
in such a state with the same profile. -/
theorem run_stepIndex (evs : List (Snapshot × Int)) :
    ∀ (g : FPSGuard), 0 ≤ g.lastStep →
      (g.throttled = true → g.lastStep < (g.steps.length : Int)) →
      ∃ r, g.run evs = some r ∧ r.1.steps = g.steps ∧ 0 ≤ r.1.lastStep ∧
        (r.1.throttled = true → r.1.lastStep < (r.1.steps.length : Int)) := by
  induction evs with
  | nil =>
    intro g hk hlt
    exact ⟨_, rfl, rfl, hk, hlt⟩
  | cons e rest ih =>
    obtain ⟨snap, now⟩ := e
    intro g hk hlt
    obtain ⟨g1, a, he, hs, hk1, hlt1⟩ := Evaluate_stepIndex g snap now hk hlt
    obtain ⟨r, hr, hs2, hk2, hlt2⟩ := ih g1 hk1 hlt1
    exact ⟨(r.1, a :: r.2), by simp only [FPSGuard.run, he, hr], hs2.trans hs, hk2, hlt2⟩

/-- Claim C27.  Step index safety: from `NewFPSGuard`, every sequence of `Evaluate` calls
returns (no index into the steps is out of range); the steps the guard looks up stay
those of the start; in the state reached the step index is not negative and, when the
guard is throttled, below the number of steps; and the next call of `Evaluate`
returns too, whatever the snapshot and the clock reading. -/
theorem C27_step_index_safety (name : String) (cfg : FPSGuardPolicy) (profiles : ProfileMap)
    (evs : List (Snapshot × Int)) :
    ∃ g acts, (NewFPSGuard name cfg profiles).run evs = some (g, acts) ∧
      g.steps = (NewFPSGuard name cfg profiles).steps ∧ 0 ≤ g.lastStep ∧
      (g.throttled = true → g.lastStep < (g.steps.length : Int)) ∧
      ∀ (snap : Snapshot) (now : Int), ∃ g1 a, g.Evaluate snap now = some (g1, a) := by
  have h0 : (NewFPSGuard name cfg profiles).lastStep = 0 := by
    unfold NewFPSGuard
    rfl
  have hN : (NewFPSGuard name cfg profiles).throttled = false := by
    unfold NewFPSGuard
    rfl
  obtain ⟨r, hr, hs, hk, hlt⟩ := run_stepIndex evs (NewFPSGuard name cfg profiles)
    (by rw [h0]) (fun h => by rw [hN] at h; cases h)
  refine ⟨r.1, r.2, hr, hs, hk, hlt, fun snap now => ?_⟩
  obtain ⟨g1, a, he, _⟩ := Evaluate_stepIndex r.1 snap now hk hlt
  exact ⟨g1, a, he⟩

theorem NewFPSGuard_maxLen (name : String) (cfg : FPSGuardPolicy) (profiles : ProfileMap) :
    ((NewFPSGuard name cfg profiles).fpsRing.maxLen : Int) =
      (NewFPSGuard name cfg profiles).cfg.SampleWindowSamples := by
  unfold NewFPSGuard NewRing
  by_cases h1 : cfg.SampleWindowSamples ≤ 0 <;> by_cases h2 : cfg.RequireLowSamples ≤ 0 <;>
    simp [h1, h2] <;> omega

/-- A guard whose ring has fewer slots than `RequireLowSamples` returns no action, for
every sequence of snapshots. -/
theorem run_narrow (evs : List (Snapshot × Int)) :
    ∀ (g : FPSGuard) (xs : List Float64), g.fpsRing.Holds xs →
      (g.fpsRing.maxLen : Int) < g.cfg.RequireLowSamples →
      ∃ g2, g.run evs = some (g2, evs.map (fun _ => none)) ∧ g2.throttled = g.throttled := by
  induction evs with
  | nil =>
    intro g xs _ _
    exact ⟨g, rfl, rfl⟩
  | cons e rest ih =>
    obtain ⟨snap, now⟩ := e
    intro g xs hh hlt
    have hh1 : (g.appended snap).fpsRing.Holds (xs ++ [snap.FPS]) := Ring.Append_Holds hh _
    have hlen := hh1.Len_eq
    have hm : (g.appended snap).fpsRing.maxLen = g.fpsRing.maxLen := rfl
    have hfew : ((g.appended snap).fpsRing.Len : Int) < g.cfg.RequireLowSamples := by
      rw [hlen, hm]
      have : min (xs ++ [snap.FPS]).length g.fpsRing.maxLen ≤ g.fpsRing.maxLen :=
        Nat.min_le_right _ _
      omega
    have he := Evaluate_few g snap now hfew
    obtain ⟨g2, hr, hT⟩ := ih (g.appended snap) _ hh1 (by rw [hm, appended_cfg]; exact hlt)
    exact ⟨g2, by simp only [FPSGuard.run, he, hr, List.map_cons], by rw [hT, appended_throttled]⟩

/-- Claim C28.  When, after the defaults of `NewFPSGuard`, `RequireLowSamples` is greater
than `SampleWindowSamples`, the guard is inert: for every sequence of snapshots every
call of `Evaluate` returns no action and the guard stays Normal.  The ring holds at
most `SampleWindowSamples` values, so its length never reaches `RequireLowSamples`. -/
theorem C28_inert_when_window_too_small (name : String) (cfg : FPSGuardPolicy)
    (profiles : ProfileMap)
    (h : (NewFPSGuard name cfg profiles).cfg.SampleWindowSamples <
      (NewFPSGuard name cfg profiles).cfg.RequireLowSamples)
    (evs : List (Snapshot × Int)) :
    ∃ g, (NewFPSGuard name cfg profiles).run evs = some (g, evs.map (fun _ => none)) ∧
      g.throttled = false ∧
      ∀ (snap : Snapshot), ((g.appended snap).fpsRing.Len : Int) ≤
        (NewFPSGuard name cfg profiles).cfg.SampleWindowSamples := by
  have hH : (NewFPSGuard name cfg profiles).fpsRing.Holds [] := by
    unfold NewFPSGuard
    exact NewRing_Holds _ _
  have hm := NewFPSGuard_maxLen name cfg profiles
  obtain ⟨g, hr, hT⟩ := run_narrow evs (NewFPSGuard name cfg profiles) [] hH (by rw [hm]; exact h)
  refine ⟨g, hr, by rw [hT]; unfold NewFPSGuard; rfl, fun snap => ?_⟩
  obtain ⟨i1, _, _, _, i5⟩ := run_Holds evs (NewFPSGuard name cfg profiles) [] (g, _) hH hr
  have hh1 : (g.appended snap).fpsRing.Holds (([] ++ evs.map (fun (e : Snapshot × Int) => e.1.FPS)) ++ [snap.FPS]) :=
    Ring.Append_Holds i1 _
  have hlen := hh1.Len_eq
  have hm2 : (g.appended snap).fpsRing.maxLen = g.fpsRing.maxLen := rfl
  rw [hlen, hm2, ← hm]
  have i5' : g.fpsRing.maxLen = (NewFPSGuard name cfg profiles).fpsRing.maxLen := i5
  rw [i5']
  have := Nat.min_le_right (([] ++ evs.map (fun (e : Snapshot × Int) => e.1.FPS)) ++ [snap.FPS]).length
    (NewFPSGuard name cfg profiles).fpsRing.maxLen
  omega

/-- Claim C28 with a window of 2 and 3 low samples required: five low snapshots in a row
return no action. -/
theorem C28_inert_when_window_too_small_witness :
    ∃ g, (NewFPSGuard "test" narrowCfg scenarioProfiles).run lowScenario =
      some (g, [none, none, none, none, none]) ∧ g.throttled = false :=
  match C28_inert_when_window_too_small "test" narrowCfg scenarioProfiles (by decide)
    lowScenario with
  | ⟨g, hr, hT, _⟩ => ⟨g, hr, hT⟩

/-! ## Lemmas: the fields of the snapshot -/

/-- What `applyPair` does to each field: a field changes only on a token whose
lower-cased key is one of its names and whose value parses. -/
theorem applyPair_eq (s : Snapshot) (kv : GoString × GoString) :
    applyPair s kv =
      { ParsedAt := s.ParsedAt,
        Timestamp := if keyIn ["time"] kv then (parseTimeVal kv.2).getD s.Timestamp
          else s.Timestamp,
        FPS := if keyIn ["fps"] kv then (ParseFloat (TrimSpace kv.2)).getD s.FPS else s.FPS,
        HeapMB := if keyIn ["heap"] kv then (parseMB kv.2).getD s.HeapMB else s.HeapMB,
        RSSMB := if keyIn ["rss"] kv then (parseMB kv.2).getD s.RSSMB else s.RSSMB,
        Chunks := if keyIn ["chunks"] kv then (Atoi (TrimSpace kv.2)).getD s.Chunks
          else s.Chunks,
        CGo := if keyIn ["cgo"] kv then (Atoi (TrimSpace kv.2)).getD s.CGo else s.CGo,
        CGoMissing := if keyIn ["cgo"] kv then false else s.CGoMissing,
        Players := if keyIn ["ply", "players"] kv then (Atoi (TrimSpace kv.2)).getD s.Players
          else s.Players,
        Zombies := if keyIn ["zom", "zombies"] kv then (Atoi (TrimSpace kv.2)).getD s.Zombies
          else s.Zombies,
        EntitiesTotal := if keyIn ["ent", "entities"] kv then
            (Atoi (TrimSpace kv.2)).getD s.EntitiesTotal
          else s.EntitiesTotal,
        EntitiesActive := if keyIn ["ent_active", "entities_active"] kv then
            (Atoi (TrimSpace kv.2)).getD s.EntitiesActive
          else s.EntitiesActive,
        CO := if keyIn ["co", "connections"] kv then (Atoi (TrimSpace kv.2)).getD s.CO
          else s.CO } := by
  obtain ⟨k, v⟩ := kv
  simp only [applyPair, keyIn, List.any_cons, List.any_nil, Bool.or_false]
  generalize ToLower k = key
  by_cases h1 : key = "time".toList
  · subst h1
    cases parseTimeVal v <;> rfl
  by_cases h2 : key = "fps".toList
  · subst h2
    cases ParseFloat (TrimSpace v) <;> rfl
  by_cases h3 : key = "heap".toList
  · subst h3
    cases parseMB v <;> rfl
  by_cases h4 : key = "rss".toList
  · subst h4
    cases parseMB v <;> rfl
  by_cases h5 : key = "chunks".toList
  · subst h5
    cases Atoi (TrimSpace v) <;> rfl
  by_cases h6 : key = "cgo".toList
  · subst h6
    cases Atoi (TrimSpace v) <;> rfl
  by_cases h7 : key = "ply".toList
  · subst h7
    cases Atoi (TrimSpace v) <;> rfl
  by_cases h8 : key = "players".toList
  · subst h8
    cases Atoi (TrimSpace v) <;> rfl
  by_cases h9 : key = "zom".toList
  · subst h9
    cases Atoi (TrimSpace v) <;> rfl
  by_cases h10 : key = "zombies".toList
  · subst h10
    cases Atoi (TrimSpace v) <;> rfl
  by_cases h11 : key = "ent".toList
  · subst h11
    cases Atoi (TrimSpace v) <;> rfl
  by_cases h12 : key = "entities".toList
  · subst h12
    cases Atoi (TrimSpace v) <;> rfl
  by_cases h13 : key = "ent_active".toList
  · subst h13
    cases Atoi (TrimSpace v) <;> rfl
  by_cases h14 : key = "entities_active".toList
  · subst h14
    cases Atoi (TrimSpace v) <;> rfl
  by_cases h15 : key = "co".toList
  · subst h15
    cases Atoi (TrimSpace v) <;> rfl
  by_cases h16 : key = "connections".toList
  · subst h16
    cases Atoi (TrimSpace v) <;> rfl
  simp only [h1, h2, h3, h4, h5, h6, h7, h8, h9, h10, h11, h12, h13, h14, h15, h16, if_false,
    decide_False, Bool.or_self, Bool.false_eq_true, or_self]

theorem foldl_applyPair_inv {α : Type} (f : Snapshot → α) (Q : α → Prop)
    (L : List (GoString × GoString))
    (hstep : ∀ (s : Snapshot) (kv : GoString × GoString), kv ∈ L → Q (f s) →
      Q (f (applyPair s kv))) :
    ∀ s0 : Snapshot, Q (f s0) → Q (f (L.foldl applyPair s0)) := by
  induction L with
  | nil =>
    intro s0 h
    exact h
  | cons kv rest ih =>
    intro s0 h
    exact ih (fun s kv1 hm hq => hstep s kv1 (List.mem_cons_of_mem _ hm) hq) _
      (hstep s0 kv (List.mem_cons_self _ _) h)

/-- A recognised line: the snapshot is the fold of `applyPair` over the tokens, in the
order `range` hands them out. -/
theorem ParseTimeLine_recognised (now : Time) (rangeOrder : GoMap → GoMap) (line : GoString)
    (hrec : HasPrefix (TrimSpace line) "Time:".toList = true) :
    ParseTimeLine now rangeOrder line =
      ((rangeOrder (parseKeyValuePairs (restOfLine line))).foldl applyPair (initialSnapshot now),
        true, none) := by
  unfold ParseTimeLine
  simp only [hrec, Bool.not_true, Bool.false_eq_true, if_false]

/-- A field whose tokens all fail to parse keeps its value over the fold: stated for a
field `f` that `applyPair` changes only through `parse` on the keys `names`. -/
theorem foldl_keeps {α : Type} (f : Snapshot → α) (names : List String)
    (parse : GoString → Option α)
    (hf : ∀ s kv, f (applyPair s kv) =
      if keyIn names kv then (parse kv.2).getD (f s) else f s)
    (L : List (GoString × GoString))
    (h : ∀ kv ∈ L, keyIn names kv = true → parse kv.2 = none) (s0 : Snapshot) :
    f (L.foldl applyPair s0) = f s0 := by
  refine foldl_applyPair_inv f (fun x => x = f s0) L ?_ s0 rfl
  intro s kv hm hq
  rw [hf]
  by_cases hk : keyIn names kv = true
  · rw [if_pos hk, h kv hm hk]
    exact hq
  · rw [if_neg hk]
    exact hq

/-- The value of a field after the fold is its value before, or one that `parse` read
from a token with one of the keys `names`. -/
theorem foldl_parsed {α : Type} (f : Snapshot → α) (names : List String)
    (parse : GoString → Option α)
    (hf : ∀ s kv, f (applyPair s kv) =
      if keyIn names kv then (parse kv.2).getD (f s) else f s)
    (L : List (GoString × GoString)) (s0 : Snapshot) :
    f (L.foldl applyPair s0) = f s0 ∨
      ∃ kv ∈ L, keyIn names kv = true ∧ parse kv.2 = some (f (L.foldl applyPair s0)) := by
  refine foldl_applyPair_inv f
    (fun x => x = f s0 ∨ ∃ kv ∈ L, keyIn names kv = true ∧ parse kv.2 = some x) L ?_ s0
    (Or.inl rfl)
  intro s kv hm hq
  rw [hf]
  by_cases hk : keyIn names kv = true
  · rw [if_pos hk]
    cases hp : parse kv.2 with
    | none => exact hq
    | some v => exact Or.inr ⟨kv, hm, hk, hp⟩
  · rw [if_neg hk]
    exact hq

theorem foldl_CGoMissing (L : List (GoString × GoString)) :
    ∀ s0 : Snapshot, (L.foldl applyPair s0).CGoMissing =
      (s0.CGoMissing && !L.any (keyIn ["cgo"])) := by
  induction L with
  | nil =>
    intro s0
    simp
  | cons kv rest ih =>
    intro s0
    rw [List.foldl_cons, ih, applyPair_eq]
    simp only [List.any_cons]
    cases keyIn ["cgo"] kv <;> simp

theorem hf_Timestamp (s : Snapshot) (kv : GoString × GoString) :
    (applyPair s kv).Timestamp =
      if keyIn ["time"] kv then (parseTimeVal kv.2).getD s.Timestamp else s.Timestamp := by
  rw [applyPair_eq]

theorem hf_FPS (s : Snapshot) (kv : GoString × GoString) :
    (applyPair s kv).FPS =
      if keyIn ["fps"] kv then ((fun v => ParseFloat (TrimSpace v)) kv.2).getD s.FPS
      else s.FPS := by
  rw [applyPair_eq]

theorem hf_HeapMB (s : Snapshot) (kv : GoString × GoString) :
    (applyPair s kv).HeapMB =
      if keyIn ["heap"] kv then (parseMB kv.2).getD s.HeapMB else s.HeapMB := by
  rw [applyPair_eq]

theorem hf_RSSMB (s : Snapshot) (kv : GoString × GoString) :
    (applyPair s kv).RSSMB =
      if keyIn ["rss"] kv then (parseMB kv.2).getD s.RSSMB else s.RSSMB := by
  rw [applyPair_eq]

theorem hf_Chunks (s : Snapshot) (kv : GoString × GoString) :
    (applyPair s kv).Chunks =
      if keyIn ["chunks"] kv then ((fun v => Atoi (TrimSpace v)) kv.2).getD s.Chunks
      else s.Chunks := by
  rw [applyPair_eq]

theorem hf_CGo (s : Snapshot) (kv : GoString × GoString) :
    (applyPair s kv).CGo =
      if keyIn ["cgo"] kv then ((fun v => Atoi (TrimSpace v)) kv.2).getD s.CGo
      else s.CGo := by
  rw [applyPair_eq]

theorem hf_Players (s : Snapshot) (kv : GoString × GoString) :
    (applyPair s kv).Players =
      if keyIn ["ply", "players"] kv then ((fun v => Atoi (TrimSpace v)) kv.2).getD s.Players
      else s.Players := by
  rw [applyPair_eq]

theorem hf_Zombies (s : Snapshot) (kv : GoString × GoString) :
    (applyPair s kv).Zombies =
      if keyIn ["zom", "zombies"] kv then ((fun v => Atoi (TrimSpace v)) kv.2).getD s.Zombies
      else s.Zombies := by
  rw [applyPair_eq]

theorem hf_EntitiesTotal (s : Snapshot) (kv : GoString × GoString) :
    (applyPair s kv).EntitiesTotal =
      if keyIn ["ent", "entities"] kv then
        ((fun v => Atoi (TrimSpace v)) kv.2).getD s.EntitiesTotal
      else s.EntitiesTotal := by
  rw [applyPair_eq]

theorem hf_EntitiesActive (s : Snapshot) (kv : GoString × GoString) :
    (applyPair s kv).EntitiesActive =
      if keyIn ["ent_active", "entities_active"] kv then
        ((fun v => Atoi (TrimSpace v)) kv.2).getD s.EntitiesActive
      else s.EntitiesActive := by
  rw [applyPair_eq]

theorem hf_CO (s : Snapshot) (kv : GoString × GoString) :
    (applyPair s kv).CO =
      if keyIn ["co", "connections"] kv then ((fun v => Atoi (TrimSpace v)) kv.2).getD s.CO
      else s.CO := by
  rw [applyPair_eq]

theorem hf_ParsedAt (L : List (GoString × GoString)) :
    ∀ s0 : Snapshot, (L.foldl applyPair s0).ParsedAt = s0.ParsedAt := by
  induction L with
  | nil => intro s0; rfl
  | cons kv rest ih =>
    intro s0
    rw [List.foldl_cons, ih, applyPair_eq]

/-- The tokens of a well-shaped status line. -/
theorem statusLine_pairs {t : GoString} {kvs : List (GoString × GoString)}
    (ht : IsWord t) (hne : kvs ≠ []) (hw : ∀ p ∈ kvs, IsWord p.1 ∧ IsWord p.2)
    (hnd : ("Time".toList :: kvs.map Prod.fst).Nodup) :
    parseKeyValuePairs (restOfLine (statusLine t kvs)) = ("Time".toList, t) :: kvs := by
  rw [restOfLine_statusLine ht hw, parseKeyValuePairs_wellShaped ht hne hw]
  exact foldl_set_fresh kvs [("Time".toList, t)] (by simpa using hnd)

theorem statusLine_recognised {t : GoString} {kvs : List (GoString × GoString)}
    (ht : IsWord t) (hw : ∀ p ∈ kvs, IsWord p.1 ∧ IsWord p.2) :
    HasPrefix (TrimSpace (statusLine t kvs)) "Time:".toList = true := by
  have he := ends_word_kvText ht kvs hw
  have h1 : TrimSpace (statusLine t kvs) = statusLine t kvs := by
    have e : statusLine t kvs = "Time".toList ++ (':' :: ' ' :: (t ++ kvText kvs)) := rfl
    rw [e]
    exact TrimSpace_word_append (by decide) ((he.cons ' ').cons ':' |>.append_left _)
  rw [h1]
  simp [HasPrefix, statusLine, List.isPrefixOf]

/-! ## Theorems: the fields of the snapshot -/

theorem sentinel_of_pairs (now : Time) (L : List (GoString × GoString)) :
    ((∀ kv ∈ L, keyIn ["ent_active", "entities_active"] kv = false) →
      (L.foldl applyPair (initialSnapshot now)).EntitiesActive = -1) ∧
    ((L.foldl applyPair (initialSnapshot now)).CGoMissing = true ↔
      ∀ kv ∈ L, keyIn ["cgo"] kv = false) := by
  constructor
  · intro h
    have := foldl_keeps (fun s => s.EntitiesActive) ["ent_active", "entities_active"]
      (fun v => Atoi (TrimSpace v)) hf_EntitiesActive L
      (fun kv hm hk => by rw [h kv hm] at hk; cases hk) (initialSnapshot now)
    exact this
  · rw [foldl_CGoMissing]
    have e : (initialSnapshot now).CGoMissing = true := rfl
    rw [e, Bool.true_and]
    simp only [Bool.not_eq_true', List.any_eq_false, Bool.not_eq_true]

/-- The sentinel in terms of the pairs `parseKeyValuePairs` finds: for every recognised
line, whatever order `range` takes over the pairs, `entities_active` is -1 when no pair
has the key `ent_active` or `entities_active`, and `cgo_missing` is true exactly when
no pair has the key `cgo`, keys compared in lower case.  On a status line
`Time: t K1: v1 ... Kn: vn` the pairs are the tokens written in the line. -/
theorem sentinel_of_line (now : Time) (rangeOrder : GoMap → GoMap) (horder : IsRangeOrder rangeOrder)
    (line : GoString) (hrec : HasPrefix (TrimSpace line) "Time:".toList = true) :
    ((∀ kv ∈ parseKeyValuePairs (restOfLine line),
        keyIn ["ent_active", "entities_active"] kv = false) →
      (ParseTimeLine now rangeOrder line).1.EntitiesActive = -1) ∧
    ((ParseTimeLine now rangeOrder line).1.CGoMissing = true ↔
      ∀ kv ∈ parseKeyValuePairs (restOfLine line), keyIn ["cgo"] kv = false) ∧
    (∀ (t : GoString) (kvs : List (GoString × GoString)), IsWord t → kvs ≠ [] →
      (∀ p ∈ kvs, IsWord p.1 ∧ IsWord p.2) → ("Time".toList :: kvs.map Prod.fst).Nodup →
      ((∀ kv ∈ kvs, keyIn ["ent_active", "entities_active"] kv = false) →
        (ParseTimeLine now rangeOrder (statusLine t kvs)).1.EntitiesActive = -1) ∧
      ((ParseTimeLine now rangeOrder (statusLine t kvs)).1.CGoMissing = true ↔
        ∀ kv ∈ kvs, keyIn ["cgo"] kv = false)) := by
  have key : ∀ (l : GoString), HasPrefix (TrimSpace l) "Time:".toList = true →
      ((∀ kv ∈ parseKeyValuePairs (restOfLine l),
          keyIn ["ent_active", "entities_active"] kv = false) →
        (ParseTimeLine now rangeOrder l).1.EntitiesActive = -1) ∧
      ((ParseTimeLine now rangeOrder l).1.CGoMissing = true ↔
        ∀ kv ∈ parseKeyValuePairs (restOfLine l), keyIn ["cgo"] kv = false) := by
    intro l hl
    rw [ParseTimeLine_recognised now rangeOrder l hl]
    obtain ⟨s1, s2⟩ := sentinel_of_pairs now (rangeOrder (parseKeyValuePairs (restOfLine l)))
    have hperm := horder (parseKeyValuePairs (restOfLine l))
    constructor
    · intro h
      exact s1 (fun kv hm => h kv (hperm.mem_iff.mp hm))
    · show (List.foldl applyPair (initialSnapshot now)
        (rangeOrder (parseKeyValuePairs (restOfLine l)))).CGoMissing = true ↔ _
      rw [s2]
      constructor
      · intro h kv hm
        exact h kv (hperm.mem_iff.mpr hm)
      · intro h kv hm
        exact h kv (hperm.mem_iff.mp hm)
  refine ⟨(key line hrec).1, (key line hrec).2, ?_⟩
  intro t kvs ht hne hw hnd
  obtain ⟨k1, k2⟩ := key (statusLine t kvs) (statusLine_recognised ht hw)
  rw [statusLine_pairs ht hne hw hnd] at k1 k2
  constructor
  · intro h
    apply k1
    intro kv hm
    rcases List.mem_cons.mp hm with hm | hm
    · rw [hm]
      rfl
    · exact h kv hm
  · rw [k2]
    constructor
    · intro h kv hm
      exact h kv (List.mem_cons_of_mem _ hm)
    · intro h kv hm
      rcases List.mem_cons.mp hm with hm | hm
      · rw [hm]
        rfl
      · exact h kv hm

/-- Claim C21, the divergence.  The recognised line `Time: CGo: 5 FPS: 30` has no time
value.  `parseKeyValuePairs` takes its leading key for the leading value and files the
text `CGo: 5` under the key `Time`, so no pair has the key `cgo`: whatever order `range`
takes, the snapshot has `cgo_missing = true` and `cgo = 0` although the line contains a
cgo token.  Where the parser finds the tokens the sentinel is as claimed: for every
recognised line `entities_active` is -1 when no pair has the key `ent_active` or
`entities_active`, and `cgo_missing` is true exactly when no pair has the key `cgo`; and
on a status line `Time: t K1: v1 ... Kn: vn` with a time word `t` the pairs are the
tokens written in the line (the line of `TestParseTimeLine_MissingTokens` is one). -/
theorem C21_sentinel :
    (parseKeyValuePairs (restOfLine leadingCgoLine) =
        [("Time".toList, "CGo: 5".toList), ("FPS".toList, "30".toList)] ∧
      ∀ (now : Time) (rangeOrder : GoMap → GoMap), IsRangeOrder rangeOrder →
        (ParseTimeLine now rangeOrder leadingCgoLine).2.1 = true ∧
        (ParseTimeLine now rangeOrder leadingCgoLine).1.CGoMissing = true ∧
        (ParseTimeLine now rangeOrder leadingCgoLine).1.CGo = 0) ∧
    (∀ (now : Time) (rangeOrder : GoMap → GoMap) (line : GoString), IsRangeOrder rangeOrder →
      HasPrefix (TrimSpace line) "Time:".toList = true →
      ((∀ kv ∈ parseKeyValuePairs (restOfLine line),
          keyIn ["ent_active", "entities_active"] kv = false) →
        (ParseTimeLine now rangeOrder line).1.EntitiesActive = -1) ∧
      ((ParseTimeLine now rangeOrder line).1.CGoMissing = true ↔
        ∀ kv ∈ parseKeyValuePairs (restOfLine line), keyIn ["cgo"] kv = false)) ∧
    (∀ (now : Time) (rangeOrder : GoMap → GoMap) (t : GoString)
      (kvs : List (GoString × GoString)), IsRangeOrder rangeOrder → IsWord t → kvs ≠ [] →
      (∀ p ∈ kvs, IsWord p.1 ∧ IsWord p.2) → ("Time".toList :: kvs.map Prod.fst).Nodup →
      ((∀ kv ∈ kvs, keyIn ["ent_active", "entities_active"] kv = false) →
        (ParseTimeLine now rangeOrder (statusLine t kvs)).1.EntitiesActive = -1) ∧
      ((ParseTimeLine now rangeOrder (statusLine t kvs)).1.CGoMissing = true ↔
        ∀ kv ∈ kvs, keyIn ["cgo"] kv = false)) ∧
    ((ParseTimeLine Time.zero id missingTokensLine).1.EntitiesActive = -1 ∧
      (ParseTimeLine Time.zero id missingTokensLine).1.CGoMissing = true) := by
  refine ⟨⟨by decide, ?_⟩, ?_, ?_, by decide⟩
  · intro now rangeOrder horder
    have hrec : HasPrefix (TrimSpace leadingCgoLine) "Time:".toList = true := by decide
    refine ⟨?_, (sentinel_of_line now rangeOrder horder leadingCgoLine hrec).2.1.mpr (by decide),
      ?_⟩
    · rw [ParseTimeLine_recognised now rangeOrder leadingCgoLine hrec]
    · rw [ParseTimeLine_recognised now rangeOrder leadingCgoLine hrec]
      have hperm := horder (parseKeyValuePairs (restOfLine leadingCgoLine))
      have hall : ∀ kv ∈ parseKeyValuePairs (restOfLine leadingCgoLine),
          keyIn ["cgo"] kv = true → Atoi (TrimSpace kv.2) = none := by decide
      exact foldl_keeps (fun s => s.CGo) ["cgo"] (fun v => Atoi (TrimSpace v)) hf_CGo _
        (fun kv hm => hall kv (hperm.mem_iff.mp hm)) (initialSnapshot now)
  · intro now rangeOrder line horder hrec
    exact ⟨(sentinel_of_line now rangeOrder horder line hrec).1,
      (sentinel_of_line now rangeOrder horder line hrec).2.1⟩
  · intro now rangeOrder t kvs horder ht hne hw hnd
    exact (sentinel_of_line now rangeOrder horder (statusLine t kvs)
      (statusLine_recognised ht hw)).2.2 t kvs ht hne hw hnd

/-- Claim C22.  Malformed tokens are ignored, not reported: for every recognised line,
whatever order `range` takes over the tokens, `ParseTimeLine` returns `ok = true` and
a nil error, `parsed_at` is the clock reading, and each field all of whose tokens
fail to parse (a field without token included) keeps its default: `parsed_at` for
the timestamp, 0 for fps, heap_mb, rss_mb, chunks, cgo, players, zombies,
entities_total and co, -1 for entities_active. -/
theorem C22_malformed_tokens_ignored (now : Time) (rangeOrder : GoMap → GoMap)
    (horder : IsRangeOrder rangeOrder) (line : GoString)
    (hrec : HasPrefix (TrimSpace line) "Time:".toList = true) :
    (ParseTimeLine now rangeOrder line).2.1 = true ∧
    (ParseTimeLine now rangeOrder line).2.2 = none ∧
    (ParseTimeLine now rangeOrder line).1.ParsedAt = now ∧
    ((∀ kv ∈ parseKeyValuePairs (restOfLine line), keyIn ["time"] kv = true →
        parseTimeVal kv.2 = none) →
      (ParseTimeLine now rangeOrder line).1.Timestamp = now) ∧
    ((∀ kv ∈ parseKeyValuePairs (restOfLine line), keyIn ["fps"] kv = true →
        ParseFloat (TrimSpace kv.2) = none) →
      (ParseTimeLine now rangeOrder line).1.FPS = Float64.zero) ∧
    ((∀ kv ∈ parseKeyValuePairs (restOfLine line), keyIn ["heap"] kv = true →
        parseMB kv.2 = none) →
      (ParseTimeLine now rangeOrder line).1.HeapMB = Float64.zero) ∧
    ((∀ kv ∈ parseKeyValuePairs (restOfLine line), keyIn ["rss"] kv = true →
        parseMB kv.2 = none) →
      (ParseTimeLine now rangeOrder line).1.RSSMB = Float64.zero) ∧
    ((∀ kv ∈ parseKeyValuePairs (restOfLine line), keyIn ["chunks"] kv = true →
        Atoi (TrimSpace kv.2) = none) →
      (ParseTimeLine now rangeOrder line).1.Chunks = 0) ∧
    ((∀ kv ∈ parseKeyValuePairs (restOfLine line), keyIn ["cgo"] kv = true →
        Atoi (TrimSpace kv.2) = none) →
      (ParseTimeLine now rangeOrder line).1.CGo = 0) ∧
    ((∀ kv ∈ parseKeyValuePairs (restOfLine line), keyIn ["ply", "players"] kv = true →
        Atoi (TrimSpace kv.2) = none) →
      (ParseTimeLine now rangeOrder line).1.Players = 0) ∧
    ((∀ kv ∈ parseKeyValuePairs (restOfLine line), keyIn ["zom", "zombies"] kv = true →
        Atoi (TrimSpace kv.2) = none) →
      (ParseTimeLine now rangeOrder line).1.Zombies = 0) ∧
    ((∀ kv ∈ parseKeyValuePairs (restOfLine line), keyIn ["ent", "entities"] kv = true →
        Atoi (TrimSpace kv.2) = none) →
      (ParseTimeLine now rangeOrder line).1.EntitiesTotal = 0) ∧
    ((∀ kv ∈ parseKeyValuePairs (restOfLine line),
        keyIn ["ent_active", "entities_active"] kv = true → Atoi (TrimSpace kv.2) = none) →
      (ParseTimeLine now rangeOrder line).1.EntitiesActive = -1) ∧
    ((∀ kv ∈ parseKeyValuePairs (restOfLine line), keyIn ["co", "connections"] kv = true →
        Atoi (TrimSpace kv.2) = none) →
      (ParseTimeLine now rangeOrder line).1.CO = 0) := by
  rw [ParseTimeLine_recognised now rangeOrder line hrec]
  have hperm := horder (parseKeyValuePairs (restOfLine line))
  have tr : ∀ (P : GoString × GoString → Prop),
      (∀ kv ∈ parseKeyValuePairs (restOfLine line), P kv) →
      ∀ kv ∈ rangeOrder (parseKeyValuePairs (restOfLine line)), P kv :=
    fun P h kv hm => h kv (hperm.mem_iff.mp hm)
  refine ⟨rfl, rfl, hf_ParsedAt _ _, ?_, ?_, ?_, ?_, ?_, ?_, ?_, ?_, ?_, ?_, ?_⟩
  · intro h
    exact foldl_keeps (fun s => s.Timestamp) ["time"] parseTimeVal hf_Timestamp _
      (tr _ h) (initialSnapshot now)
  · intro h
    exact foldl_keeps (fun s => s.FPS) ["fps"] (fun v => ParseFloat (TrimSpace v)) hf_FPS _
      (tr _ h) (initialSnapshot now)
  · intro h
    exact foldl_keeps (fun s => s.HeapMB) ["heap"] parseMB hf_HeapMB _
      (tr _ h) (initialSnapshot now)
  · intro h
    exact foldl_keeps (fun s => s.RSSMB) ["rss"] parseMB hf_RSSMB _
      (tr _ h) (initialSnapshot now)
  · intro h
    exact foldl_keeps (fun s => s.Chunks) ["chunks"] (fun v => Atoi (TrimSpace v)) hf_Chunks _
      (tr _ h) (initialSnapshot now)
  · intro h
    exact foldl_keeps (fun s => s.CGo) ["cgo"] (fun v => Atoi (TrimSpace v)) hf_CGo _
      (tr _ h) (initialSnapshot now)
  · intro h
    exact foldl_keeps (fun s => s.Players) ["ply", "players"] (fun v => Atoi (TrimSpace v))
      hf_Players _ (tr _ h) (initialSnapshot now)
  · intro h
    exact foldl_keeps (fun s => s.Zombies) ["zom", "zombies"] (fun v => Atoi (TrimSpace v))
      hf_Zombies _ (tr _ h) (initialSnapshot now)
  · intro h
    exact foldl_keeps (fun s => s.EntitiesTotal) ["ent", "entities"]
      (fun v => Atoi (TrimSpace v)) hf_EntitiesTotal _ (tr _ h) (initialSnapshot now)
  · intro h
    exact foldl_keeps (fun s => s.EntitiesActive) ["ent_active", "entities_active"]
      (fun v => Atoi (TrimSpace v)) hf_EntitiesActive _ (tr _ h) (initialSnapshot now)
  · intro h
    exact foldl_keeps (fun s => s.CO) ["co", "connections"] (fun v => Atoi (TrimSpace v))
      hf_CO _ (tr _ h) (initialSnapshot now)

/-- Claim C22 on a line whose time, fps and chunks values do not parse: the line is
recognised without error, the timestamp is `parsed_at`, and fps and chunks are 0. -/
theorem C22_malformed_tokens_ignored_witness :
    (ParseTimeLine Time.zero id malformedLine).2.1 = true ∧
    (ParseTimeLine Time.zero id malformedLine).2.2 = none ∧
    (ParseTimeLine Time.zero id malformedLine).1.Timestamp = Time.zero ∧
    (ParseTimeLine Time.zero id malformedLine).1.FPS = Float64.zero ∧
    (ParseTimeLine Time.zero id malformedLine).1.Chunks = 0 :=
  match C22_malformed_tokens_ignored Time.zero id (fun m => List.Perm.refl m) malformedLine
    (by decide) with
  | ⟨h1, h2, _, h4, h5, _, _, h8, _⟩ => ⟨h1, h2, h4 (by decide), h5 (by decide), h8 (by decide)⟩

/-- Claim C23, as stated, fails.  On the recognised line `Time: 0 Chunks: -5` the snapshot
has `chunks = -5`: `strconv.Atoi` accepts a sign and `ParseTimeLine` stores what it
returns. -/
theorem C23_counterexample :
    (ParseTimeLine Time.zero id negativeLine).2.1 = true ∧
    (ParseTimeLine Time.zero id negativeLine).1.Chunks = -5 ∧
    (ParseTimeLine Time.zero List.reverse negativeLine).1.Chunks = -5 := by
  decide

/-- Claim C23, amended.  In the snapshot of a recognised line each of the count fields
chunks, players, zombies, entities_total and co is 0 or the integer that
`strconv.Atoi` reads, sign included, from the value of a token with one of the
field's keys.  So the count fields are not negative when no token holds a negative
integer. -/
theorem C23_counts_are_parsed_values (now : Time) (rangeOrder : GoMap → GoMap)
    (horder : IsRangeOrder rangeOrder) (line : GoString)
    (hrec : HasPrefix (TrimSpace line) "Time:".toList = true) :
    (((ParseTimeLine now rangeOrder line).1.Chunks = 0 ∨
        ∃ kv ∈ parseKeyValuePairs (restOfLine line), keyIn ["chunks"] kv = true ∧
          Atoi (TrimSpace kv.2) = some (ParseTimeLine now rangeOrder line).1.Chunks) ∧
      ((ParseTimeLine now rangeOrder line).1.Players = 0 ∨
        ∃ kv ∈ parseKeyValuePairs (restOfLine line), keyIn ["ply", "players"] kv = true ∧
          Atoi (TrimSpace kv.2) = some (ParseTimeLine now rangeOrder line).1.Players) ∧
      ((ParseTimeLine now rangeOrder line).1.Zombies = 0 ∨
        ∃ kv ∈ parseKeyValuePairs (restOfLine line), keyIn ["zom", "zombies"] kv = true ∧
          Atoi (TrimSpace kv.2) = some (ParseTimeLine now rangeOrder line).1.Zombies) ∧
      ((ParseTimeLine now rangeOrder line).1.EntitiesTotal = 0 ∨
        ∃ kv ∈ parseKeyValuePairs (restOfLine line), keyIn ["ent", "entities"] kv = true ∧
          Atoi (TrimSpace kv.2) = some (ParseTimeLine now rangeOrder line).1.EntitiesTotal) ∧
      ((ParseTimeLine now rangeOrder line).1.CO = 0 ∨
        ∃ kv ∈ parseKeyValuePairs (restOfLine line), keyIn ["co", "connections"] kv = true ∧
          Atoi (TrimSpace kv.2) = some (ParseTimeLine now rangeOrder line).1.CO)) ∧
    ((∀ kv ∈ parseKeyValuePairs (restOfLine line), ∀ n : Int,
        Atoi (TrimSpace kv.2) = some n → 0 ≤ n) →
      0 ≤ (ParseTimeLine now rangeOrder line).1.Chunks ∧
      0 ≤ (ParseTimeLine now rangeOrder line).1.Players ∧
      0 ≤ (ParseTimeLine now rangeOrder line).1.Zombies ∧
      0 ≤ (ParseTimeLine now rangeOrder line).1.EntitiesTotal ∧
      0 ≤ (ParseTimeLine now rangeOrder line).1.CO) := by
  rw [ParseTimeLine_recognised now rangeOrder line hrec]
  have hperm := horder (parseKeyValuePairs (restOfLine line))
  have tr : ∀ (names : List String) (x : Int),
      (x = 0 ∨ ∃ kv ∈ rangeOrder (parseKeyValuePairs (restOfLine line)),
        keyIn names kv = true ∧ (fun v => Atoi (TrimSpace v)) kv.2 = some x) →
      (x = 0 ∨ ∃ kv ∈ parseKeyValuePairs (restOfLine line),
        keyIn names kv = true ∧ Atoi (TrimSpace kv.2) = some x) := by
    intro names x h
    rcases h with h | ⟨kv, hm, hk, hp⟩
    · exact Or.inl h
    · exact Or.inr ⟨kv, hperm.mem_iff.mp hm, hk, hp⟩
  have c1 := tr _ _ (foldl_parsed (fun s => s.Chunks) ["chunks"] (fun v => Atoi (TrimSpace v))
    hf_Chunks (rangeOrder (parseKeyValuePairs (restOfLine line))) (initialSnapshot now))
  have c2 := tr _ _ (foldl_parsed (fun s => s.Players) ["ply", "players"]
    (fun v => Atoi (TrimSpace v)) hf_Players
    (rangeOrder (parseKeyValuePairs (restOfLine line))) (initialSnapshot now))
  have c3 := tr _ _ (foldl_parsed (fun s => s.Zombies) ["zom", "zombies"]
    (fun v => Atoi (TrimSpace v)) hf_Zombies
    (rangeOrder (parseKeyValuePairs (restOfLine line))) (initialSnapshot now))
  have c4 := tr _ _ (foldl_parsed (fun s => s.EntitiesTotal) ["ent", "entities"]
    (fun v => Atoi (TrimSpace v)) hf_EntitiesTotal
    (rangeOrder (parseKeyValuePairs (restOfLine line))) (initialSnapshot now))
  have c5 := tr _ _ (foldl_parsed (fun s => s.CO) ["co", "connections"]
    (fun v => Atoi (TrimSpace v)) hf_CO
    (rangeOrder (parseKeyValuePairs (restOfLine line))) (initialSnapshot now))
  refine ⟨⟨c1, c2, c3, c4, c5⟩, fun h => ?_⟩
  have nn : ∀ (names : List String) (x : Int),
      (x = 0 ∨ ∃ kv ∈ parseKeyValuePairs (restOfLine line),
        keyIn names kv = true ∧ Atoi (TrimSpace kv.2) = some x) → 0 ≤ x := by
    intro names x hx
    rcases hx with hx | ⟨kv, hm, _, hp⟩
    · omega
    · exact h kv hm x hp
  exact ⟨nn _ _ c1, nn _ _ c2, nn _ _ c3, nn _ _ c4, nn _ _ c5⟩

/-- Claim C23 on the line of the parser's test: chunks 100, players 2, zombies 50,
entities 200 and co 2 are read from tokens, none negative. -/
theorem C23_counts_are_parsed_values_witness :
    0 ≤ (ParseTimeLine Time.zero id testLine).1.Chunks ∧
    0 ≤ (ParseTimeLine Time.zero id testLine).1.Players ∧
    0 ≤ (ParseTimeLine Time.zero id testLine).1.Zombies ∧
    0 ≤ (ParseTimeLine Time.zero id testLine).1.EntitiesTotal ∧
    0 ≤ (ParseTimeLine Time.zero id testLine).1.CO :=
  (C23_counts_are_parsed_values Time.zero id (fun m => List.Perm.refl m) testLine
    (by decide)).2 (by decide)

/-- Claim C24, the divergence.  On the line of the test `TestParseTimeLine_Realistic` the
value stored under `Time` is `2024-01-15` only: the blank after the date is followed
by `14:`, which the scan takes for a key, so `30:00` is stored under the key `14`.
`parseTimeVal` rejects `2024-01-15`, although it accepts `2024-01-15 14:30:00`, and the
timestamp of the snapshot is `parsed_at`, whatever the clock reading and the order
`range` takes. -/
theorem C24_time_value_cut_at_blank :
    parseKeyValuePairs (restOfLine realisticLine) =
      [("Time".toList, "2024-01-15".toList), ("14".toList, "30:00".toList),
       ("FPS".toList, "45.2".toList), ("Heap".toList, "2048.5".toList),
       ("RSS".toList, "2500".toList), ("Chunks".toList, "500".toList),
       ("Ply".toList, "4".toList), ("Zom".toList, "120".toList), ("Ent".toList, "1500".toList),
       ("CO".toList, "4".toList)] ∧
    parseTimeVal "2024-01-15".toList = none ∧
    parseTimeVal "2024-01-15 14:30:00".toList = some ⟨2024, 1, 15, 14, 30, 0, 0, 0⟩ ∧
    (∀ (now : Time) (rangeOrder : GoMap → GoMap), IsRangeOrder rangeOrder →
      (ParseTimeLine now rangeOrder realisticLine).1.Timestamp = now) := by
  refine ⟨by decide, by decide, by decide, ?_⟩
  intro now rangeOrder horder
  rw [ParseTimeLine_recognised now rangeOrder realisticLine (by decide)]
  have hperm := horder (parseKeyValuePairs (restOfLine realisticLine))
  have hall : ∀ kv ∈ parseKeyValuePairs (restOfLine realisticLine),
      keyIn ["time"] kv = true → parseTimeVal kv.2 = none := by decide
  exact foldl_keeps (fun s => s.Timestamp) ["time"] parseTimeVal hf_Timestamp _
    (fun kv hm => hall kv (hperm.mem_iff.mp hm)) (initialSnapshot now)

/-! ## Theorems: reading the audit ring -/

theorem foldl_AuditRing_Append (evs : List AuditEvent) :
    ∀ a : AuditRing, (evs.foldl AuditRing.Append a).ring = evs.foldl Ring.Append a.ring := by
  induction evs with
  | nil => intro a; rfl
  | cons e rest ih =>
    intro a
    simp only [List.foldl_cons]
    rw [ih]
    rfl

/-- What `AuditRing.CopyOut` copies.  After the events `evs` have been appended to a new
audit ring, `CopyOut` into a destination of length `m` returns `min(m, Len)` and copies
that many events starting from the oldest one the ring holds: the first `min(m, Len)`
of the last `Len` events appended, in order; the other slots of the destination are
untouched.  They are the most recent events when `m` is at least `Len`. -/
theorem AuditRing_CopyOut_eq (maxLen : Int) (evs dst : List AuditEvent) :
    (evs.foldl AuditRing.Append (NewAuditRing maxLen)).CopyOut dst =
      (((evs.drop (evs.length - (evs.foldl AuditRing.Append (NewAuditRing maxLen)).Len)).take
          dst.length) ++
        dst.drop (min dst.length (evs.foldl AuditRing.Append (NewAuditRing maxLen)).Len),
        min dst.length (evs.foldl AuditRing.Append (NewAuditRing maxLen)).Len) ∧
    ((evs.foldl AuditRing.Append (NewAuditRing maxLen)).Len ≤ dst.length →
      ((evs.foldl AuditRing.Append (NewAuditRing maxLen)).CopyOut dst).1.take
          (evs.foldl AuditRing.Append (NewAuditRing maxLen)).Len =
        evs.drop (evs.length - (evs.foldl AuditRing.Append (NewAuditRing maxLen)).Len)) := by
  have hH := foldl_Append_Holds evs (NewRing AuditEvent.zero maxLen) []
    (NewRing_Holds AuditEvent.zero maxLen)
  rw [List.nil_append] at hH
  have hr : (evs.foldl AuditRing.Append (NewAuditRing maxLen)).ring =
      evs.foldl Ring.Append (NewRing AuditEvent.zero maxLen) :=
    foldl_AuditRing_Append evs (NewAuditRing maxLen)
  rw [← hr] at hH
  have hL := hH.Len_eq
  have hw : window (evs.foldl AuditRing.Append (NewAuditRing maxLen)).ring.maxLen evs =
      evs.drop (evs.length - (evs.foldl AuditRing.Append (NewAuditRing maxLen)).ring.Len) := by
    unfold window
    congr 1
    omega
  have hc := hH.CopyOut_any dst
  rw [hw] at hc
  have e1 : (evs.foldl AuditRing.Append (NewAuditRing maxLen)).CopyOut dst =
      (evs.foldl AuditRing.Append (NewAuditRing maxLen)).ring.CopyOut dst := rfl
  have e2 : (evs.foldl AuditRing.Append (NewAuditRing maxLen)).Len =
      (evs.foldl AuditRing.Append (NewAuditRing maxLen)).ring.Len := rfl
  rw [e1, e2, hc]
  refine ⟨rfl, fun hle => ?_⟩
  simp only
  have hlen : (evs.drop (evs.length -
      (evs.foldl AuditRing.Append (NewAuditRing maxLen)).ring.Len)).length =
      (evs.foldl AuditRing.Append (NewAuditRing maxLen)).ring.Len := by
    rw [List.length_drop]
    omega
  have h1 : (evs.drop (evs.length -
      (evs.foldl AuditRing.Append (NewAuditRing maxLen)).ring.Len)).take dst.length =
      evs.drop (evs.length - (evs.foldl AuditRing.Append (NewAuditRing maxLen)).ring.Len) :=
    List.take_of_length_le (by rw [hlen]; exact hle)
  rw [h1, List.take_left' hlen]

/-- Claim C26, the divergence.  The comment on `AuditRing.CopyOut` promises "up to
len(dst) recent events", but `Ring.CopyOut` starts at the oldest slot.  A ring of
capacity 8 holds the events 1 to 5; `CopyOut` into a destination of length 2 returns 2
and copies the events 1 and 2, the two oldest, while the two most recent are 4 and 5.
In general, after the events `evs` have been appended to a new audit ring, `CopyOut`
into a destination of length `m` copies the first `min(m, Len)` of the last `Len`
events appended and leaves out the newest `Len - m` whenever `m` is less than `Len`;
only for `m` at least `Len` are the events copied the most recent ones. -/
theorem C26_copy_out_leaves_out_newest :
    (((fiveEvents.CopyOut [AuditEvent.zero, AuditEvent.zero]).1.map (fun e => e.ActionID),
      (fiveEvents.CopyOut [AuditEvent.zero, AuditEvent.zero]).2) = (["1", "2"], 2) ∧
      fiveEvents.Len = 5 ∧
      ([eventOf "1", eventOf "2", eventOf "3", eventOf "4", eventOf "5"].drop 3).map
        (fun e => e.ActionID) = ["4", "5"]) ∧
    (∀ (maxLen : Int) (evs dst : List AuditEvent),
      (evs.foldl AuditRing.Append (NewAuditRing maxLen)).CopyOut dst =
        (((evs.drop (evs.length - (evs.foldl AuditRing.Append (NewAuditRing maxLen)).Len)).take
            dst.length) ++
          dst.drop (min dst.length (evs.foldl AuditRing.Append (NewAuditRing maxLen)).Len),
          min dst.length (evs.foldl AuditRing.Append (NewAuditRing maxLen)).Len) ∧
      ((evs.foldl AuditRing.Append (NewAuditRing maxLen)).Len ≤ dst.length →
        ((evs.foldl AuditRing.Append (NewAuditRing maxLen)).CopyOut dst).1.take
            (evs.foldl AuditRing.Append (NewAuditRing maxLen)).Len =
          evs.drop (evs.length - (evs.foldl AuditRing.Append (NewAuditRing maxLen)).Len))) :=
  ⟨by decide, fun maxLen evs dst => AuditRing_CopyOut_eq maxLen evs dst⟩

/-! ## Theorems: reopening after a rotation -/

/-- Claim C25, the divergence.  `followFile` has one way of opening the file, used for the
first opening and for every reopening: the offset is the size of the file unless
`FromBeginning` is set.  So, with `FromBeginning` false, a reopening reads from the end
and emits none of the lines the file holds at that moment.  In the scenario of the
test `TestTailerRotationSimulation`, `before_rotation\n` (16 bytes) replaced by
`after_rotation\n` (15 bytes), the rotation is detected; the reopening emits
`after_rotation` when `FromBeginning` is true and nothing when it is false. -/
theorem C25_reopen_seeks_to_end :
    (∀ (t : Tailer) (info : FileInfo), t.opts.FromBeginning = false →
      (t.openFile info).2 = info.Size) ∧
    (∀ (t : Tailer) (content : List Nat) (mtime : Int), t.opts.FromBeginning = false →
      (t.openAndRead content mtime).1 = []) ∧
    rotated (inodeOf ⟨16, 1700000000000000000⟩) ⟨16, 1700000000000000000⟩
      ⟨15, 1700000000080000000⟩ = true ∧
    ((NewTailer "game.log" ⟨30 * millisecond, 0, true⟩).openAndRead (bytes "after_rotation\n")
      1700000000080000000).1 = [bytes "after_rotation"] ∧
    ((NewTailer "game.log" ⟨30 * millisecond, 0, false⟩).openAndRead (bytes "after_rotation\n")
      1700000000080000000).1 = [] := by
  refine ⟨?_, ?_, by decide, by decide, by decide⟩
  · intro t info h
    simp [Tailer.openFile, h]
  · intro t content mtime h
    simp only [Tailer.openAndRead, Tailer.openFile, Tailer.followRound, Tailer.readMore,
      readMore, h, Bool.false_eq_true, if_false, Int.toNat_ofNat, List.drop_length,
      List.take_nil, List.length_nil, gt_iff_lt, lt_self_iff_false]
    split <;> rfl


/-! ## Lemmas: the order of finite float64 values -/

theorem scaled_cast (m e k : Int) (hk : k ≤ e) :
    ((m * 2 ^ (e - k).toNat : Int) : ℚ) * (2 : ℚ) ^ k = (m : ℚ) * (2 : ℚ) ^ e := by
  have h0 : (0 : Int) ≤ e - k := by omega
  have h2 : ((2 : ℚ)) ^ ((e - k).toNat) = (2 : ℚ) ^ (e - k) := by
    rw [← zpow_natCast, Int.toNat_of_nonneg h0]
  push_cast
  rw [h2, mul_assoc, ← zpow_add₀ (two_ne_zero)]
  congr 2
  ring

theorem lt_fin_iff (m1 e1 m2 e2 : Int) :
    Float64.lt (Float64.fin m1 e1) (Float64.fin m2 e2) = true ↔
      (m1 : ℚ) * (2 : ℚ) ^ e1 < (m2 : ℚ) * (2 : ℚ) ^ e2 := by
  simp only [Float64.lt, decide_eq_true_eq]
  have hp : (0 : ℚ) < (2 : ℚ) ^ (min e1 e2) := zpow_pos (by norm_num) _
  rw [← scaled_cast m1 e1 (min e1 e2) (min_le_left _ _),
    ← scaled_cast m2 e2 (min e1 e2) (min_le_right _ _), mul_lt_mul_right hp, Int.cast_lt]

theorem le_fin_iff (m1 e1 m2 e2 : Int) :
    Float64.le (Float64.fin m1 e1) (Float64.fin m2 e2) = true ↔
      (m1 : ℚ) * (2 : ℚ) ^ e1 ≤ (m2 : ℚ) * (2 : ℚ) ^ e2 := by
  simp only [Float64.le, decide_eq_true_eq]
  have hp : (0 : ℚ) < (2 : ℚ) ^ (min e1 e2) := zpow_pos (by norm_num) _
  rw [← scaled_cast m1 e1 (min e1 e2) (min_le_left _ _),
    ← scaled_cast m2 e2 (min e1 e2) (min_le_right _ _), mul_le_mul_right hp, Int.cast_le]

theorem pos_of_lt_zero (r e : Int)
    (h : Float64.lt Float64.zero (Float64.fin r e) = true) : 0 < r := by
  have h1 := (lt_fin_iff 0 0 r e).mp h
  simp only [Int.cast_zero, zero_mul] at h1
  have hp : (0 : ℚ) < (2 : ℚ) ^ e := zpow_pos (by norm_num) _
  have h2 : (0 : ℚ) < (r : ℚ) := by
    by_contra hn
    have : (r : ℚ) * (2 : ℚ) ^ e ≤ 0 := mul_nonpos_of_nonpos_of_nonneg (not_lt.mp hn) (le_of_lt hp)
    exact absurd h1 (not_lt.mpr this)
  exact_mod_cast h2

/-! ## Lemmas: the magnitude of a rounded float64 -/

theorem normAux_val (fuel : Nat) : ∀ (m : Nat) (e : Int),
    ((Float64.normAux fuel m e).1 : ℚ) * (2 : ℚ) ^ (Float64.normAux fuel m e).2 =
      (m : ℚ) * (2 : ℚ) ^ e := by
  induction fuel with
  | zero =>
    intro m e
    rfl
  | succ n ih =>
    intro m e
    unfold Float64.normAux
    split_ifs with h
    · rw [ih, zpow_add₀ (two_ne_zero), zpow_one]
      have hm : (m : ℚ) = ((m / 2 : Nat) : ℚ) * 2 := by
        have : m = m / 2 * 2 := by omega
        exact_mod_cast this
      rw [hm]
      ring
    · rfl

theorem norm_val (m : Nat) (e : Int) :
    ((Float64.norm m e).1 : ℚ) * (2 : ℚ) ^ (Float64.norm m e).2 = (m : ℚ) * (2 : ℚ) ^ e := by
  unfold Float64.norm
  split_ifs with h
  · subst h
    simp
  · exact normAux_val m m e

theorem round_le_twice (a b : Nat) :
    (if 2 * (a % b) < b then a / b else if b < 2 * (a % b) then a / b + 1
      else if a / b % 2 = 0 then a / b else a / b + 1) * b ≤ 2 * a := by
  have h2 : a / b * b + a % b = a := by rw [Nat.mul_comm]; exact Nat.div_add_mod a b
  have h5 : (a / b + 1) * b = a / b * b + b := by rw [Nat.add_mul, Nat.one_mul]
  split_ifs with h1 h3 h4
  · generalize a / b * b = t at h2 h5 ⊢
    omega
  · rw [h5]
    generalize a / b * b = t at h2 h5 ⊢
    omega
  · generalize a / b * b = t at h2 h5 ⊢
    omega
  · rw [h5]
    generalize a / b * b = t at h2 h5 ⊢
    omega

theorem roundPos_spec (num den : Nat) (hn : num < den * 2 ^ 1023) :
    ∃ m e, Float64.roundPos num den = some (m, e) ∧
      (m : ℚ) * (2 : ℚ) ^ e * (den : ℚ) ≤ 2 * (num : ℚ) := by
  unfold Float64.roundPos
  lift_lets
  intro e0 e sh a b q r m
  clear_value sh
  have hm : m * b ≤ 2 * a := round_le_twice a b
  clear_value m
  by_cases hsh : 0 ≤ sh
  · have ea : a = num := if_pos hsh
    have eb : b = den * 2 ^ sh.toNat := if_pos hsh
    rw [ea, eb] at hm
    have hno : ¬ (0 ≤ sh ∧ 2 ^ 1024 ≤ m * 2 ^ sh.toNat) := by
      rintro ⟨_, h⟩
      have h1 : den * 2 ^ 1024 ≤ den * (m * 2 ^ sh.toNat) := Nat.mul_le_mul_left _ h
      have h2 : den * (m * 2 ^ sh.toNat) = m * (den * 2 ^ sh.toNat) := by ring
      have h3 : den * 2 ^ 1024 = 2 * (den * 2 ^ 1023) := by ring
      omega
    refine ⟨(Float64.norm m sh).1, (Float64.norm m sh).2, by rw [if_neg hno], ?_⟩
    rw [norm_val]
    have hz : (2 : ℚ) ^ sh = ((2 ^ sh.toNat : Nat) : ℚ) := by
      rw [Nat.cast_pow, Nat.cast_ofNat, ← zpow_natCast, Int.toNat_of_nonneg hsh]
    rw [hz]
    have : ((m * (den * 2 ^ sh.toNat) : Nat) : ℚ) ≤ ((2 * num : Nat) : ℚ) := by exact_mod_cast hm
    push_cast at this ⊢
    linarith
  · have ea : a = num * 2 ^ (-sh).toNat := if_neg hsh
    have eb : b = den := if_neg hsh
    rw [ea, eb] at hm
    have hno : ¬ (0 ≤ sh ∧ 2 ^ 1024 ≤ m * 2 ^ sh.toNat) := fun h => hsh h.1
    refine ⟨(Float64.norm m sh).1, (Float64.norm m sh).2, by rw [if_neg hno], ?_⟩
    rw [norm_val]
    have hz : (2 : ℚ) ^ sh = ((2 : ℚ) ^ (-sh).toNat)⁻¹ := by
      rw [← zpow_natCast, Int.toNat_of_nonneg (by omega), zpow_neg, inv_inv]
    have hp : (0 : ℚ) < (2 : ℚ) ^ (-sh).toNat := by positivity
    rw [hz]
    have : ((m * den : Nat) : ℚ) ≤ ((2 * (num * 2 ^ (-sh).toNat) : Nat) : ℚ) := by
      exact_mod_cast hm
    push_cast at this
    generalize (2 : ℚ) ^ (-sh).toNat = P at hp this ⊢
    rw [show (m : ℚ) * P⁻¹ * (den : ℚ) = ((m : ℚ) * (den : ℚ)) / P by field_simp]
    rw [div_le_iff₀ hp]
    linarith

theorem Within_mono {A B : ℚ} (h : A ≤ B) (x : Float64) (hx : x.Within A) : x.Within B := by
  cases x with
  | nan => exact hx
  | inf n => exact hx
  | fin m e => exact le_trans hx h

theorem ofRatio_some_fin (neg : Bool) (n d : Nat) (f : Float64)
    (h : Float64.ofRatio neg n d = some f) : ∃ m e, f = Float64.fin m e := by
  unfold Float64.ofRatio at h
  split at h
  · cases h
    exact ⟨0, 0, rfl⟩
  · split at h
    · cases h
    · cases h
      exact ⟨_, _, rfl⟩

theorem getD_within (neg : Bool) (num den : Nat) (B : ℚ) (hd : 0 < den)
    (hB : (num : ℚ) ≤ B * (den : ℚ)) (hlim : B < 2 ^ 1023) :
    (match Float64.ofRatio neg num den with
      | some f => f
      | none => Float64.inf neg).Within (2 * B) := by
  have hdq : (0 : ℚ) < (den : ℚ) := by exact_mod_cast hd
  have hB0 : 0 ≤ B := by
    by_contra hneg
    have h1 : B * (den : ℚ) < 0 := mul_neg_of_neg_of_pos (not_le.mp hneg) hdq
    have h2 : (0 : ℚ) ≤ (num : ℚ) := Nat.cast_nonneg _
    linarith
  have hn : num < den * 2 ^ 1023 := by
    have h1 : (num : ℚ) < ((den * 2 ^ 1023 : Nat) : ℚ) := by
      have : B * (den : ℚ) < 2 ^ 1023 * (den : ℚ) := mul_lt_mul_of_pos_right hlim hdq
      rw [Nat.cast_mul, Nat.cast_pow, Nat.cast_ofNat]
      linarith
    exact Nat.cast_lt.mp h1
  obtain ⟨m, e, hr, hv⟩ := roundPos_spec num den hn
  by_cases h0 : num = 0 ∨ den = 0
  · simp only [Float64.ofRatio, h0, if_true]
    show |((0 : Int) : ℚ)| * (2 : ℚ) ^ (0 : Int) ≤ 2 * B
    simp only [Int.cast_zero, abs_zero, zero_mul]
    linarith
  · simp only [Float64.ofRatio, h0, if_false, hr]
    show |(((if neg = true then -(m : Int) else (m : Int)) : Int) : ℚ)| * (2 : ℚ) ^ e ≤ 2 * B
    have ha : |(((if neg = true then -(m : Int) else (m : Int)) : Int) : ℚ)| = (m : ℚ) := by
      split_ifs
      · push_cast
        rw [abs_neg, abs_of_nonneg (Nat.cast_nonneg _)]
      · push_cast
        rw [abs_of_nonneg (Nat.cast_nonneg _)]
    rw [ha]
    have h3 : (m : ℚ) * (2 : ℚ) ^ e * (den : ℚ) ≤ 2 * B * (den : ℚ) := by linarith
    exact le_of_mul_le_mul_right h3 hdq

theorem scaled_within (neg : Bool) (n : Nat) (e : Int) (B : ℚ)
    (hB : (n : ℚ) * (2 : ℚ) ^ e ≤ B) (hlim : B < 2 ^ 1023) :
    (match (if 0 ≤ e then Float64.ofRatio neg (n * 2 ^ e.toNat) 1
        else Float64.ofRatio neg n (2 ^ (-e).toNat)) with
      | some f => f
      | none => Float64.inf neg).Within (2 * B) := by
  split_ifs with he
  · refine getD_within neg _ 1 B (by norm_num) ?_ hlim
    have hz : (2 : ℚ) ^ e = (2 : ℚ) ^ e.toNat := by
      rw [← zpow_natCast, Int.toNat_of_nonneg he]
    rw [hz] at hB
    push_cast
    linarith
  · refine getD_within neg n _ B (pow_pos (by norm_num) _) ?_ hlim
    have hz : (2 : ℚ) ^ e = ((2 : ℚ) ^ (-e).toNat)⁻¹ := by
      rw [← zpow_natCast, Int.toNat_of_nonneg (by omega), zpow_neg, inv_inv]
    have hp : (0 : ℚ) < (2 : ℚ) ^ (-e).toNat := by positivity
    rw [hz] at hB
    push_cast
    generalize (2 : ℚ) ^ (-e).toNat = P at hp hB ⊢
    rw [show (n : ℚ) * P⁻¹ = (n : ℚ) / P by rfl, div_le_iff₀ hp] at hB
    exact hB

theorem scaled_shape (neg : Bool) (n : Nat) (e : Int) :
    (∃ m1 e1, (match (if 0 ≤ e then Float64.ofRatio neg (n * 2 ^ e.toNat) 1
        else Float64.ofRatio neg n (2 ^ (-e).toNat)) with
      | some f => f
      | none => Float64.inf neg) = Float64.fin m1 e1) ∨
    (match (if 0 ≤ e then Float64.ofRatio neg (n * 2 ^ e.toNat) 1
        else Float64.ofRatio neg n (2 ^ (-e).toNat)) with
      | some f => f
      | none => Float64.inf neg) = Float64.inf neg := by
  have key : ∀ o : Option Float64, (∀ f, o = some f → ∃ m1 e1, f = Float64.fin m1 e1) →
      (∃ m1 e1, (match o with
        | some f => f
        | none => Float64.inf neg) = Float64.fin m1 e1) ∨
      (match o with
        | some f => f
        | none => Float64.inf neg) = Float64.inf neg := by
    intro o ho
    cases o with
    | none => exact Or.inr rfl
    | some f => exact Or.inl (ho f rfl)
  apply key
  intro f hf
  split_ifs at hf
  · exact ofRatio_some_fin _ _ _ f hf
  · exact ofRatio_some_fin _ _ _ f hf

theorem natAbs_cast (s : Int) : ((s.natAbs : Nat) : ℚ) = |(s : ℚ)| := by
  rw [Nat.cast_natAbs, Int.cast_abs]

theorem ofInt64_within (n : Int) (A : ℚ) (h : |(n : ℚ)| ≤ A) (hlim : A < 2 ^ 1023) :
    (Float64.ofInt64 n).Within (2 * A) := by
  unfold Float64.ofInt64
  refine getD_within _ _ 1 A (by norm_num) ?_ hlim
  rw [natAbs_cast]
  simpa using h

theorem add_within (x y : Float64) (A B : ℚ) (hx : x.Within A) (hy : y.Within B)
    (hlim : A + B < 2 ^ 1023) : (Float64.add x y).Within (2 * (A + B)) := by
  cases x with
  | nan => exact False.elim hx
  | inf n => exact False.elim hx
  | fin m1 e1 =>
    cases y with
    | nan => exact False.elim hy
    | inf n => exact False.elim hy
    | fin m2 e2 =>
      have h1 : |(m1 : ℚ)| * (2 : ℚ) ^ e1 ≤ A := hx
      have h2 : |(m2 : ℚ)| * (2 : ℚ) ^ e2 ≤ B := hy
      simp only [Float64.add]
      refine scaled_within _ _ _ (A + B) ?_ hlim
      rw [natAbs_cast]
      have hp : (0 : ℚ) < (2 : ℚ) ^ (min e1 e2) := zpow_pos (by norm_num) _
      have c1 := scaled_cast m1 e1 (min e1 e2) (min_le_left _ _)
      have c2 := scaled_cast m2 e2 (min e1 e2) (min_le_right _ _)
      have t : |((m1 * 2 ^ (e1 - min e1 e2).toNat + m2 * 2 ^ (e2 - min e1 e2).toNat : Int) : ℚ)|
            * (2 : ℚ) ^ (min e1 e2)
          ≤ |(m1 : ℚ)| * (2 : ℚ) ^ e1 + |(m2 : ℚ)| * (2 : ℚ) ^ e2 := by
        have t0 : ∀ S : ℚ, |S| * (2 : ℚ) ^ (min e1 e2) = |S * (2 : ℚ) ^ (min e1 e2)| := by
          intro S
          rw [abs_mul, abs_of_pos hp]
        rw [t0, Int.cast_add, add_mul, c1, c2]
        refine le_trans (abs_add _ _) ?_
        rw [abs_mul, abs_mul, abs_of_pos (zpow_pos (by norm_num : (0 : ℚ) < 2) e1),
          abs_of_pos (zpow_pos (by norm_num : (0 : ℚ) < 2) e2)]
      linarith

theorem mul_within (x : Float64) (r e : Int) (A : ℚ) (hx : x.Within A)
    (hr : |(r : ℚ)| * (2 : ℚ) ^ e ≤ 1) (hlim : A < 2 ^ 1023) :
    (Float64.mul x (Float64.fin r e)).Within (2 * A) := by
  cases x with
  | nan => exact False.elim hx
  | inf n => exact False.elim hx
  | fin m1 e1 =>
    have h1 : |(m1 : ℚ)| * (2 : ℚ) ^ e1 ≤ A := hx
    simp only [Float64.mul]
    refine scaled_within _ _ _ A ?_ hlim
    rw [natAbs_cast, Int.cast_mul, abs_mul, zpow_add₀ (two_ne_zero)]
    have p1 : (0 : ℚ) ≤ |(m1 : ℚ)| * (2 : ℚ) ^ e1 :=
      mul_nonneg (abs_nonneg _) (le_of_lt (zpow_pos (by norm_num) _))
    have p2 : (0 : ℚ) ≤ |(r : ℚ)| * (2 : ℚ) ^ e :=
      mul_nonneg (abs_nonneg _) (le_of_lt (zpow_pos (by norm_num) _))
    have : |(m1 : ℚ)| * |(r : ℚ)| * ((2 : ℚ) ^ e1 * (2 : ℚ) ^ e) =
        (|(m1 : ℚ)| * (2 : ℚ) ^ e1) * (|(r : ℚ)| * (2 : ℚ) ^ e) := by ring
    rw [this]
    calc (|(m1 : ℚ)| * (2 : ℚ) ^ e1) * (|(r : ℚ)| * (2 : ℚ) ^ e)
        ≤ (|(m1 : ℚ)| * (2 : ℚ) ^ e1) * 1 := mul_le_mul_of_nonneg_left hr p1
      _ ≤ A := by rw [mul_one]; exact h1

theorem div_within (x : Float64) (m2 e2 : Int) (A : ℚ) (hx : x.Within A) (hm : m2 ≠ 0)
    (hy : 1 ≤ |(m2 : ℚ)| * (2 : ℚ) ^ e2) (hlim : A < 2 ^ 1023) :
    (Float64.div x (Float64.fin m2 e2)).Within (2 * A) := by
  cases x with
  | nan => exact False.elim hx
  | inf n => exact False.elim hx
  | fin m1 e1 =>
    have h1 : |(m1 : ℚ)| * (2 : ℚ) ^ e1 ≤ A := hx
    simp only [Float64.div, hm, if_false]
    have hA : 0 ≤ A := le_trans (mul_nonneg (abs_nonneg _) (le_of_lt (zpow_pos (by norm_num) _))) h1
    have hden : 0 < m2.natAbs * 2 ^ (e2 - e1).toNat :=
      Nat.mul_pos (Int.natAbs_pos.mpr hm) (pow_pos (by norm_num) _)
    refine getD_within _ _ _ A hden ?_ hlim
    have t1 : (e1 - e2).toNat = (e1 - min e1 e2).toNat := by omega
    have t2 : (e2 - e1).toNat = (e2 - min e1 e2).toNat := by omega
    have hp : (0 : ℚ) < (2 : ℚ) ^ (min e1 e2) := zpow_pos (by norm_num) _
    have c1 := scaled_cast |m1| e1 (min e1 e2) (min_le_left _ _)
    have c2 := scaled_cast |m2| e2 (min e1 e2) (min_le_right _ _)
    rw [t1, t2]
    have n1 : ((m1.natAbs * 2 ^ (e1 - min e1 e2).toNat : Nat) : ℚ) =
        ((|m1| * 2 ^ (e1 - min e1 e2).toNat : Int) : ℚ) := by
      push_cast
      rw [Nat.cast_natAbs, Int.cast_abs]
    have n2 : ((m2.natAbs * 2 ^ (e2 - min e1 e2).toNat : Nat) : ℚ) =
        ((|m2| * 2 ^ (e2 - min e1 e2).toNat : Int) : ℚ) := by
      push_cast
      rw [Nat.cast_natAbs, Int.cast_abs]
    rw [n1, n2]
    refine le_of_mul_le_mul_right ?_ hp
    rw [c1, mul_assoc, c2, Int.cast_abs, Int.cast_abs]
    calc |(m1 : ℚ)| * (2 : ℚ) ^ e1 ≤ A := h1
      _ = A * 1 := (mul_one A).symm
      _ ≤ A * (|(m2 : ℚ)| * (2 : ℚ) ^ e2) := mul_le_mul_of_nonneg_left hy hA

/-! ## Lemmas: the magnitude of an elapsed time -/

theorem tmod_bounds (a b : Int) (hb : 0 < b) : -b < Int.tmod a b ∧ Int.tmod a b < b := by
  by_cases ha : 0 ≤ a
  · have h1 := Int.tmod_nonneg b ha
    have h2 := Int.tmod_lt_of_pos a hb
    omega
  · have h0 : 0 ≤ -a := by omega
    have h1 := Int.tmod_nonneg b h0
    have h2 := Int.tmod_lt_of_pos (-a) hb
    have h3 := Int.tmod_def a b
    have h4 := Int.tmod_def (-a) b
    rw [Int.neg_tdiv, mul_neg] at h4
    generalize b * a.tdiv b = u at h3 h4
    omega

theorem tdiv_abs_le (a b : Int) : |((Int.tdiv a b : Int) : ℚ)| ≤ |(a : ℚ)| := by
  rw [← natAbs_cast, ← natAbs_cast, Int.natAbs_tdiv]
  exact_mod_cast Nat.div_le_self _ _

theorem Sub_bounds (now : Int) (u : Option Int) :
    minDuration ≤ Sub now u ∧ Sub now u ≤ maxDuration := by
  unfold Sub maxDuration minDuration
  cases u with
  | none => simp only []; omega
  | some t =>
    simp only []
    split_ifs <;> omega

theorem Seconds_within (d : Int) (h1 : minDuration ≤ d) (h2 : d ≤ maxDuration) :
    (Seconds d).Within (2 ^ 66) := by
  unfold Seconds
  have e : Float64.ofInt 1000000000 = Float64.fin 1953125 9 := by decide
  rw [e]
  have hd : |(d : ℚ)| ≤ 2 ^ 63 := by
    unfold minDuration at h1
    unfold maxDuration at h2
    rw [abs_le]
    constructor
    · have : (-(2 ^ 63) : Int) ≤ d := h1
      exact_mod_cast this
    · have : d ≤ (2 ^ 63 : Int) := by omega
      exact_mod_cast this
  have a1 : (Float64.ofInt64 (Int.tdiv d 1000000000)).Within (2 * 2 ^ 63) :=
    ofInt64_within _ _ (le_trans (tdiv_abs_le d 1000000000) hd) (by norm_num)
  have hm := tmod_bounds d 1000000000 (by norm_num)
  have hmq : |((Int.tmod d 1000000000 : Int) : ℚ)| ≤ 1000000000 := by
    rw [abs_le]
    constructor
    · have : (-1000000000 : Int) ≤ Int.tmod d 1000000000 := by omega
      exact_mod_cast this
    · have : Int.tmod d 1000000000 ≤ (1000000000 : Int) := by omega
      exact_mod_cast this
  have a2 : (Float64.ofInt64 (Int.tmod d 1000000000)).Within (2 * 1000000000) :=
    ofInt64_within _ _ hmq (by norm_num)
  have a3 : (Float64.div (Float64.ofInt64 (Int.tmod d 1000000000))
      (Float64.fin 1953125 9)).Within (2 * (2 * 1000000000)) :=
    div_within _ _ _ _ a2 (by norm_num) (by norm_num) (by norm_num)
  have a4 := add_within _ _ _ _ a1 a3 (by norm_num)
  exact Within_mono (by norm_num) _ a4

/-! ## Lemmas: a bucket whose rate limit is below 1 -/

theorem add_fin_ne_nan (m1 e1 m2 e2 : Int) :
    Float64.add (Float64.fin m1 e1) (Float64.fin m2 e2) ≠ Float64.nan := by
  simp only [Float64.add]
  rcases scaled_shape (decide (m1 * 2 ^ (e1 - min e1 e2).toNat +
      m2 * 2 ^ (e2 - min e1 e2).toNat < 0))
    (m1 * 2 ^ (e1 - min e1 e2).toNat + m2 * 2 ^ (e2 - min e1 e2).toNat).natAbs
    (min e1 e2) with ⟨m, e, h⟩ | h
  · rw [h]
    exact Float64.noConfusion
  · rw [h]
    exact Float64.noConfusion

/-- A count that is at most a finite rate limit below 1 is itself below 1. -/
theorem below_one (x : Float64) (r e : Int) (hx : Float64.le x (Float64.fin r e) = true)
    (hr : Float64.lt (Float64.fin r e) (Float64.fin 1 0) = true) :
    Float64.lt x (Float64.fin 1 0) = true ∧ Float64.ge x (Float64.fin 1 0) = false := by
  cases x with
  | nan => cases hx
  | inf n =>
    cases n
    · cases hx
    · exact ⟨rfl, rfl⟩
  | fin m1 e1 =>
    have h1 := (le_fin_iff _ _ _ _).mp hx
    have h2 := (lt_fin_iff _ _ _ _).mp hr
    have h3 := lt_of_le_of_lt h1 h2
    refine ⟨(lt_fin_iff _ _ _ _).mpr h3, ?_⟩
    cases hg : Float64.ge (Float64.fin m1 e1) (Float64.fin 1 0) with
    | false => rfl
    | true => exact absurd h3 (not_lt.mpr ((le_fin_iff _ _ _ _).mp hg))

theorem Starved.below (c : telnet.Client) (hS : telnet.Starved c) :
    Float64.lt c.tokens (Float64.ofInt 1) = true := by
  obtain ⟨⟨r, e, hr, _⟩, hrate, ht⟩ := hS
  have hone : Float64.ofInt 1 = Float64.fin 1 0 := by decide
  rw [hr] at hrate ht
  rw [hone] at hrate ⊢
  exact (below_one _ r e ht hrate).1

/-- The cap of the refill: whatever is added, short of NaN, the count is at most the
rate limit afterwards. -/
theorem capped (t1 : Float64) (r e : Int) (h : t1 ≠ Float64.nan) :
    Float64.le (if Float64.gt t1 (Float64.fin r e) then Float64.fin r e else t1)
      (Float64.fin r e) = true := by
  have hrr : Float64.le (Float64.fin r e) (Float64.fin r e) = true :=
    (le_fin_iff _ _ _ _).mpr (le_refl _)
  cases t1 with
  | nan => exact absurd rfl h
  | inf n =>
    cases n
    · exact hrr
    · rfl
  | fin m1 e1 =>
    by_cases hg : Float64.gt (Float64.fin m1 e1) (Float64.fin r e) = true
    · rw [if_pos hg]
      exact hrr
    · rw [if_neg hg]
      have h1 : ¬ ((r : ℚ) * (2 : ℚ) ^ e < (m1 : ℚ) * (2 : ℚ) ^ e1) := by
        intro h2
        exact hg ((lt_fin_iff _ _ _ _).mpr h2)
      exact (le_fin_iff _ _ _ _).mpr (not_lt.mp h1)

/-- One round of the refill loop on a starved bucket, at any clock reading: the new
token count is at most the rate limit, so below 1. -/
theorem round_starved (c : telnet.Client) (hS : telnet.Starved c) (now : Int) :
    Float64.le (if Float64.gt (Float64.add c.tokens
          (Float64.mul (Seconds (Sub now (some c.lastTick))) c.cfg.RateLimitPerSec))
        c.cfg.RateLimitPerSec then c.cfg.RateLimitPerSec
      else Float64.add c.tokens
        (Float64.mul (Seconds (Sub now (some c.lastTick))) c.cfg.RateLimitPerSec))
      c.cfg.RateLimitPerSec = true ∧
    Float64.lt (if Float64.gt (Float64.add c.tokens
          (Float64.mul (Seconds (Sub now (some c.lastTick))) c.cfg.RateLimitPerSec))
        c.cfg.RateLimitPerSec then c.cfg.RateLimitPerSec
      else Float64.add c.tokens
        (Float64.mul (Seconds (Sub now (some c.lastTick))) c.cfg.RateLimitPerSec))
      (Float64.ofInt 1) = true ∧
    Float64.ge (if Float64.gt (Float64.add c.tokens
          (Float64.mul (Seconds (Sub now (some c.lastTick))) c.cfg.RateLimitPerSec))
        c.cfg.RateLimitPerSec then c.cfg.RateLimitPerSec
      else Float64.add c.tokens
        (Float64.mul (Seconds (Sub now (some c.lastTick))) c.cfg.RateLimitPerSec))
      (Float64.ofInt 1) = false := by
  obtain ⟨⟨r, e, hr, hpos⟩, hrate, ht⟩ := hS
  have hone : Float64.ofInt 1 = Float64.fin 1 0 := by decide
  rw [hr] at hrate ht ⊢
  rw [hone] at hrate ⊢
  have hr1 : |(r : ℚ)| * (2 : ℚ) ^ e ≤ 1 := by
    have h1 := (lt_fin_iff _ _ _ _).mp hrate
    have h2 : (0 : ℚ) < (r : ℚ) := by exact_mod_cast hpos
    rw [abs_of_pos h2]
    simpa using le_of_lt h1
  have hb := Sub_bounds now (some c.lastTick)
  have hp : (Float64.mul (Seconds (Sub now (some c.lastTick))) (Float64.fin r e)).Within
      (2 * 2 ^ 66) :=
    mul_within _ r e _ (Seconds_within _ hb.1 hb.2) hr1 (by norm_num)
  generalize Float64.mul (Seconds (Sub now (some c.lastTick))) (Float64.fin r e) = p at hp ⊢
  have hne : Float64.add c.tokens p ≠ Float64.nan := by
    cases p with
    | nan => exact False.elim hp
    | inf n => exact False.elim hp
    | fin m2 e2 =>
      cases hc : c.tokens with
      | nan =>
        rw [hc] at ht
        cases ht
      | inf n =>
        rw [hc] at ht
        cases n
        · cases ht
        · exact Float64.noConfusion
      | fin m1 e1 => exact add_fin_ne_nan m1 e1 m2 e2
  have hcap := capped (Float64.add c.tokens p) r e hne
  exact ⟨hcap, below_one _ r e hcap hrate⟩

theorem refillLoop_starved (clock : List Int) :
    ∀ c : telnet.Client, telnet.Starved c →
      (telnet.refillLoop c clock).2 = false ∧ telnet.Starved (telnet.refillLoop c clock).1 := by
  induction clock with
  | nil =>
    intro c hS
    exact ⟨rfl, hS⟩
  | cons now rest ih =>
    intro c hS
    obtain ⟨f1, f2, f3⟩ := round_starved c hS now
    cases rest with
    | nil =>
      simp only [telnet.refillLoop, f3, Bool.false_eq_true, if_false, true_and]
      exact ⟨hS.1, hS.2.1, f1⟩
    | cons n2 r2 =>
      rw [telnet.refillLoop]
      simp only [f3, f2, Bool.false_eq_true, if_false, if_true]
      exact ih _ (show telnet.Starved
        { c with
          tokens := (if Float64.gt (Float64.add c.tokens
              (Float64.mul (Seconds (Sub now (some c.lastTick))) c.cfg.RateLimitPerSec))
            c.cfg.RateLimitPerSec then c.cfg.RateLimitPerSec
          else Float64.add c.tokens
            (Float64.mul (Seconds (Sub now (some c.lastTick))) c.cfg.RateLimitPerSec)),
          lastTick := now } from ⟨hS.1, hS.2.1, f1⟩)

theorem takeToken_starved (c : telnet.Client) (clock : List Int) (hS : telnet.Starved c) :
    (c.takeToken clock).2 = false ∧ telnet.Starved (c.takeToken clock).1 := by
  unfold telnet.Client.takeToken
  rw [if_pos (Starved.below c hS)]
  exact refillLoop_starved clock c hS

theorem takeTokens_starved (clocks : List (List Int)) :
    ∀ c : telnet.Client, telnet.Starved c →
      (∀ b ∈ (c.takeTokens clocks).2, b = false) ∧ telnet.Starved (c.takeTokens clocks).1 := by
  induction clocks with
  | nil =>
    intro c hS
    refine ⟨?_, hS⟩
    intro b hb
    simp [telnet.Client.takeTokens] at hb
  | cons clock rest ih =>
    intro c hS
    obtain ⟨t1, t2⟩ := takeToken_starved c clock hS
    obtain ⟨i1, i2⟩ := ih _ t2
    refine ⟨?_, i2⟩
    intro b hb
    simp only [telnet.Client.takeTokens, List.mem_cons] at hb
    rcases hb with hb | hb
    · rw [hb]
      exact t1
    · exact i1 b hb

theorem takeTokens_cfg (clocks : List (List Int)) :
    ∀ c : telnet.Client, (c.takeTokens clocks).1.cfg = c.cfg := by
  induction clocks with
  | nil =>
    intro c
    rfl
  | cons clock rest ih =>
    intro c
    simp only [telnet.Client.takeTokens]
    rw [ih, (takeToken_frame c clock).1]

theorem pump_starved (c : telnet.Client) (now : Int) (clock : List Int)
    (write : Option (String × Int)) (hS : telnet.Starved c) :
    (c.pump now clock write).2.written = false ∧ telnet.Starved (c.pump now clock write).1 := by
  unfold telnet.Client.pump
  split
  · exact ⟨rfl, hS⟩
  · have hS1 : telnet.Starved
        (if c.breakerOpen = true then { c with breakerOpen := false, failCount := 0 } else c) := by
      split
      · exact hS
      · exact hS
    obtain ⟨t1, t2⟩ := takeToken_starved _ clock hS1
    simp only []
    cases hr : (if c.breakerOpen = true then { c with breakerOpen := false, failCount := 0 }
        else c).takeToken clock with
    | mk c2 ok =>
      rw [hr] at t1 t2
      simp only at t1 t2
      subst t1
      exact ⟨rfl, t2⟩

theorem run_starved (evs : List telnet.Event) :
    ∀ c : telnet.Client, telnet.Starved c →
      ∀ o ∈ (c.run evs).2, ∀ x, o = some x → x.written = false := by
  induction evs with
  | nil =>
    intro c _ o ho
    simp [telnet.Client.run] at ho
  | cons ev rest ih =>
    intro c hS o ho x hx
    cases ev with
    | connect ok =>
      have hS1 : telnet.Starved (c.step (telnet.Event.connect ok)).1 := by
        simp only [telnet.Client.step]
        split
        · exact hS
        · exact hS
      have h2 : (c.step (telnet.Event.connect ok)).2 = none := by
        simp only [telnet.Client.step]
        split <;> rfl
      simp only [telnet.Client.run, List.mem_cons] at ho
      rcases ho with ho | ho
      · rw [ho, h2] at hx
        cases hx
      · exact ih _ hS1 o ho x hx
    | request now clock write =>
      obtain ⟨q1, q2⟩ := pump_starved c now clock write hS
      simp only [telnet.Client.run, List.mem_cons] at ho
      by_cases hc : c.connected = true
      · have e1 : c.step (telnet.Event.request now clock write) =
            ((c.pump now clock write).1, some (c.pump now clock write).2) := by
          simp only [telnet.Client.step, hc, if_true]
        rw [e1] at ho
        rcases ho with ho | ho
        · rw [ho] at hx
          cases hx
          exact q1
        · exact ih _ q2 o ho x hx
      · have e1 : c.step (telnet.Event.request now clock write) = (c, none) := by
          simp only [telnet.Client.step, hc, Bool.false_eq_true, if_false]
        rw [e1] at ho
        rcases ho with ho | ho
        · rw [ho] at hx
          cases hx
        · exact ih _ hS o ho x hx

theorem NewClient_rate (cfg : telnet.Config) (t0 : Int)
    (h : Float64.le cfg.RateLimitPerSec Float64.zero = false) :
    (telnet.NewClient cfg t0).cfg.RateLimitPerSec = cfg.RateLimitPerSec := by
  unfold telnet.NewClient
  lift_lets
  extract_lets c1 c2 c3 c4 c5 c6
  have h1 : c1.RateLimitPerSec = cfg.RateLimitPerSec := by
    simp only [c1, h, Bool.false_eq_true, if_false]
  have h2 : c2.RateLimitPerSec = c1.RateLimitPerSec := by
    simp only [c2]
    split <;> rfl
  have h3 : c3.RateLimitPerSec = c2.RateLimitPerSec := by
    simp only [c3]
    split <;> rfl
  have h4 : c4.RateLimitPerSec = c3.RateLimitPerSec := by
    simp only [c4]
    split <;> rfl
  have h5 : c5.RateLimitPerSec = c4.RateLimitPerSec := by
    simp only [c5]
    split <;> rfl
  have h6 : c6.RateLimitPerSec = c5.RateLimitPerSec := by
    simp only [c6]
    split <;> rfl
  show c6.RateLimitPerSec = cfg.RateLimitPerSec
  rw [h6, h5, h4, h3, h2, h1]

theorem NewClient_fields (cfg : telnet.Config) (t0 : Int)
    (h : Float64.le cfg.RateLimitPerSec Float64.zero = false) :
    (telnet.NewClient cfg t0).cfg.RateLimitPerSec = cfg.RateLimitPerSec ∧
    (telnet.NewClient cfg t0).tokens = cfg.RateLimitPerSec ∧
    (telnet.NewClient cfg t0).lastTick = t0 := by
  have e := NewClient_rate cfg t0 h
  have e2 : (telnet.NewClient cfg t0).tokens = (telnet.NewClient cfg t0).cfg.RateLimitPerSec :=
    rfl
  exact ⟨e, e2.trans e, rfl⟩

theorem NewClient_starved (cfg : telnet.Config) (t0 : Int)
    (hpos : Float64.lt Float64.zero cfg.RateLimitPerSec = true)
    (hlt : Float64.lt cfg.RateLimitPerSec (Float64.ofInt 1) = true) :
    telnet.Starved (telnet.NewClient cfg t0) ∧
      (telnet.NewClient cfg t0).tokens = cfg.RateLimitPerSec ∧
      (telnet.NewClient cfg t0).cfg.RateLimitPerSec = cfg.RateLimitPerSec := by
  have hfin : ∃ r e, cfg.RateLimitPerSec = Float64.fin r e ∧ 0 < r := by
    cases hr : cfg.RateLimitPerSec with
    | nan =>
      rw [hr] at hpos
      cases hpos
    | inf n =>
      rw [hr] at hpos hlt
      cases n
      · cases hlt
      · cases hpos
    | fin r e =>
      rw [hr] at hpos
      exact ⟨r, e, rfl, pos_of_lt_zero r e hpos⟩
  obtain ⟨r, e, hr, hr0⟩ := hfin
  have hle : Float64.le cfg.RateLimitPerSec Float64.zero = false := by
    rw [hr]
    cases h : Float64.le (Float64.fin r e) Float64.zero with
    | false => rfl
    | true =>
      have h1 := (le_fin_iff r e 0 0).mp h
      have h2 := (lt_fin_iff 0 0 r e).mp (by rw [← hr]; exact hpos)
      exact absurd h2 (not_lt.mpr h1)
  obtain ⟨n1, n2, _⟩ := NewClient_fields cfg t0 hle
  refine ⟨⟨⟨r, e, by rw [n1, hr], hr0⟩, by rw [n1]; exact hlt, ?_⟩, n2, n1⟩
  rw [n2, n1, hr]
  exact (le_fin_iff _ _ _ _).mpr (le_refl _)

/-! ## Theorems: a rate limit below 1 -/

/-- Claim C29.  With a rate limit above 0 and below 1 the token bucket never grants a
token.  `NewClient` keeps the rate limit and starts with that many tokens.  For every
sequence of `takeToken` calls and all clock readings, every call returns `false`, and
the count left is at most the rate limit and so below 1, because every refill caps it
at the rate limit; and for every sequence of connects and requests no command is
handed to the connection. -/
theorem C29_low_rate_never_grants (cfg : telnet.Config) (t0 : Int)
    (hpos : Float64.lt Float64.zero cfg.RateLimitPerSec = true)
    (hlt : Float64.lt cfg.RateLimitPerSec (Float64.ofInt 1) = true) :
    (telnet.NewClient cfg t0).tokens = cfg.RateLimitPerSec ∧
    (∀ clocks : List (List Int),
      (∀ b ∈ ((telnet.NewClient cfg t0).takeTokens clocks).2, b = false) ∧
      Float64.le ((telnet.NewClient cfg t0).takeTokens clocks).1.tokens cfg.RateLimitPerSec
        = true ∧
      Float64.lt ((telnet.NewClient cfg t0).takeTokens clocks).1.tokens (Float64.ofInt 1)
        = true) ∧
    (∀ evs : List telnet.Event,
      ∀ o ∈ ((telnet.NewClient cfg t0).run evs).2, ∀ x, o = some x → x.written = false) := by
  obtain ⟨hS, ht, hr⟩ := NewClient_starved cfg t0 hpos hlt
  refine ⟨ht, ?_, ?_⟩
  · intro clocks
    obtain ⟨h1, h2⟩ := takeTokens_starved clocks _ hS
    refine ⟨h1, ?_, Starved.below _ h2⟩
    have h3 := h2.2.2
    have h4 : ((telnet.NewClient cfg t0).takeTokens clocks).1.cfg.RateLimitPerSec =
        cfg.RateLimitPerSec := by
      rw [takeTokens_cfg, hr]
    rw [h4] at h3
    exact h3
  · intro evs
    exact run_starved evs _ hS

/-- Claim C29 with rate limit 0.5: a call that polls the clock after 1 s and 2 s, a call
one hundred seconds later and a call at a clock reading that went back all return
`false`. -/
theorem C29_low_rate_never_grants_witness :
    ((telnet.NewClient slowCfg 0).takeTokens
      [[1 * second, 2 * second], [100 * second], [3 * second]]).2 = [false, false, false] := by
  have h := ((C29_low_rate_never_grants slowCfg 0 (by decide) (by decide)).2.1
    [[1 * second, 2 * second], [100 * second], [3 * second]]).1
  have hlen : ((telnet.NewClient slowCfg 0).takeTokens
      [[1 * second, 2 * second], [100 * second], [3 * second]]).2.length = 3 := rfl
  match hm : ((telnet.NewClient slowCfg 0).takeTokens
      [[1 * second, 2 * second], [100 * second], [3 * second]]).2, h, hlen with
  | [b1, b2, b3], h, _ =>
    have e1 : b1 = false := h b1 (by simp)
    have e2 : b2 = false := h b2 (by simp)
    have e3 : b3 = false := h b3 (by simp)
    rw [e1, e2, e3]

/-! ## Lemmas: products that float64 holds exactly -/

theorem log2Aux_spec (fuel : Nat) : ∀ (n acc : Nat), 1 ≤ n → n ≤ fuel →
    ∃ k, Float64.log2Aux fuel n acc = acc + k ∧ 2 ^ k ≤ n ∧ n < 2 ^ (k + 1) := by
  induction fuel with
  | zero =>
    intro n acc h1 h2
    omega
  | succ f ih =>
    intro n acc h1 h2
    unfold Float64.log2Aux
    by_cases hn : n < 2
    · rw [if_pos hn]
      exact ⟨0, rfl, by simpa using h1, by simpa using hn⟩
    · rw [if_neg hn]
      obtain ⟨k, hk, hlo, hhi⟩ := ih (n / 2) (acc + 1) (by omega) (by omega)
      refine ⟨k + 1, by rw [hk]; omega, ?_, ?_⟩
      · rw [pow_succ]
        omega
      · rw [pow_succ]
        omega

theorem log2_spec (n : Nat) (h : 1 ≤ n) :
    2 ^ Float64.log2 n ≤ n ∧ n < 2 ^ (Float64.log2 n + 1) := by
  obtain ⟨k, hk, hlo, hhi⟩ := log2Aux_spec n n 0 h (le_refl _)
  unfold Float64.log2
  rw [hk, Nat.zero_add]
  exact ⟨hlo, hhi⟩

/-- A ratio that is a whole number below `2^53` is rounded to itself. -/
theorem roundPos_exact (num den K : Nat) (hnum : num = K * den) (hden : 0 < den)
    (hK0 : 0 < K) (hK : K < 2 ^ 53) :
    ∃ m e, Float64.roundPos num den = some (m, e) ∧ (m : ℚ) * (2 : ℚ) ^ e = (K : ℚ) := by
  have hnum1 : 1 ≤ num := by
    rw [hnum]
    exact Nat.mul_pos hK0 hden
  obtain ⟨a1, a2⟩ := log2_spec num hnum1
  obtain ⟨b1, b2⟩ := log2_spec den hden
  unfold Float64.roundPos
  lift_lets
  intro e0 e sh a b q r m
  have he : e ≤ 52 := by
    show (if Float64.geTwoPow num den e0 = true then e0 else e0 - 1) ≤ 52
    split_ifs with hg
    · by_contra hcon
      have h53 : (53 : Int) ≤ e0 := by omega
      have h0 : (0 : Int) ≤ e0 := by omega
      simp only [Float64.geTwoPow, h0, if_true, decide_eq_true_eq] at hg
      have h2 : 2 ^ 53 ≤ 2 ^ e0.toNat := Nat.pow_le_pow_right (by norm_num) (by omega)
      have h3 : den * 2 ^ 53 ≤ den * 2 ^ e0.toNat := Nat.mul_le_mul_left _ h2
      have h4 : K * den < 2 ^ 53 * den := Nat.mul_lt_mul_of_pos_right hK hden
      rw [← hnum] at h4
      have h5 : den * 2 ^ 53 = 2 ^ 53 * den := Nat.mul_comm _ _
      omega
    · by_contra hcon
      have h54 : (54 : Int) ≤ (Float64.log2 num : Int) - (Float64.log2 den : Int) := by
        show (54 : Int) ≤ e0
        omega
      have h1 : Float64.log2 den + 1 + 53 ≤ Float64.log2 num := by omega
      have h2 : 2 ^ (Float64.log2 den + 1 + 53) ≤ 2 ^ Float64.log2 num :=
        Nat.pow_le_pow_right (by norm_num) h1
      have h3 : 2 ^ (Float64.log2 den + 1 + 53) = 2 ^ (Float64.log2 den + 1) * 2 ^ 53 := by
        rw [pow_add]
      have h4 : K * den < 2 ^ 53 * den := Nat.mul_lt_mul_of_pos_right hK hden
      rw [← hnum] at h4
      have h5 : den * 2 ^ 53 < 2 ^ (Float64.log2 den + 1) * 2 ^ 53 :=
        Nat.mul_lt_mul_of_pos_right b2 (by norm_num)
      have h6 : den * 2 ^ 53 = 2 ^ 53 * den := Nat.mul_comm _ _
      omega
  have hsh : sh ≤ 0 := by
    show max e (-1022) - 52 ≤ 0
    omega
  clear_value e
  clear e0
  clear_value sh
  have hab : a = K * 2 ^ (-sh).toNat * b := by
    show (if 0 ≤ sh then num else num * 2 ^ (-sh).toNat) =
      K * 2 ^ (-sh).toNat * (if 0 ≤ sh then den * 2 ^ sh.toNat else den)
    split_ifs with h0
    · have hz : sh = 0 := by omega
      subst hz
      simp [hnum]
    · rw [hnum]
      ring
  have hb : 0 < b := by
    show 0 < (if 0 ≤ sh then den * 2 ^ sh.toNat else den)
    split_ifs
    · exact Nat.mul_pos hden (pow_pos (by norm_num) _)
    · exact hden
  have hq : q = K * 2 ^ (-sh).toNat := by
    show a / b = _
    rw [hab]
    exact Nat.mul_div_cancel _ hb
  have hr : r = 0 := by
    show a % b = 0
    rw [hab]
    exact Nat.mul_mod_left _ _
  have hm : m = K * 2 ^ (-sh).toNat := by
    show (if 2 * r < b then q else if b < 2 * r then q + 1 else if q % 2 = 0 then q else q + 1) = _
    rw [hr, if_pos (by omega)]
    exact hq
  clear_value m
  have hno : ¬ (0 ≤ sh ∧ 2 ^ 1024 ≤ m * 2 ^ sh.toNat) := by
    rintro ⟨h0, h⟩
    have hz : sh = 0 := by omega
    subst hz
    have e1 : (-(0 : Int)).toNat = 0 := rfl
    have e2 : (0 : Int).toNat = 0 := rfl
    rw [hm, e1, e2, pow_zero, Nat.mul_one, Nat.mul_one] at h
    have h2 : (2 : Nat) ^ 53 ≤ 2 ^ 1024 := by norm_num
    omega
  refine ⟨(Float64.norm m sh).1, (Float64.norm m sh).2, by rw [if_neg hno], ?_⟩
  rw [norm_val, hm]
  have hz : (2 : ℚ) ^ sh = ((2 : ℚ) ^ (-sh).toNat)⁻¹ := by
    rw [← zpow_natCast, Int.toNat_of_nonneg (by omega), zpow_neg, inv_inv]
  have hp : (2 : ℚ) ^ (-sh).toNat ≠ 0 := by positivity
  rw [hz]
  push_cast
  field_simp
/-- A product `n * 2^e` that is the whole number `K`, below `2^53`, is kept as it is. -/
theorem scaled_exact (neg : Bool) (n : Nat) (e : Int) (K : Nat)
    (hK : (n : ℚ) * (2 : ℚ) ^ e = (K : ℚ)) (hlt : K < 2 ^ 53) :
    ∃ m1 e1, (match (if 0 ≤ e then Float64.ofRatio neg (n * 2 ^ e.toNat) 1
        else Float64.ofRatio neg n (2 ^ (-e).toNat)) with
      | some f => f
      | none => Float64.inf neg) = Float64.fin m1 e1 ∧
      (m1 : ℚ) * (2 : ℚ) ^ e1 = (if neg = true then -(K : ℚ) else (K : ℚ)) := by
  have hp : (0 : ℚ) < (2 : ℚ) ^ e := zpow_pos (by norm_num) _
  by_cases hK0 : K = 0
  · subst hK0
    have hn : n = 0 := by
      have h1 : n = 0 ∨ (2 : ℚ) ^ e = 0 := by simpa using hK
      rcases h1 with h | h
      · exact h
      · exact absurd h (ne_of_gt hp)
    subst hn
    refine ⟨0, 0, ?_, by simp⟩
    by_cases he : 0 ≤ e
    · rw [if_pos he]
      simp [Float64.ofRatio, Float64.zero]
    · rw [if_neg he]
      simp [Float64.ofRatio, Float64.zero]
  · have hKpos : 0 < K := Nat.pos_of_ne_zero hK0
    have fin_of : ∀ num den : Nat, num = K * den → 0 < den →
        ∃ m1 e1, (match Float64.ofRatio neg num den with
          | some f => f
          | none => Float64.inf neg) = Float64.fin m1 e1 ∧
          (m1 : ℚ) * (2 : ℚ) ^ e1 = (if neg = true then -(K : ℚ) else (K : ℚ)) := by
      intro num den hnum hden
      obtain ⟨m, e2, hr, hv⟩ := roundPos_exact num den K hnum hden hKpos hlt
      have h0 : ¬ (num = 0 ∨ den = 0) := by
        have : 0 < num := by rw [hnum]; exact Nat.mul_pos hKpos hden
        omega
      simp only [Float64.ofRatio, h0, if_false, hr]
      refine ⟨_, _, rfl, ?_⟩
      cases neg
      · simpa using hv
      · simp only [if_true, Int.cast_neg, Int.cast_natCast, neg_mul]
        rw [hv]
    by_cases he : 0 ≤ e
    · rw [if_pos he]
      apply fin_of _ 1 _ (by norm_num)
      have hz : (2 : ℚ) ^ e = (2 : ℚ) ^ e.toNat := by
        rw [← zpow_natCast, Int.toNat_of_nonneg he]
      rw [hz] at hK
      rw [Nat.mul_one]
      exact_mod_cast hK
    · rw [if_neg he]
      apply fin_of n _ _ (pow_pos (by norm_num) _)
      have hz : (2 : ℚ) ^ e = ((2 : ℚ) ^ (-e).toNat)⁻¹ := by
        rw [← zpow_natCast, Int.toNat_of_nonneg (by omega), zpow_neg, inv_inv]
      have hp2 : (2 : ℚ) ^ (-e).toNat ≠ 0 := by positivity
      rw [hz] at hK
      have h2 : (n : ℚ) = (K : ℚ) * (2 : ℚ) ^ (-e).toNat := by
        field_simp at hK
        exact hK
      exact_mod_cast h2

/-- A float64 that holds the whole number `N` converts to `N`. -/
theorem toInt64_exact (m e N : Int) (hv : (m : ℚ) * (2 : ℚ) ^ e = (N : ℚ))
    (h1 : -(2 ^ 63 : Int) ≤ N) (h2 : N < 2 ^ 63) : (Float64.fin m e).toInt64 = N := by
  have ht : (if 0 ≤ e then m * 2 ^ e.toNat else Int.tdiv m (2 ^ (-e).toNat)) = N := by
    split_ifs with he
    · have hz : (2 : ℚ) ^ e = (2 : ℚ) ^ e.toNat := by
        rw [← zpow_natCast, Int.toNat_of_nonneg he]
      rw [hz] at hv
      exact_mod_cast hv
    · have hz : (2 : ℚ) ^ e = ((2 : ℚ) ^ (-e).toNat)⁻¹ := by
        rw [← zpow_natCast, Int.toNat_of_nonneg (by omega), zpow_neg, inv_inv]
      have hp2 : (2 : ℚ) ^ (-e).toNat ≠ 0 := by positivity
      rw [hz] at hv
      have h3 : (m : ℚ) = (N : ℚ) * (2 : ℚ) ^ (-e).toNat := by
        field_simp at hv
        exact hv
      have h4 : m = N * 2 ^ (-e).toNat := by exact_mod_cast h3
      rw [h4]
      exact Int.mul_tdiv_cancel _ (pow_ne_zero _ (by norm_num))
  simp only [Float64.toInt64]
  rw [ht, if_pos ⟨h1, h2⟩]

/-- Where the cooldown in nanoseconds is a whole number `N` below `2^53` in magnitude,
the conversion `time.Duration(x * float64(time.Second))` gives exactly `N`. -/
theorem secondsToDuration_exact (m e N : Int)
    (hv : (m : ℚ) * (2 : ℚ) ^ e * 1000000000 = (N : ℚ)) (hN : |N| < 2 ^ 53) :
    secondsToDuration (Float64.fin m e) = N := by
  have e9 : Float64.ofInt 1000000000 = Float64.fin 1953125 9 := by decide
  unfold secondsToDuration
  rw [e9]
  have habs := abs_lt.mp hN
  have hprod : (((m * 1953125).natAbs : Nat) : ℚ) * (2 : ℚ) ^ (e + 9) = ((N.natAbs : Nat) : ℚ) := by
    rw [Nat.cast_natAbs, Nat.cast_natAbs, Int.cast_abs, Int.cast_abs, ← hv]
    have hp : (0 : ℚ) < (2 : ℚ) ^ (e + 9) := zpow_pos (by norm_num) _
    rw [← abs_of_pos hp, ← abs_mul]
    congr 1
    have h9 : (2 : ℚ) ^ (e + 9) = (2 : ℚ) ^ e * 512 := by
      rw [zpow_add₀ (two_ne_zero)]
      norm_num
    rw [h9]
    push_cast
    ring
  have hKlt : N.natAbs < 2 ^ 53 := by omega
  obtain ⟨m1, e1, hf, hval⟩ := scaled_exact (decide (m * 1953125 < 0)) (m * 1953125).natAbs
    (e + 9) N.natAbs hprod hKlt
  simp only [Float64.mul]
  rw [hf]
  apply toInt64_exact m1 e1 N _ (by omega) (by omega)
  rw [hval]
  have hsign : (m * 1953125 < 0) ↔ N < 0 := by
    have hp : (0 : ℚ) < (2 : ℚ) ^ e * 1000000000 := by positivity
    have hv2 : (N : ℚ) = (m : ℚ) * ((2 : ℚ) ^ e * 1000000000) := by rw [← hv]; ring
    constructor
    · intro h
      have hm : (m : ℚ) < 0 := by
        have : m < 0 := by omega
        exact_mod_cast this
      have : (N : ℚ) < 0 := by rw [hv2]; exact mul_neg_of_neg_of_pos hm hp
      exact_mod_cast this
    · intro h
      have hNq : (N : ℚ) < 0 := by exact_mod_cast h
      rw [hv2] at hNq
      have hm : (m : ℚ) < 0 := by
        by_contra hcon
        have := mul_nonneg (not_lt.mp hcon) (le_of_lt hp)
        linarith
      have : m < 0 := by exact_mod_cast hm
      omega
  by_cases hneg : N < 0
  · rw [decide_eq_true (hsign.mpr hneg), if_pos rfl, Nat.cast_natAbs, Int.cast_abs,
      abs_of_neg (by exact_mod_cast hneg), neg_neg]
  · have hd : decide (m * 1953125 < 0) = false := decide_eq_false (fun h => hneg (hsign.mp h))
    rw [hd, Nat.cast_natAbs, Int.cast_abs, abs_of_nonneg (by exact_mod_cast not_lt.mp hneg)]
    simp
theorem Sub_ge_iff (now t N : Int) (h1 : -(2 ^ 53) < N) (h2 : N < 2 ^ 53) :
    N ≤ Sub now (some t) ↔ N ≤ now - t := by
  unfold Sub maxDuration minDuration
  simp only []
  split_ifs <;> omega

/-! ## Theorems: the cooldown as `Evaluate` converts it -/

set_option maxRecDepth 100000 in
set_option exponentiation.threshold 2048 in
/-- Claim C5, the divergence.  `Evaluate` compares `now.Sub(last_action)` with
`time.Duration(cooldown_seconds * float64(time.Second))`.  For cooldown_seconds 1e10
the product is beyond the `int64` range and the conversion gives `-2^63` (as it does for
NaN and the infinities), so the cooldown test never holds back: the guard of the
throttle scenario, throttled at second 8, emits the second step on the low snapshot
one nanosecond later, although 1 ns is far less than 1e10 s.  Otherwise the claim holds.
In state Throttled(k), on a snapshot after which the window's low count is at least
`require_low_samples`, `Evaluate` emits `SetGamePref(steps[k+1])` and moves to
Throttled(k+1) if and only if `k + 1 < len(steps)` and `now.Sub(last_action)` is at
least the converted cooldown, and else emits nothing and keeps the step index; where
cooldown_seconds is a whole number `N` of nanoseconds below `2^53` the converted cooldown
is `N` and the condition is `now - last_action >= cooldown_seconds`; and over any run
from Throttled(k) the first action emitted is the step `k + 1` or `RestoreBaseline`,
never the step `k` again. -/
theorem C5_throttle_step :
    (secondsToDuration longCooldownCfg.CooldownSeconds = minDuration ∧
      ((NewFPSGuard "test" longCooldownCfg scenarioProfiles).run longCooldownScenario).map
          Prod.snd =
        some [none, none, none, none, none, none, none,
          some (Action.SetGamePref "test" "fps_guardrail: FPS below threshold"
            "MaxSpawnedZombies" "30"),
          some (Action.SetGamePref "test" "fps_guardrail: stepping throttle"
            "MaxSpawnedZombies" "20")] ∧
      (longCooldownScenario.map Prod.snd).drop 7 = [8 * second, 8 * second + 1] ∧
      secondsToDuration Float64.nan = minDuration ∧
      secondsToDuration (Float64.inf false) = minDuration ∧
      secondsToDuration (Float64.inf true) = minDuration) ∧
    (∀ (g : FPSGuard) (snap : Snapshot) (now : Int), g.throttled = true → 0 ≤ g.lastStep →
      g.cfg.RequireLowSamples ≤ ((g.appended snap).lowCount : Int) →
      ∃ g1 a, g.Evaluate snap now = some (g1, a) ∧
        (a ≠ none ↔ (g.lastStep + 1 < (g.steps.length : Int) ∧
                      secondsToDuration g.cfg.CooldownSeconds ≤ Sub now g.lastAction)) ∧
        (a ≠ none → ∃ st, stepAt g.steps (g.lastStep + 1) = some st ∧
            a = some (Action.SetGamePref g.instanceName "fps_guardrail: stepping throttle"
                  st.Pref st.Value) ∧
            g1.throttled = true ∧ g1.lastStep = g.lastStep + 1 ∧ g1.lastAction = some now) ∧
        (a = none → g1.throttled = true ∧ g1.lastStep = g.lastStep ∧
            g1.lastAction = g.lastAction)) ∧
    (∀ (g : FPSGuard) (snap : Snapshot) (now t m e N : Int), g.throttled = true →
      0 ≤ g.lastStep → g.cfg.RequireLowSamples ≤ ((g.appended snap).lowCount : Int) →
      g.lastAction = some t → g.cfg.CooldownSeconds = Float64.fin m e →
      (m : ℚ) * (2 : ℚ) ^ e * 1000000000 = (N : ℚ) → |N| < 2 ^ 53 →
      secondsToDuration g.cfg.CooldownSeconds = N ∧
      ∃ g1 a, g.Evaluate snap now = some (g1, a) ∧
        (a ≠ none ↔ (g.lastStep + 1 < (g.steps.length : Int) ∧ N ≤ now - t))) ∧
    (∀ (g : FPSGuard), g.throttled = true → 0 ≤ g.lastStep →
      ∀ evs : List (Snapshot × Int), ∃ g2 acts, g.run evs = some (g2, acts) ∧
        ∀ (i : Nat) (a : Action), acts[i]? = some (some a) →
          (∀ j, j < i → acts[j]? = some none) →
          ((∃ st, stepAt g.steps (g.lastStep + 1) = some st ∧
              a = Action.SetGamePref g.instanceName "fps_guardrail: stepping throttle"
                    st.Pref st.Value) ∨
           a = Action.RestoreBaseline g.instanceName
                  "fps_guardrail: FPS stable, restore baseline")) := by
  refine ⟨by decide, ?_, ?_, ?_⟩
  · intro g snap now hT hk hlow
    exact (throttled_step_rule g snap now hT hk hlow).1
  · intro g snap now t m e N hT hk hlow hla hcd hv hN
    have hD : secondsToDuration g.cfg.CooldownSeconds = N := by
      rw [hcd]
      exact secondsToDuration_exact m e N hv hN
    obtain ⟨g1, a, he, hiff, -, -⟩ := (throttled_step_rule g snap now hT hk hlow).1
    refine ⟨hD, g1, a, he, ?_⟩
    rw [hiff, hD, hla, Sub_ge_iff now t N (abs_lt.mp hN).1 (abs_lt.mp hN).2]
  · intro g hT hk evs
    exact run_throttled_first_action evs g hT hk

/-- Claim C5 at the scenario's guard one snapshot after the throttle (cooldown 0, last
action at clock reading 8): the fourth low snapshot, at reading 9, emits an action
exactly when a further step is left and `0 <= 9 - 8`. -/
theorem C5_throttle_step_witness :
    secondsToDuration scenarioThrottled.cfg.CooldownSeconds = 0 ∧
    ∃ g1 a, scenarioThrottled.Evaluate (snapFPS (Float64.ofInt 20)) 9 = some (g1, a) ∧
      (a ≠ none ↔ (scenarioThrottled.lastStep + 1 < (scenarioThrottled.steps.length : Int) ∧
        (0 : Int) ≤ 9 - 8)) :=
  C5_throttle_step.2.2.1 scenarioThrottled (snapFPS (Float64.ofInt 20)) 9 8 0 0 0
    (by decide) (by decide) (by decide) rfl rfl (by norm_num) (by norm_num)

/-- Claim C11, amended.  Cooldown separates the actions of one throttle episode: when a
guard started by `NewFPSGuard` has evaluated the calls `evs` and its next call, at
clock reading `now`, returns an action, then either the guard was Throttled, an
earlier call returned an action (the last of them at reading `t`) and `now.Sub(t)` is at
least the cooldown as `Evaluate` converts it, `time.Duration(cooldown_seconds * 1e9)`,
which is cooldown_seconds itself wherever that is a whole number `N` of nanoseconds
below `2^53`, so that at least cooldown_seconds lie between `t` and `now`; or the guard
was Normal and the action is `SetGamePref(steps[0])`, the first step of a new throttle,
which no cooldown delays. -/
theorem C11_cooldown_while_throttled (name : String) (cfg : FPSGuardPolicy)
    (profiles : ProfileMap) (evs : List (Snapshot × Int)) (g : FPSGuard)
    (acts : List (Option Action)) (snap : Snapshot) (now : Int) (g1 : FPSGuard) (a : Action)
    (hrun : (NewFPSGuard name cfg profiles).run evs = some (g, acts))
    (hev : g.Evaluate snap now = some (g1, some a)) :
    (g.throttled = true ∧ ∃ t, lastEmit evs acts none = some t ∧
        secondsToDuration cfg.CooldownSeconds ≤ Sub now (some t) ∧
        (∀ m e N : Int, cfg.CooldownSeconds = Float64.fin m e →
          (m : ℚ) * (2 : ℚ) ^ e * 1000000000 = (N : ℚ) → |N| < 2 ^ 53 →
          secondsToDuration cfg.CooldownSeconds = N ∧ N ≤ now - t)) ∨
    (g.throttled = false ∧ ∃ st, (NewFPSGuard name cfg profiles).steps.head? = some st ∧
        a = Action.SetGamePref name "fps_guardrail: FPS below threshold" st.Pref st.Value) := by
  have hinv0 : (NewFPSGuard name cfg profiles).throttled = true →
      (NewFPSGuard name cfg profiles).lastAction ≠ none := by
    intro h
    simp [NewFPSGuard] at h
  obtain ⟨hl, hinv, hcfg, hname⟩ := run_lastAction evs _ _ hinv0 hrun
  have hl0 : g.lastAction = lastEmit evs acts none := hl
  have hc : g.cfg.CooldownSeconds = cfg.CooldownSeconds := by
    have h1 : g.cfg = (NewFPSGuard name cfg profiles).cfg := hcfg
    rw [h1, NewFPSGuard_CooldownSeconds]
  have hn : g.instanceName = name := hname
  obtain ⟨-, -, hcool, -⟩ := Evaluate_lastAction g snap now g1 (some a) hev hinv
  cases hT : g.throttled with
  | true =>
    left
    refine ⟨rfl, ?_⟩
    have hne := hinv hT
    have hcd := hcool hT (by simp)
    rw [hc] at hcd
    cases hla : g.lastAction with
    | none => exact absurd hla hne
    | some t =>
      rw [hla] at hcd hl0
      refine ⟨t, hl0.symm, hcd, ?_⟩
      intro m e N hfin hv hN
      have hD : secondsToDuration cfg.CooldownSeconds = N := by
        rw [hfin]
        exact secondsToDuration_exact m e N hv hN
      rw [hD] at hcd
      exact ⟨hD, (Sub_ge_iff now t N (abs_lt.mp hN).1 (abs_lt.mp hN).2).mp hcd⟩
  | false =>
    right
    refine ⟨rfl, ?_⟩
    have hsteps : g.steps = (NewFPSGuard name cfg profiles).steps := by
      obtain ⟨r, hr, hs, -, -⟩ := run_stepIndex evs (NewFPSGuard name cfg profiles)
        (by simp [NewFPSGuard]) (by intro h; simp [NewFPSGuard] at h)
      rw [hrun] at hr
      cases hr
      exact hs
    rw [← hsteps]
    cases hs : g.steps with
    | nil =>
      rw [Evaluate_noSteps g snap now hs] at hev
      cases hev
    | cons st rest =>
      rw [Evaluate_normal g snap now hT st rest hs] at hev
      split_ifs at hev
      · cases hev
        exact ⟨st, rfl, by rw [hn]⟩
      · cases hev

/-- Claim C11 at a guard with cooldown 0.5 s that throttled at second 2: the low snapshot at
second 3 returns the second step, one second after the first, and the cooldown of
500 ms lies between the two. -/
theorem C11_cooldown_while_throttled_witness :
    ∃ t, lastEmit (dipScenario.take 2) [none, some (Action.SetGamePref "test"
          "fps_guardrail: FPS below threshold" "MaxSpawnedZombies" "30")] none = some t ∧
        secondsToDuration cooldownCfg.CooldownSeconds = 500 * millisecond ∧
        500 * millisecond ≤ 3 * second - t := by
  rcases C11_cooldown_while_throttled "test" cooldownCfg scenarioProfiles (dipScenario.take 2)
      cooldownGuard [none, some (Action.SetGamePref "test"
          "fps_guardrail: FPS below threshold" "MaxSpawnedZombies" "30")]
      (snapFPS (Float64.ofInt 20)) (3 * second)
      { cooldownGuard.appended (snapFPS (Float64.ofInt 20)) with
        lastStep := 1, lastAction := some (3 * second) }
      (Action.SetGamePref "test" "fps_guardrail: stepping throttle" "MaxSpawnedZombies" "20")
      (by decide) (by decide) with ⟨-, t, h1, -, h3⟩ | ⟨hf, -⟩
  · obtain ⟨h4, h5⟩ := h3 1 (-1) (500 * millisecond) rfl (by norm_num [millisecond])
      (by norm_num [millisecond])
    exact ⟨t, h1, h4, h5⟩
  · exact absurd hf (by decide)

end Carrion
